import Mathlib

/-!
# GiPath: the path builder of vgcore (`core/src/graph/gipath.cpp`)

A shallow embedding of `GiPath` and its builder operations.

* The object state `GiPathImpl` is a record of the two node vectors and the
  `beginIndex` marker; every mutator is a function from the old state to the
  returned `bool` and the new state.
* Coordinates are `float` in the source. They are kept abstract here: the scalar
  type `F` is a parameter and only the operations the code applies to it
  (`+`, `-`, `*`, the literals `0` and `2`) are assumed, with no algebraic law.
  Where rounding decides a property, the integer-valued `float` numbers are the type
  `Float32`, whose operations round to 24 significant bits.
* `int` values are `Int`. Vector sizes are far below `2^31`, so the casts of
  `getSize` do not wrap.
* A `const Point2d*` argument is `Option (List (Point2d F))`: `none` is the null
  pointer, `some buf` a buffer holding the points `buf`.
-/

set_option autoImplicit false

namespace Vgcore

/-! ## Points and vectors (mgpnt.h) -/

/-- Modelled from the spec: the class `Point2d` of mgpnt.h, which is not among the
sources. A 2-D point is a pair of coordinates. -/
structure Point2d (F : Type) where
  x : F
  y : F
deriving DecidableEq, Repr

/-- Modelled from the spec: the class `Vector2d` of mgpnt.h, which is not among the
sources. A 2-D vector is a pair of coordinates. -/
structure Vector2d (F : Type) where
  x : F
  y : F
deriving DecidableEq, Repr

section PointOps
variable {F : Type}

/-- Modelled from the spec: the default constructor `Point2d()` of mgpnt.h is the
origin. -/
instance [Zero F] : Inhabited (Point2d F) := ⟨⟨0, 0⟩⟩

/-- Modelled from the spec: `Point2d + Point2d` of mgpnt.h adds coordinate-wise
("relative mode adds the current end point"). -/
instance [Add F] : Add (Point2d F) := ⟨fun a b => ⟨a.x + b.x, a.y + b.y⟩⟩

/-- Modelled from the spec: `Point2d - Point2d` of mgpnt.h is the vector between the
two points. -/
instance [Sub F] : HSub (Point2d F) (Point2d F) (Vector2d F) :=
  ⟨fun a b => ⟨a.x - b.x, a.y - b.y⟩⟩

/-- Modelled from the spec: `Point2d - Vector2d` of mgpnt.h moves the point back by
the vector. -/
instance [Sub F] : HSub (Point2d F) (Vector2d F) (Point2d F) :=
  ⟨fun a v => ⟨a.x - v.x, a.y - v.y⟩⟩

/-- Modelled from the spec: `float * Point2d` of mgpnt.h scales both coordinates. -/
instance [Mul F] : HMul F (Point2d F) (Point2d F) := ⟨fun s a => ⟨s * a.x, s * a.y⟩⟩

/-- Modelled from the spec: `Point2d::asVector` of mgpnt.h reads the point as a
vector from the origin. -/
def Point2d.asVector (a : Point2d F) : Vector2d F := ⟨a.x, a.y⟩

end PointOps

/-! ## Curve fitting (mgcurv.h) -/

/-- The output parameters of `mgcurv::arcTan` and `mgcurv::arc3P`. -/
structure ArcFit (F : Type) where
  center : Point2d F
  radius : F
  startAngle : F
  sweepAngle : F

/-- Modelled from the spec: the curve functions of mgcurv.h, which is not among the
sources, taken as parameters. `arcTan start end tangent` and `arc3P start via end`
return `none` where the C++ function returns `false`; `arcToBezier center rx ry
startAngle sweepAngle` returns the points written to the output array, its length
being the returned count. -/
structure Mgcurv (F : Type) where
  arcTan : Point2d F → Point2d F → Vector2d F → Option (ArcFit F)
  arc3P : Point2d F → Point2d F → Point2d F → Option (ArcFit F)
  arcToBezier : Point2d F → F → F → F → F → List (Point2d F)

/-! ## Float helpers (math.h, mgdef.h, mgpnt.h) -/

/-- Modelled from the spec: the constants and float helpers that `AngleToBezier` and
`genericRoundLines` take from math.h, mgdef.h and mgpnt.h, none of which is among the
sources, taken as parameters: the zero tolerance `_MGZERO`, the literals `0.5f`
(`half`) and `1e-4f` (`eps`), the quarter turn `_M_PI_2`, `fabsf`, `tan`, `mgMin`,
`Vector2d::angleTo2`, `Vector2d::length` and `Point2d::rulerPoint`. -/
structure Mgmath (F : Type) where
  _MGZERO : F
  half : F
  eps : F
  _M_PI_2 : F
  fabsf : F → F
  tan : F → F
  mgMin : F → F → F
  angleTo2 : Vector2d F → Vector2d F → F
  length : Vector2d F → F
  rulerPoint : Point2d F → Point2d F → F → F → Point2d F

/-! ## Node types (gipath.h, `GiPathNode`) -/

def kGiCloseFigure : Int := 1
def kGiLineTo : Int := 2
def kGiBezierTo : Int := 4
def kGiQuadTo : Int := 8
def kGiMoveTo : Int := 6

/-! ## The path state (`GiPathImpl`) -/

/-- The data of a path: `GiPathImpl` in gipath.cpp. -/
structure GiPath (F : Type) where
  points : List (Point2d F)
  types : List Int
  beginIndex : Int
deriving DecidableEq, Repr

/-- Reading `points[i]` through a `const Point2d*` argument. -/
def ptrAt {F : Type} [Zero F] (points : Option (List (Point2d F))) (i : Nat) : Point2d F :=
  (points.getD []).getD i default

namespace GiPath

section Ops
variable {F : Type}

/-- The default constructor `GiPath::GiPath()`. -/
def empty : GiPath F := ⟨[], [], -1⟩

/-- The function `getSize(m_data->points)`. -/
def getSize (p : GiPath F) : Int := (p.points.length : Int)

/-- The function `GiPath::getCount`. -/
def getCount (p : GiPath F) : Int := p.getSize

/-- The function `GiPath::getEndPoint`. -/
def getEndPoint [Zero F] (p : GiPath F) : Point2d F :=
  match p.points.getLast? with
  | none => default
  | some q => q

/-- The function `GiPath::getNodeType`. -/
def getNodeType (p : GiPath F) (index : Int) : Int :=
  if index ≥ 0 ∧ index < p.getCount then p.types.getD index.toNat 0 else 0

/-- The function `GiPath::getPoint`. -/
def getPoint [Zero F] (p : GiPath F) (index : Int) : Point2d F :=
  if index ≥ 0 ∧ index < p.getCount then p.points.getD index.toNat default else default

/-- One `points.push_back(pt); types.push_back(type)` pair. -/
def pushBack (p : GiPath F) (pt : Point2d F) (type : Int) : GiPath F :=
  ⟨p.points ++ [pt], p.types ++ [type], p.beginIndex⟩

/-- The function `GiPath::clear`. -/
def clear (_p : GiPath F) : GiPath F :=
  ⟨[], [], -1⟩

/-- The function `GiPath::startFigure`. -/
def startFigure (p : GiPath F) : GiPath F :=
  ⟨p.points, p.types, -1⟩

/-- The function `GiPath::moveTo`. -/
def moveTo [Zero F] [Add F] (p : GiPath F) (point : Point2d F) (rel : Bool) :
    Bool × GiPath F :=
  let points := p.points ++ [if rel then point + p.getEndPoint else point]
  let types := p.types ++ [kGiMoveTo]
  (true, ⟨points, types, (points.length : Int) - 1⟩)

/-- The function `GiPath::lineTo`. -/
def lineTo [Zero F] [Add F] (p : GiPath F) (point : Point2d F) (rel : Bool) :
    Bool × GiPath F :=
  let ret := decide (p.beginIndex ≥ 0)
  if ret then
    (ret, p.pushBack (if rel then point + p.getEndPoint else point) kGiLineTo)
  else (ret, p)

/-- The function `GiPath::horzTo`. -/
def horzTo [Zero F] [Add F] (p : GiPath F) (x : F) (rel : Bool) : Bool × GiPath F :=
  let pt := p.getEndPoint
  let ret := decide (p.beginIndex ≥ 0)
  if ret then
    (ret, p.pushBack ⟨if rel then pt.x + x else x, pt.y⟩ kGiLineTo)
  else (ret, p)

/-- The function `GiPath::vertTo`. -/
def vertTo [Zero F] [Add F] (p : GiPath F) (y : F) (rel : Bool) : Bool × GiPath F :=
  let pt := p.getEndPoint
  let ret := decide (p.beginIndex ≥ 0)
  if ret then
    (ret, p.pushBack ⟨pt.x, if rel then pt.y + y else y⟩ kGiLineTo)
  else (ret, p)

/-- The loop `for (int i = 0; i < count; i++)` pushing `points[i]` (shifted by
`lastpt` in relative mode) with node type `type`. -/
def pushLoop [Zero F] [Add F] (p : GiPath F) (count : Int)
    (points : Option (List (Point2d F))) (rel : Bool) (lastpt : Point2d F) (type : Int) :
    GiPath F :=
  (List.range count.toNat).foldl
    (fun q i => q.pushBack (if rel then ptrAt points i + lastpt else ptrAt points i) type) p

/-- The loop `for (int i = count - 1; i >= 0; i--)` of `beziersTo`. -/
def pushLoopRev [Zero F] [Add F] (p : GiPath F) (count : Int)
    (points : Option (List (Point2d F))) (rel : Bool) (lastpt : Point2d F) (type : Int) :
    GiPath F :=
  (List.range count.toNat).reverse.foldl
    (fun q i => q.pushBack (if rel then ptrAt points i + lastpt else ptrAt points i) type) p

/-- The function `GiPath::linesTo`. -/
def linesTo [Zero F] [Add F] (p : GiPath F) (count : Int)
    (points : Option (List (Point2d F))) (rel : Bool) : Bool × GiPath F :=
  let ret := decide (p.beginIndex ≥ 0) && decide (count > 0) && points.isSome
  let lastpt := p.getEndPoint
  if ret then (ret, p.pushLoop count points rel lastpt kGiLineTo) else (ret, p)

/-- The function `GiPath::beziersTo`. -/
def beziersTo [Zero F] [Add F] (p : GiPath F) (count : Int)
    (points : Option (List (Point2d F))) (reverse : Bool) (rel : Bool) : Bool × GiPath F :=
  let ret := decide (p.beginIndex ≥ 0) && decide (count > 0) && points.isSome
    && decide (Int.tmod count 3 = 0)
  let lastpt := p.getEndPoint
  if ret && reverse then (ret, p.pushLoopRev count points rel lastpt kGiBezierTo)
  else if ret then (ret, p.pushLoop count points rel lastpt kGiBezierTo)
  else (ret, p)

/-- The function `GiPath::bezierTo`. -/
def bezierTo [Zero F] [Add F] (p : GiPath F) (cp1 cp2 endp : Point2d F) (rel : Bool) :
    Bool × GiPath F :=
  let lastpt := p.getEndPoint
  let points := p.points ++ [if rel then cp1 + lastpt else cp1]
    ++ [if rel then cp2 + lastpt else cp2] ++ [if rel then endp + lastpt else endp]
  let types := (List.range 3).foldl (fun t _ => t ++ [kGiBezierTo]) p.types
  (true, ⟨points, types, p.beginIndex⟩)

/-- The first control point synthesized by `smoothBezierTo` and `smoothQuadTo`. -/
def smoothCp [Zero F] [Sub F] [Mul F] [OfNat F 2] (p : GiPath F) : Point2d F :=
  let lastpt := p.getEndPoint
  if p.points.length > 1 then
    (2 : F) * lastpt - (p.points.getD (p.points.length - 2) default).asVector
  else lastpt

/-- The function `GiPath::smoothBezierTo`. -/
def smoothBezierTo [Zero F] [Add F] [Sub F] [Mul F] [OfNat F 2] (p : GiPath F)
    (cp2 endp : Point2d F) (rel : Bool) : Bool × GiPath F :=
  let lastpt := p.getEndPoint
  let cp1 := p.smoothCp
  let points := p.points ++ [cp1]
    ++ [if rel then cp2 + lastpt else cp2] ++ [if rel then endp + lastpt else endp]
  let types := (List.range 3).foldl (fun t _ => t ++ [kGiBezierTo]) p.types
  (true, ⟨points, types, p.beginIndex⟩)

/-- The function `GiPath::quadsTo`. -/
def quadsTo [Zero F] [Add F] (p : GiPath F) (count : Int)
    (points : Option (List (Point2d F))) (rel : Bool) : Bool × GiPath F :=
  let ret := decide (p.beginIndex ≥ 0) && decide (count > 0) && points.isSome
    && decide (Int.tmod count 2 = 0)
  let lastpt := p.getEndPoint
  if ret then (ret, p.pushLoop count points rel lastpt kGiQuadTo) else (ret, p)

/-- The function `GiPath::quadTo`. -/
def quadTo [Zero F] [Add F] (p : GiPath F) (cp endp : Point2d F) (rel : Bool) :
    Bool × GiPath F :=
  let lastpt := p.getEndPoint
  let points := p.points ++ [if rel then cp + lastpt else cp]
    ++ [if rel then endp + lastpt else endp]
  let types := p.types ++ [kGiQuadTo] ++ [kGiQuadTo]
  (true, ⟨points, types, p.beginIndex⟩)

/-- The function `GiPath::smoothQuadTo`. -/
def smoothQuadTo [Zero F] [Add F] [Sub F] [Mul F] [OfNat F 2] (p : GiPath F)
    (endp : Point2d F) (rel : Bool) : Bool × GiPath F :=
  let lastpt := p.getEndPoint
  let cp := p.smoothCp
  let points := p.points ++ [cp] ++ [if rel then endp + lastpt else endp]
  let types := p.types ++ [kGiQuadTo] ++ [kGiQuadTo]
  (true, ⟨points, types, p.beginIndex⟩)

/-- The shared tail of both `arcTo` overloads: convert the fitted arc to bezier
points and append them when there are at least 4. -/
def arcAppend (cm : Mgcurv F) (p : GiPath F) (fit : Option (ArcFit F)) : Bool × GiPath F :=
  match fit with
  | some a =>
    let pts := cm.arcToBezier a.center a.radius a.radius a.startAngle a.sweepAngle
    if pts.length ≥ 4 then
      (true, (List.range pts.length).foldl
        (fun q i => q.pushBack (pts.getD i a.center) kGiBezierTo) p)
    else (false, p)
  | none => (false, p)

/-- The function `GiPath::arcTo(const Point2d&, bool)`. -/
def arcTo [Zero F] [Add F] [Sub F] (cm : Mgcurv F) (p : GiPath F) (point : Point2d F)
    (rel : Bool) : Bool × GiPath F :=
  if p.beginIndex ≥ 0 ∧ p.getSize ≥ p.beginIndex + 2
      ∧ p.points.length = p.types.length then
    let start := p.points.getD (p.points.length - 1) default
    let tanv : Vector2d F := start - p.points.getD (p.points.length - 2) default
    arcAppend cm p (cm.arcTan start (if rel then point + p.getEndPoint else point) tanv)
  else (false, p)

/-- The function `GiPath::arcTo(const Point2d&, const Point2d&, bool)`. -/
def arcTo3 [Zero F] [Add F] (cm : Mgcurv F) (p : GiPath F) (point endp : Point2d F)
    (rel : Bool) : Bool × GiPath F :=
  let lastpt := p.getEndPoint
  if p.beginIndex ≥ 0 ∧ p.getSize ≥ p.beginIndex + 1
      ∧ p.points.length = p.types.length then
    let start := p.points.getD (p.points.length - 1) default
    arcAppend cm p (cm.arc3P start (if rel then point + lastpt else point)
      (if rel then endp + lastpt else endp))
  else (false, p)

/-- The function `GiPath::closeFigure`. -/
def closeFigure (p : GiPath F) : Bool × GiPath F :=
  if p.beginIndex ≥ 0 ∧ p.getSize ≥ p.beginIndex + 3
      ∧ p.points.length = p.types.length then
    let type := p.types.getD (p.points.length - 1) 0
    if type = kGiLineTo ∨ type = kGiBezierTo ∨ type = kGiQuadTo then
      (true, ⟨p.points, p.types.set (p.points.length - 1) (Int.lor type kGiCloseFigure), -1⟩)
    else (false, p)
  else (false, p)

/-! ### Corner rounding -/

section Round
variable [Zero F] [Add F] [Sub F] [Mul F] [Div F] [LT F] [∀ a b : F, Decidable (a < b)]

/-- The tail of `AngleToBezier`: fit the arc between the two tangent points at
offset `dArc` and write its bezier points over the start of `pts`. -/
def angleArc (m : Mgmath F) (cm : Mgcurv F) (pts : List (Point2d F)) (dArc : F) :
    Int × List (Point2d F) :=
  let ptStart := m.rulerPoint (pts.getD 1 default) (pts.getD 0 default) dArc 0
  let ptEnd := m.rulerPoint (pts.getD 1 default) (pts.getD 2 default) dArc 0
  match cm.arcTan ptStart ptEnd (pts.getD 1 default - ptStart) with
  | some a =>
    let out := cm.arcToBezier a.center a.radius a.radius a.startAngle a.sweepAngle
    ((out.length : Int), out ++ pts.drop out.length)
  | none => (0, pts)

/-- The static function `AngleToBezier`: the returned count and the array `pts`
after the call. -/
def AngleToBezier (m : Mgmath F) (cm : Mgcurv F) (pts : List (Point2d F)) (radius : F) :
    Int × List (Point2d F) :=
  let vec1 : Vector2d F := pts.getD 1 default - pts.getD 0 default
  let vec2 : Vector2d F := pts.getD 2 default - pts.getD 1 default
  let dHalfAngle := m.half * m.fabsf (m.angleTo2 vec1 vec2)
  if dHalfAngle < m.eps ∨ m.fabsf (dHalfAngle - m._M_PI_2) < m.eps then (0, pts)
  else
    let dDist1 := m.half * m.length vec1
    let dDist2 := m.half * m.length vec2
    let dArc := radius / m.tan dHalfAngle
    if dArc > dDist1 ∨ dArc > dDist2 then
      let dArcOld := dArc
      let dArc := m.mgMin dDist1 dDist2
      if dArc < dArcOld * m.half then (3, pts)
      else angleArc m cm pts dArc
    else angleArc m cm pts dArc

/-- The three assignments `ptsBzr[0] = a; ptsBzr[1] = b; ptsBzr[2] = c`. -/
def setCorner (ptsBzr : List (Point2d F)) (a b c : Point2d F) : List (Point2d F) :=
  ((ptsBzr.set 0 a).set 1 b).set 2 c

/-- The first block of `genericRoundLines`: the MoveTo node, after the rounding of
vertex 0 when the polyline is closed. -/
def roundStart (m : Mgmath F) (cm : Mgcurv F) (p : GiPath F) (count : Int)
    (points : Option (List (Point2d F))) (radius : F) (closed : Bool)
    (ptsBzr : List (Point2d F)) : GiPath F × List (Point2d F) :=
  if closed then
    let r := AngleToBezier m cm
      (setCorner ptsBzr (ptrAt points (count - 1).toNat) (ptrAt points 0) (ptrAt points 1))
      radius
    if r.1 < 4 then ((p.moveTo (ptrAt points 0) false).2, r.2)
    else
      (((p.moveTo (r.2.getD 0 default) false).2.beziersTo (r.1 - 1) (some (r.2.drop 1))
        false false).2, r.2)
  else ((p.moveTo (ptrAt points 0) false).2, ptsBzr)

/-- One iteration of the loop of `genericRoundLines`, at vertex `i`. -/
def roundStep (m : Mgmath F) (cm : Mgcurv F) (count : Int)
    (points : Option (List (Point2d F))) (radius : F)
    (st : GiPath F × List (Point2d F)) (i : Nat) : GiPath F × List (Point2d F) :=
  let r := AngleToBezier m cm
    (setCorner st.2 (ptrAt points (i - 1)) (ptrAt points i)
      (ptrAt points (((i : Int) + 1) % count).toNat))
    radius
  if r.1 < 4 then ((st.1.lineTo (ptrAt points i) false).2, r.2)
  else
    (((st.1.lineTo (r.2.getD 0 default) false).2.beziersTo (r.1 - 1) (some (r.2.drop 1))
      false false).2, r.2)

/-- The function `GiPath::genericRoundLines`. -/
def genericRoundLines (m : Mgmath F) (cm : Mgcurv F) (p : GiPath F) (count : Int)
    (points : Option (List (Point2d F))) (radius : F) (closed : Bool) : Bool × GiPath F :=
  let p := p.clear
  if count < 3 ∨ points.isNone ∨ radius < m._MGZERO then (false, p)
  else
    let st := roundStart m cm p count points radius closed (List.replicate 16 default)
    let st := (List.range' 1 ((if closed then count else count - 1).toNat - 1)).foldl
      (roundStep m cm count points radius) st
    if closed then (true, st.1.closeFigure.2)
    else (true, (st.1.lineTo (ptrAt points (count - 1).toNat) false).2)

/-- The local `dHalfAngle` of `AngleToBezier` at the corner `b` between the edges
`a b` and `b c`: half the absolute angle from the first edge vector to the second. -/
def dHalfAngle (m : Mgmath F) (a b c : Point2d F) : F :=
  m.half * m.fabsf (m.angleTo2 (b - a) (c - b))

/-- The first test of `AngleToBezier`, commented "the two edges are parallel" in the
source: the half angle is below `1e-4` or within `1e-4` of `_M_PI_2`. -/
def cornerTest (m : Mgmath F) (a b c : Point2d F) : Prop :=
  dHalfAngle m a b c < m.eps ∨ m.fabsf (dHalfAngle m a b c - m._M_PI_2) < m.eps

/-- The locals `dDist1` and `dDist2` of `AngleToBezier`: half the length of each edge. -/
def dDist1 (m : Mgmath F) (a b : Point2d F) : F := m.half * m.length (b - a)

def dDist2 (m : Mgmath F) (b c : Point2d F) : F := m.half * m.length (c - b)

/-- The local `dArc` of `AngleToBezier` before clamping: the tangent-point offset
`radius / tan(dHalfAngle)`. -/
def dArc (m : Mgmath F) (a b c : Point2d F) (radius : F) : F :=
  radius / m.tan (dHalfAngle m a b c)

/-- The count `AngleToBezier` returns at the corner `b` between `a` and `c`. -/
def cornerCount (m : Mgmath F) (cm : Mgcurv F) (a b c : Point2d F) (radius : F) : Int :=
  (AngleToBezier m cm [a, b, c] radius).1

end Round

end Ops

/-! ## Sequences of builder calls -/

/-- One call of a builder operation, with its arguments. -/
inductive Op (F : Type) where
  | startFigure
  | clear
  | moveTo (point : Point2d F) (rel : Bool)
  | lineTo (point : Point2d F) (rel : Bool)
  | horzTo (x : F) (rel : Bool)
  | vertTo (y : F) (rel : Bool)
  | linesTo (count : Int) (points : Option (List (Point2d F))) (rel : Bool)
  | beziersTo (count : Int) (points : Option (List (Point2d F))) (reverse : Bool) (rel : Bool)
  | bezierTo (cp1 cp2 endp : Point2d F) (rel : Bool)
  | smoothBezierTo (cp2 endp : Point2d F) (rel : Bool)
  | quadsTo (count : Int) (points : Option (List (Point2d F))) (rel : Bool)
  | quadTo (cp endp : Point2d F) (rel : Bool)
  | smoothQuadTo (endp : Point2d F) (rel : Bool)
  | arcTo (point : Point2d F) (rel : Bool)
  | arcTo3 (point endp : Point2d F) (rel : Bool)
  | closeFigure

section Run
variable {F : Type} [Zero F] [Add F] [Sub F] [Mul F] [OfNat F 2]

/-- The state after one builder call (the returned `bool` is dropped). -/
def Op.apply (cm : Mgcurv F) (o : Op F) (p : GiPath F) : GiPath F :=
  match o with
  | .startFigure => p.startFigure
  | .clear => p.clear
  | .moveTo point rel => (p.moveTo point rel).2
  | .lineTo point rel => (p.lineTo point rel).2
  | .horzTo x rel => (p.horzTo x rel).2
  | .vertTo y rel => (p.vertTo y rel).2
  | .linesTo count points rel => (p.linesTo count points rel).2
  | .beziersTo count points reverse rel => (p.beziersTo count points reverse rel).2
  | .bezierTo cp1 cp2 endp rel => (p.bezierTo cp1 cp2 endp rel).2
  | .smoothBezierTo cp2 endp rel => (p.smoothBezierTo cp2 endp rel).2
  | .quadsTo count points rel => (p.quadsTo count points rel).2
  | .quadTo cp endp rel => (p.quadTo cp endp rel).2
  | .smoothQuadTo endp rel => (p.smoothQuadTo endp rel).2
  | .arcTo point rel => (p.arcTo cm point rel).2
  | .arcTo3 point endp rel => (p.arcTo3 cm point endp rel).2
  | .closeFigure => p.closeFigure.2

/-- The path built from the empty path by a sequence of builder calls. -/
def run (cm : Mgcurv F) (ops : List (Op F)) : GiPath F :=
  ops.foldl (fun p o => o.apply cm p) empty

end Run

/-- A curve-fitting stand-in whose fits always fail, for evaluating paths that use
no arc. -/
def noArc (F : Type) : Mgcurv F := ⟨fun _ _ _ => none, fun _ _ _ => none, fun _ _ _ _ _ => []⟩

/-! ## What the spec says of the curve fits -/

section FitContracts
variable {F : Type} [Zero F] [Sub F] [Mul F]

/-- Modelled from the spec: "the end point lies exactly along the tangent direction"
(§4.1, `arcFromTangentAndEnd`), as the vanishing of the cross product of the chord
`target - start` and the tangent. The body of `mgcurv::arcTan` is not among the
sources. -/
def alongTangent (start target : Point2d F) (tanv : Vector2d F) : Prop :=
  (target.x - start.x) * tanv.y - (target.y - start.y) * tanv.x = 0

/-- Modelled from the spec: "the three points are collinear" (§4.1,
`arcFromThreePoints`), as the vanishing of the cross product of `via - start` and
`endp - start`. The body of `mgcurv::arc3P` is not among the sources. -/
def collinear (start via endp : Point2d F) : Prop :=
  (via.x - start.x) * (endp.y - start.y) - (via.y - start.y) * (endp.x - start.x) = 0

end FitContracts

/-- Modelled from the spec: a stand-in for mgcurv.h over integer coordinates, for
evaluating `arcTo` on concrete paths. As in §4.1, `arcTan` fails exactly when the end
point lies along the tangent direction, `arc3P` fails exactly when the three points
are collinear, and `arcToBezier` returns the 4 control points of a single segment;
the centre, radius, angles and control points themselves are placeholders. -/
def segArc : Mgcurv Int :=
  ⟨fun s e t =>
      if (e.x - s.x) * t.y - (e.y - s.y) * t.x = 0 then none else some ⟨s, 0, 0, 0⟩,
    fun s v e =>
      if (v.x - s.x) * (e.y - s.y) - (v.y - s.y) * (e.x - s.x) = 0 then none
      else some ⟨s, 0, 0, 0⟩,
    fun c _ _ _ _ => [c, c, c, c]⟩

/-- Modelled from the spec: a stand-in for the float helpers over rational
coordinates, for evaluating `genericRoundLines` on concrete input. The zero tolerance
is `2e-6`, and `angleTo2` is constantly 0, so every corner is classified colinear
(sharp); the other helpers are placeholders that such an evaluation never reaches. -/
def sharpMath : Mgmath ℚ :=
  ⟨2 / 1000000, 1 / 2, 1 / 10000, 355 / 226, fun a => |a|, fun a => a, fun a b => min a b,
    fun _ _ => 0, fun _ => 0, fun a _ _ _ => a⟩

/-! ## GiPath::append -/

/-- How a run of the loop of `GiPath::append` ends: the loop condition became false
(`done`, with the path reached), or the loop read `src.m_data->points[i]` or
`src.m_data->types[i]` at an index `i` past the end of the source vectors
(`outOfRange i`), or it was still iterating when the iteration budget was used up
(`running`). -/
inductive AppendRun (F : Type) where
  | done (p : GiPath F)
  | outOfRange (i : Nat)
  | running
deriving DecidableEq, Repr

/-- The loop `for (; i < m_data->types.size(); i++)` of `GiPath::append`, run for at
most `fuel` iterations. -/
def appendLoop {F : Type} (src : GiPath F) : Nat → Nat → GiPath F → AppendRun F
  | 0, _, _ => .running
  | fuel + 1, i, p =>
    if i < p.types.length then
      match src.points[i]?, src.types[i]? with
      | some pt, some type => appendLoop src fuel (i + 1) (p.pushBack pt type)
      | _, _ => .outOfRange i
    else .done p

/-- The function `GiPath::append`, run for at most `fuel` loop iterations.
`sameObject` is the outcome of the test `this == &src`; `pointEq` is
`Point2d::operator==` of mgpnt.h, which is not among the sources. -/
def append {F : Type} [Zero F] (pointEq : Point2d F → Point2d F → Bool) (fuel : Nat)
    (p : GiPath F) (sameObject : Bool) (src : GiPath F) : AppendRun F :=
  if sameObject = false ∧ src.getCount > 1 ∧ p.getCount > 1 then
    let i : Nat :=
      if src.getNodeType 0 = kGiMoveTo
          ∧ Int.land (p.types.getLast?.getD 0) kGiCloseFigure = 0
          ∧ pointEq p.getEndPoint (src.getPoint 0) = true then 1
      else 0
    appendLoop src fuel i p
  else .done p

end GiPath

/-! ## The shape factory (gicoreviewimpl.h) -/

namespace GiCoreViewImpl

section Factory
variable {S B : Type}

/-- The function `GiCoreViewImpl::registerShape`. The map `_shapeCreators` is a
partial function from tags to creators; a null `creator` is `none`. -/
def registerShape (_shapeCreators : Int → Option (Unit → Option S)) (type : Int)
    (creator : Option (Unit → Option S)) : Int → Option (Unit → Option S) :=
  let type := Int.land type 0xFFFF
  match creator with
  | some c => fun k => if k = type then some c else _shapeCreators k
  | none => fun k => if k = type then none else _shapeCreators k

/-- The function `GiCoreViewImpl::createShape`. `subject type` is
`getCmdSubject()->createShape(motion(), type)` and `MgShapeExt sp` is
`new MgShapeExt(sp)`; a null pointer is `none`. -/
def createShape (_shapeCreators : Int → Option (Unit → Option S))
    (subject : Int → Option B) (MgShapeExt : B → S) (type : Int) : Option S :=
  match _shapeCreators (Int.land type 0xFFFF) with
  | some creator => creator ()
  | none =>
    match subject type with
    | some sp => some (MgShapeExt sp)
    | none => none

end Factory

end GiCoreViewImpl

/-! ## Type tags of the built-in shapes (mgbasicsp.h) -/

/-- Modelled from the spec: the macros `MG_DECLARE_CREATE(Cls, Base, tag)` and
`MG_INHERIT_CREATE(Cls, Base, tag)` of mgshape.h, which is not among the sources,
declare `Cls::Type()` to return their third argument, the persisted type tag.
`MgBaseRect::Type()` and `MgBaseLines::Type()` are written out in mgbasicsp.h. -/
def MgDot_Type : Int := 31
def MgLine_Type : Int := 10
def MgBaseRect_Type : Int := 4
def MgRect_Type : Int := 11
def MgEllipse_Type : Int := 12
def MgRoundRect_Type : Int := 13
def MgDiamond_Type : Int := 14
def MgBaseLines_Type : Int := 5
def MgLines_Type : Int := 15
def MgSplines_Type : Int := 16
def MgParallel_Type : Int := 17
def MgImageShape_Type : Int := 18
def MgArc_Type : Int := 19

/-- The tags declared in mgbasicsp.h, in the order of the declarations. -/
def builtinTypes : List Int :=
  [MgDot_Type, MgLine_Type, MgBaseRect_Type, MgRect_Type, MgEllipse_Type, MgRoundRect_Type,
    MgDiamond_Type, MgBaseLines_Type, MgLines_Type, MgSplines_Type, MgParallel_Type,
    MgImageShape_Type, MgArc_Type]

namespace GiPath

/-! ## Paths built with genericRoundLines as well -/

section BuiltPaths
variable {F : Type} [Zero F] [Add F] [Sub F] [Mul F] [OfNat F 2] [Div F] [LT F]
  [∀ a b : F, Decidable (a < b)]

/-- The paths reachable from the empty path by the builder operations of `Op`
(`clear` among them) and by `genericRoundLines`. -/
inductive Built (m : Mgmath F) (cm : Mgcurv F) : GiPath F → Prop where
  | empty : Built m cm GiPath.empty
  | op (o : GiPath.Op F) {p : GiPath F} : Built m cm p → Built m cm (o.apply cm p)
  | round (count : Int) (points : Option (List (Point2d F))) (radius : F) (closed : Bool)
      {p : GiPath F} :
      Built m cm p → Built m cm (p.genericRoundLines m cm count points radius closed).2

end BuiltPaths

/-- The absolute value of a rational number, by comparison with 0. -/
def absQ (a : ℚ) : ℚ := if a < 0 then -a else a

/-- Modelled from the spec: a stand-in for the float helpers over rational
coordinates, exact on axis-parallel polylines whose corners are all quarter turns (as
the corners of an axis-aligned square): `angleTo2` is the quarter turn `355/226`
(for pi/2), `tan` of its half is 1, and `length` and `rulerPoint` (at offset
`yoff = 0`) are computed with the sum of the absolute coordinates, which is the length
of an axis-parallel vector. The tolerances are `2e-6` and `1e-4`. -/
def quarterTurnMath : Mgmath ℚ :=
  ⟨2 / 1000000, 1 / 2, 1 / 10000, 355 / 226, absQ, fun _ => 1,
    fun a b => if a < b then a else b,
    fun _ _ => 355 / 226, fun v => absQ v.x + absQ v.y,
    fun a d xoff _ =>
      ⟨a.x + xoff * (d.x - a.x) / (absQ (d.x - a.x) + absQ (d.y - a.y)),
        a.y + xoff * (d.y - a.y) / (absQ (d.x - a.x) + absQ (d.y - a.y))⟩⟩

/-- Modelled from the spec: the stand-in `segArc` over rational coordinates: `arcTan`
fails exactly when the end point lies along the tangent direction, `arc3P` fails
exactly when the three points are collinear, and `arcToBezier` returns the 4 control
points of a single segment; the centre, radius, angles and control points themselves
are placeholders. -/
def segArcQ : Mgcurv ℚ :=
  ⟨fun s e t =>
      if (e.x - s.x) * t.y - (e.y - s.y) * t.x = 0 then none else some ⟨s, 0, 0, 0⟩,
    fun s v e =>
      if (v.x - s.x) * (e.y - s.y) - (v.y - s.y) * (e.x - s.x) = 0 then none
      else some ⟨s, 0, 0, 0⟩,
    fun c _ _ _ _ => [c, c, c, c]⟩

/-! ## GiPath::setPath -/

/-- Reading `types[i]` through a `const char*` argument. -/
def typeAt (types : Option (List Int)) (i : Nat) : Int :=
  (types.getD []).getD i 0

/-- The function `GiPath::setPath(int, const Point2d*, const char*)`. -/
def setPath {F : Type} [Zero F] (p : GiPath F) (count : Int)
    (points : Option (List (Point2d F))) (types : Option (List Int)) : GiPath F :=
  if p.getCount ≠ count then
    let p := p.clear
    if count > 0 ∧ points.isSome ∧ types.isSome then
      (List.range count.toNat).foldl
        (fun q i => q.pushBack (ptrAt points i) (typeAt types i)) p
    else p
  else
    (List.range count.toNat).foldl
      (fun q i =>
        ⟨q.points.set i (ptrAt points i), q.types.set i (typeAt types i), q.beginIndex⟩) p

end GiPath

/-! ## Deferred drawing (gicoreviewimpl.h) -/

/-- A call received by a device view (`GiView`). -/
inductive DeviceCall where
  | redraw (changed : Bool)
  | regenAll (changed : Bool)
  | regenAppend (sid : Int) (playh : Int)
  | contentChanged
deriving DecidableEq, Repr

/-- The part of `GiCoreViewImpl` that the deferred drawing uses: the three pending
counters, the current view `curview` (`none` is NULL; a view is named by a number),
whether that view is zooming (`curview->isZooming()`), the views of `_gcdoc`, and the
calls the device views have received so far, each with the view it went to. -/
structure GiCoreViewImpl where
  regenPending : Int
  appendPending : Int
  redrawPending : Int
  curview : Option Nat
  zooming : Bool
  views : List Nat
  calls : List (Nat × DeviceCall)
deriving DecidableEq, Repr

namespace GiCoreViewImpl

/-- The macro `CALL_VIEW(deviceView()->f)`: the call goes to the device view of
`curview` unless `curview` is NULL. -/
def callView (s : GiCoreViewImpl) (f : DeviceCall) : GiCoreViewImpl :=
  match s.curview with
  | some v => { s with calls := s.calls ++ [(v, f)] }
  | none => s

/-- The loops `for (i < _gcdoc->getViewCount())` sending `f` to the device view of
every view of the document that passes the test `keep`. -/
def callOthers (s : GiCoreViewImpl) (keep : Nat → Bool) (f : DeviceCall) : GiCoreViewImpl :=
  s.views.foldl (fun t v => if keep v then { t with calls := t.calls ++ [(v, f)] } else t) s

/-- The function `GiCoreViewImpl::redraw`. -/
def redraw (s : GiCoreViewImpl) (changed : Bool) : GiCoreViewImpl :=
  if s.redrawPending ≥ 0 then
    { s with redrawPending := s.redrawPending + (if changed then 100 else 1) }
  else s.callView (.redraw changed)

/-- The function `GiCoreViewImpl::regenAll`. -/
def regenAll (s : GiCoreViewImpl) (changed : Bool) : GiCoreViewImpl :=
  let apply := decide (s.regenPending ≠ 0) || decide (s.appendPending ≠ 0)
  let zooming := match s.curview with
    | some _ => s.zooming
    | none => false
  let s := if s.regenPending ≥ 0 then
      { s with regenPending := s.regenPending + (if changed then 100 else 1) }
    else s
  if apply then
    let s := s.callView (.regenAll changed)
    if changed then
      let s := s.callOthers (fun v => decide (some v ≠ s.curview) && !zooming)
        (.regenAll changed)
      s.callView .contentChanged
    else
      s.callOthers (fun v => decide (some v ≠ s.curview) && !zooming) (.redraw changed)
  else s

/-- The function `GiCoreViewImpl::regenAppend`. -/
def regenAppend (s : GiCoreViewImpl) (sid : Int) (playh : Int) : GiCoreViewImpl :=
  let apply := decide (s.regenPending ≠ 0) || decide (s.appendPending ≠ 0)
  let s :=
    if s.appendPending ≥ 0 ∧ sid ≠ 0 then
      if s.appendPending = 0 ∨ s.appendPending = sid then { s with appendPending := sid }
      else if s.appendPending > 0 ∧ s.appendPending ≠ sid then s.regenAll true
      else s
    else s
  let sid := if sid ≠ 0 then sid else s.appendPending
  if apply = true ∧ sid ≠ 0 then
    let s := s.callView (.regenAppend sid playh)
    let s := s.callOthers (fun v => decide (some v ≠ s.curview)) (.regenAppend sid playh)
    s.callView .contentChanged
  else s

end GiCoreViewImpl

namespace DrawLocker

/-- The constructor `DrawLocker::DrawLocker`: the state of the view implementation
after it, and whether the locker holds it (`_impl` is not NULL). -/
def acquire (impl : GiCoreViewImpl) : GiCoreViewImpl × Bool :=
  if impl.regenPending < 0 ∧ impl.appendPending < 0 ∧ impl.redrawPending < 0 then
    ({ impl with regenPending := 0, appendPending := 0, redrawPending := 0 }, true)
  else (impl, false)

/-- The destructor `DrawLocker::~DrawLocker`, for a locker that holds the view
implementation or not (`_impl`). -/
def release (_impl : Bool) (impl : GiCoreViewImpl) : GiCoreViewImpl :=
  if _impl = false then impl
  else
    let regenPending := impl.regenPending
    let appendPending := impl.appendPending
    let redrawPending := impl.redrawPending
    let impl := { impl with regenPending := -1, appendPending := -1, redrawPending := -1 }
    if regenPending > 0 then impl.regenAll (decide (regenPending ≥ 100))
    else if appendPending > 0 then impl.regenAppend appendPending 0
    else if redrawPending > 0 then impl.redraw (decide (redrawPending ≥ 100))
    else impl

end DrawLocker

/-! ## Single-precision coordinates -/

/-- The number of low bits a natural number loses when it is kept with 24 significant
bits: the least `e` with `a / 2 ^ e < 2 ^ 24`, searched up to `fuel`. -/
def lostBits : Nat → Nat → Nat
  | 0, _ => 0
  | fuel + 1, a => if a < 2 ^ 24 then 0 else lostBits fuel (a / 2) + 1

/-- Rounding an integer to the nearest `float` (IEEE 754 single precision: 24
significant bits, ties to the even significand). Integers of magnitude below `2 ^ 24`
are kept; the model covers magnitudes below `2 ^ 127`, where no overflow occurs. -/
def roundFloat (z : Int) : Int :=
  let a := z.natAbs
  let e := lostBits 104 a
  let q := a / 2 ^ e
  let r := a % 2 ^ e
  let q := if 2 * r > 2 ^ e ∨ (2 * r = 2 ^ e ∧ q % 2 = 1) then q + 1 else q
  Int.sign z * ((q * 2 ^ e : Nat) : Int)

/-- The integer-valued numbers of the C++ type `float`, the coordinate type of
`Point2d`: sums, differences and products of integer-valued floats are the exact
integer result rounded by `roundFloat`, and so are the literals. -/
structure Float32 where
  val : Int
deriving DecidableEq, Repr

instance : Zero Float32 := ⟨⟨0⟩⟩

instance (n : Nat) : OfNat Float32 n := ⟨⟨roundFloat n⟩⟩

instance : Add Float32 := ⟨fun a b => ⟨roundFloat (a.val + b.val)⟩⟩

instance : Sub Float32 := ⟨fun a b => ⟨roundFloat (a.val - b.val)⟩⟩

instance : Mul Float32 := ⟨fun a b => ⟨roundFloat (a.val * b.val)⟩⟩

namespace GiPath

/-! ## Auxiliary lemmas -/

section Lemmas
variable {F : Type}

theorem foldl_pushBack {ι : Type} (f : ι → Point2d F) (type : Int) (l : List ι) (p : GiPath F) :
    l.foldl (fun q i => q.pushBack (f i) type) p
      = ⟨p.points ++ l.map f, p.types ++ List.replicate l.length type, p.beginIndex⟩ := by
  induction l generalizing p with
  | nil => simp
  | cons a l ih =>
    rw [List.foldl_cons, ih]
    simp [pushBack, List.replicate_succ]

theorem pushLoop_eq [Zero F] [Add F] (p : GiPath F) (count : Int)
    (points : Option (List (Point2d F))) (rel : Bool) (lastpt : Point2d F) (type : Int) :
    p.pushLoop count points rel lastpt type
      = ⟨p.points ++ (List.range count.toNat).map
            (fun i => if rel then ptrAt points i + lastpt else ptrAt points i),
          p.types ++ List.replicate count.toNat type, p.beginIndex⟩ := by
  unfold pushLoop
  rw [foldl_pushBack]
  simp

theorem pushLoopRev_eq [Zero F] [Add F] (p : GiPath F) (count : Int)
    (points : Option (List (Point2d F))) (rel : Bool) (lastpt : Point2d F) (type : Int) :
    p.pushLoopRev count points rel lastpt type
      = ⟨p.points ++ ((List.range count.toNat).map
            (fun i => if rel then ptrAt points i + lastpt else ptrAt points i)).reverse,
          p.types ++ List.replicate count.toNat type, p.beginIndex⟩ := by
  unfold pushLoopRev
  rw [foldl_pushBack]
  simp [List.map_reverse]

theorem map_range_getD {α β : Type} (l : List α) (d : α) (g : α → β) :
    (List.range l.length).map (fun i => g (l.getD i d)) = l.map g := by
  apply List.ext_getElem
  · simp
  · intro i h1 h2
    simp at h1
    simp [List.getD_eq_getElem?_getD, List.getElem?_eq_getElem h1]

theorem arcAppend_eq (cm : Mgcurv F) (p : GiPath F) (fit : Option (ArcFit F)) :
    arcAppend cm p fit = (false, p) ∨
    ∃ pts : List (Point2d F), 4 ≤ pts.length ∧
      arcAppend cm p fit
        = (true, ⟨p.points ++ pts, p.types ++ List.replicate pts.length kGiBezierTo,
            p.beginIndex⟩) := by
  unfold arcAppend
  cases fit with
  | none => exact Or.inl rfl
  | some a =>
    simp only
    split
    · rename_i h
      refine Or.inr ⟨_, h, ?_⟩
      rw [foldl_pushBack, map_range_getD _ _ (fun x => x)]
      simp
    · exact Or.inl rfl

end Lemmas

section ListLemmas

theorem set_length_append {α : Type} (l : List α) (x v : α) :
    (l ++ [x]).set l.length v = l ++ [v] := by
  induction l with
  | nil => rfl
  | cons a l ih => simp [ih]

theorem getD_length_append {α : Type} (l : List α) (x d : α) :
    (l ++ [x]).getD l.length d = x := by
  induction l with
  | nil => rfl
  | cons a l ih => simp [ih]

theorem exists_concat_of_pos {α : Type} (l : List α) (h : 0 < l.length) :
    ∃ init x, l = init ++ [x] := by
  have hne : l ≠ [] := by
    intro h0; simp [h0] at h
  exact ⟨l.dropLast, l.getLast hne, (List.dropLast_append_getLast hne).symm⟩

end ListLemmas

/-! ## closeFigure -/

section CloseFigure
variable {F : Type}

/-- C1: on a path whose open figure holds at least 3 nodes (marker `m ≥ 0`,
`count ≥ m + 3`) and whose last node is LineTo, BezierTo or QuadTo, `closeFigure`
returns true, keeps the node count and every point, replaces only the last node's
type by that type OR-ed with CloseFigure, and sets the marker to -1. In particular
`moveTo o; lineTo a; lineTo b; closeFigure` on the empty path yields the three
nodes MoveTo o, LineTo a, LineTo|CloseFigure b, for instance with
o = (0,0), a = (10,0), b = (10,10). -/
theorem closeFigure_open_figure [Zero F] [Add F] (p : GiPath F)
    (hwf : p.points.length = p.types.length)
    (hm : 0 ≤ p.beginIndex) (hc : p.beginIndex + 3 ≤ p.getCount)
    (hlast : p.getNodeType (p.getCount - 1) = kGiLineTo ∨
      p.getNodeType (p.getCount - 1) = kGiBezierTo ∨
      p.getNodeType (p.getCount - 1) = kGiQuadTo) :
    p.closeFigure.1 = true
    ∧ p.closeFigure.2.getCount = p.getCount
    ∧ p.closeFigure.2.points = p.points
    ∧ p.types = p.types.dropLast ++ [p.getNodeType (p.getCount - 1)]
    ∧ p.closeFigure.2.types
        = p.types.dropLast ++ [Int.lor (p.getNodeType (p.getCount - 1)) kGiCloseFigure]
    ∧ p.closeFigure.2.beginIndex = -1
    ∧ (∀ o a b : Point2d F,
        closeFigure (lineTo (lineTo (moveTo empty o false).2 a false).2 b false).2
          = (true, ⟨[o, a, b],
              [kGiMoveTo, kGiLineTo, Int.lor kGiLineTo kGiCloseFigure], -1⟩))
    ∧ closeFigure
        (lineTo (lineTo (moveTo (empty : GiPath Int) ⟨0, 0⟩ false).2 ⟨10, 0⟩ false).2
          ⟨10, 10⟩ false).2
        = (true, ⟨[⟨0, 0⟩, ⟨10, 0⟩, ⟨10, 10⟩],
            [kGiMoveTo, kGiLineTo, Int.lor kGiLineTo kGiCloseFigure], -1⟩) := by
  obtain ⟨points, types, b⟩ := p
  simp only [getCount, getSize] at hc hlast hwf hm ⊢
  have hpos : 0 < types.length := by omega
  obtain ⟨init, x, rfl⟩ := exists_concat_of_pos types hpos
  have hlen : points.length = init.length + 1 := by simpa using hwf
  have hidx : ((points.length : Int) - 1).toNat = init.length := by omega
  have hnt : getNodeType ⟨points, init ++ [x], b⟩ ((points.length : Int) - 1) = x := by
    unfold getNodeType
    simp only [getCount, getSize, hidx, getD_length_append]
    rw [if_pos]
    omega
  rw [hnt] at hlast ⊢
  have hcf : closeFigure ⟨points, init ++ [x], b⟩
      = (true, ⟨points, init ++ [Int.lor x kGiCloseFigure], -1⟩) := by
    unfold closeFigure
    simp only [getSize]
    have h1 : points.length - 1 = init.length := by omega
    rw [if_pos ⟨hm, by omega, hwf⟩]
    simp only [h1, getD_length_append, set_length_append]
    rw [if_pos hlast]
  rw [hcf]
  refine ⟨rfl, rfl, rfl, by simp, by simp, rfl, ?_, by decide⟩
  intro o a b
  simp [closeFigure, lineTo, moveTo, empty, pushBack, getSize, kGiLineTo, kGiBezierTo,
    kGiQuadTo, kGiMoveTo]

/-- Witness of C1 on the open triangle (0,0), (10,0), (10,10). -/
theorem closeFigure_open_figure_witness :
    (GiPath.mk [⟨0, 0⟩, ⟨10, 0⟩, ⟨10, 10⟩] [kGiMoveTo, kGiLineTo, kGiLineTo] 0 :
        GiPath Int).closeFigure.1 = true
    ∧ (GiPath.mk [⟨0, 0⟩, ⟨10, 0⟩, ⟨10, 10⟩] [kGiMoveTo, kGiLineTo, kGiLineTo] 0 :
        GiPath Int).closeFigure.2.beginIndex = -1 :=
  have h := closeFigure_open_figure
    (GiPath.mk [⟨0, 0⟩, ⟨10, 0⟩, ⟨10, 10⟩] [kGiMoveTo, kGiLineTo, kGiLineTo] 0 : GiPath Int)
    (by decide) (by decide) (by decide) (by decide)
  ⟨h.1, h.2.2.2.2.2.1⟩

end CloseFigure

/-! ## Closed forms of the fixed-size appends -/

section FixedAppends
variable {F : Type}

theorem foldl_range_three (l : List Int) (k : Int) :
    (List.range 3).foldl (fun t _ => t ++ [k]) l = l ++ List.replicate 3 k := by
  show ((l ++ [k]) ++ [k]) ++ [k] = l ++ [k, k, k]
  simp

theorem bezierTo_eq [Zero F] [Add F] (p : GiPath F) (cp1 cp2 endp : Point2d F) (rel : Bool) :
    p.bezierTo cp1 cp2 endp rel
      = (true, ⟨p.points ++ [if rel then cp1 + p.getEndPoint else cp1,
            if rel then cp2 + p.getEndPoint else cp2,
            if rel then endp + p.getEndPoint else endp],
          p.types ++ List.replicate 3 kGiBezierTo, p.beginIndex⟩) := by
  simp only [bezierTo, foldl_range_three, List.append_assoc, List.singleton_append,
    List.cons_append, List.nil_append]

theorem smoothBezierTo_eq [Zero F] [Add F] [Sub F] [Mul F] [OfNat F 2] (p : GiPath F)
    (cp2 endp : Point2d F) (rel : Bool) :
    p.smoothBezierTo cp2 endp rel
      = (true, ⟨p.points ++ [p.smoothCp,
            if rel then cp2 + p.getEndPoint else cp2,
            if rel then endp + p.getEndPoint else endp],
          p.types ++ List.replicate 3 kGiBezierTo, p.beginIndex⟩) := by
  simp only [smoothBezierTo, foldl_range_three, List.append_assoc, List.singleton_append,
    List.cons_append, List.nil_append]

theorem quadTo_eq [Zero F] [Add F] (p : GiPath F) (cp endp : Point2d F) (rel : Bool) :
    p.quadTo cp endp rel
      = (true, ⟨p.points ++ [if rel then cp + p.getEndPoint else cp,
            if rel then endp + p.getEndPoint else endp],
          p.types ++ List.replicate 2 kGiQuadTo, p.beginIndex⟩) := by
  simp only [quadTo, List.append_assoc, List.singleton_append, List.replicate]

theorem smoothQuadTo_eq [Zero F] [Add F] [Sub F] [Mul F] [OfNat F 2] (p : GiPath F)
    (endp : Point2d F) (rel : Bool) :
    p.smoothQuadTo endp rel
      = (true, ⟨p.points ++ [p.smoothCp, if rel then endp + p.getEndPoint else endp],
          p.types ++ List.replicate 2 kGiQuadTo, p.beginIndex⟩) := by
  simp only [smoothQuadTo, List.append_assoc, List.singleton_append, List.replicate]

end FixedAppends

/-! ## The last node of an open figure -/

section Invariant
variable {F : Type}

/-- The node types a successful `closeFigure` accepts on the last node. -/
def isDraw (t : Int) : Prop := t = kGiLineTo ∨ t = kGiBezierTo ∨ t = kGiQuadTo

/-- What `closeFigure` relies on: both vectors have the same length, and while a
figure is open and holds more than its MoveTo node, the last node is a drawing
node without the CloseFigure flag. -/
def LastDraw (p : GiPath F) : Prop :=
  p.points.length = p.types.length ∧
  (0 ≤ p.beginIndex → p.beginIndex + 1 < p.points.length →
    ∃ t, p.types.getLast? = some t ∧ isDraw t)

theorem LastDraw.append {p : GiPath F} (h : LastDraw p) (pts : List (Point2d F))
    (tys : List Int) (hlen : pts.length = tys.length) (hne : tys ≠ [])
    (hall : ∀ t ∈ tys, isDraw t) :
    LastDraw ⟨p.points ++ pts, p.types ++ tys, p.beginIndex⟩ := by
  refine ⟨by simp [h.1, hlen], fun _ _ => ?_⟩
  refine ⟨tys.getLast hne, ?_, hall _ (List.getLast_mem hne)⟩
  simp [List.getLast?_append, List.getLast?_eq_getLast _ hne]

theorem LastDraw.replicate {p : GiPath F} (h : LastDraw p) (pts : List (Point2d F))
    (n : Nat) (t : Int) (hlen : pts.length = n) (hn : 0 < n) (ht : isDraw t) :
    LastDraw ⟨p.points ++ pts, p.types ++ List.replicate n t, p.beginIndex⟩ := by
  apply h.append
  · simp [hlen]
  · intro h0
    have := congrArg List.length h0
    simp at this
    omega
  · intro u hu
    rw [(List.mem_replicate.mp hu).2]
    exact ht

theorem LastDraw.of_marker {points : List (Point2d F)} {types : List Int}
    (hlen : points.length = types.length) :
    LastDraw ⟨points, types, -1⟩ :=
  ⟨hlen, by intro h; simp at h⟩

theorem lastDraw_pushLoop [Zero F] [Add F] {p : GiPath F} (h : LastDraw p) (count : Int)
    (points : Option (List (Point2d F))) (rel : Bool) (lastpt : Point2d F) (t : Int)
    (hc : count > 0) (ht : isDraw t) :
    LastDraw (p.pushLoop count points rel lastpt t) := by
  rw [pushLoop_eq]
  exact h.replicate _ _ _ (by simp) (by omega) ht

theorem lastDraw_pushLoopRev [Zero F] [Add F] {p : GiPath F} (h : LastDraw p) (count : Int)
    (points : Option (List (Point2d F))) (rel : Bool) (lastpt : Point2d F) (t : Int)
    (hc : count > 0) (ht : isDraw t) :
    LastDraw (p.pushLoopRev count points rel lastpt t) := by
  rw [pushLoopRev_eq]
  exact h.replicate _ _ _ (by simp) (by omega) ht

theorem lastDraw_arcAppend (cm : Mgcurv F) {p : GiPath F} (h : LastDraw p)
    (fit : Option (ArcFit F)) : LastDraw (arcAppend cm p fit).2 := by
  rcases arcAppend_eq cm p fit with h0 | ⟨pts, h4, h1⟩
  · rw [h0]; exact h
  · rw [h1]
    exact h.replicate _ _ _ rfl (by omega) (Or.inr (Or.inl rfl))

theorem lastDraw_closeFigure {p : GiPath F} (h : LastDraw p) : LastDraw p.closeFigure.2 := by
  unfold closeFigure
  split
  · dsimp only
    split
    · exact LastDraw.of_marker (by simp [h.1])
    · exact h
  · exact h

theorem lastDraw_apply [Zero F] [Add F] [Sub F] [Mul F] [OfNat F 2] (cm : Mgcurv F)
    (o : Op F) {p : GiPath F} (h : LastDraw p) : LastDraw (o.apply cm p) := by
  have hl : isDraw kGiLineTo := Or.inl rfl
  have hb : isDraw kGiBezierTo := Or.inr (Or.inl rfl)
  have hq : isDraw kGiQuadTo := Or.inr (Or.inr rfl)
  cases o with
  | startFigure => exact LastDraw.of_marker h.1
  | clear => exact LastDraw.of_marker rfl
  | moveTo point rel =>
    refine ⟨by simp [Op.apply, moveTo, h.1], ?_⟩
    intro _ h2
    simp [Op.apply, moveTo] at h2
  | lineTo point rel =>
    simp only [Op.apply, lineTo]
    split
    · exact h.replicate [_] 1 _ rfl (by decide) hl
    · exact h
  | horzTo x rel =>
    simp only [Op.apply, horzTo]
    split
    · exact h.replicate [_] 1 _ rfl (by decide) hl
    · exact h
  | vertTo y rel =>
    simp only [Op.apply, vertTo]
    split
    · exact h.replicate [_] 1 _ rfl (by decide) hl
    · exact h
  | linesTo count points rel =>
    simp only [Op.apply, linesTo]
    split
    · rename_i hr
      simp only [Bool.and_eq_true, decide_eq_true_eq] at hr
      exact lastDraw_pushLoop h _ _ _ _ _ hr.1.2 hl
    · exact h
  | beziersTo count points reverse rel =>
    simp only [Op.apply, beziersTo]
    split
    · rename_i hr
      simp only [Bool.and_eq_true, decide_eq_true_eq] at hr
      exact lastDraw_pushLoopRev h _ _ _ _ _ hr.1.1.1.2 hb
    · split
      · rename_i hr
        simp only [Bool.and_eq_true, decide_eq_true_eq] at hr
        exact lastDraw_pushLoop h _ _ _ _ _ hr.1.1.2 hb
      · exact h
  | bezierTo cp1 cp2 endp rel =>
    simp only [Op.apply, bezierTo_eq]
    exact h.replicate [_, _, _] 3 _ rfl (by decide) hb
  | smoothBezierTo cp2 endp rel =>
    simp only [Op.apply, smoothBezierTo_eq]
    exact h.replicate [_, _, _] 3 _ rfl (by decide) hb
  | quadsTo count points rel =>
    simp only [Op.apply, quadsTo]
    split
    · rename_i hr
      simp only [Bool.and_eq_true, decide_eq_true_eq] at hr
      exact lastDraw_pushLoop h _ _ _ _ _ hr.1.1.2 hq
    · exact h
  | quadTo cp endp rel =>
    simp only [Op.apply, quadTo_eq]
    exact h.replicate [_, _] 2 _ rfl (by decide) hq
  | smoothQuadTo endp rel =>
    simp only [Op.apply, smoothQuadTo_eq]
    exact h.replicate [_, _] 2 _ rfl (by decide) hq
  | arcTo point rel =>
    simp only [Op.apply, arcTo]
    split
    · exact lastDraw_arcAppend cm h _
    · exact h
  | arcTo3 point endp rel =>
    simp only [Op.apply, arcTo3]
    split
    · exact lastDraw_arcAppend cm h _
    · exact h
  | closeFigure => exact lastDraw_closeFigure h

theorem lastDraw_foldl [Zero F] [Add F] [Sub F] [Mul F] [OfNat F 2] (cm : Mgcurv F)
    (ops : List (Op F)) {p : GiPath F} (h : LastDraw p) :
    LastDraw (ops.foldl (fun q o => o.apply cm q) p) := by
  induction ops generalizing p with
  | nil => exact h
  | cons o ops ih => exact ih (lastDraw_apply cm o h)

theorem lastDraw_run [Zero F] [Add F] [Sub F] [Mul F] [OfNat F 2] (cm : Mgcurv F)
    (ops : List (Op F)) : LastDraw (run cm ops) :=
  lastDraw_foldl cm ops (LastDraw.of_marker rfl)

end Invariant

/-! ## closeFigure on built paths -/

section CloseFigureBuilt
variable {F : Type}

theorem closeFigure_fst_eq_true_iff {p : GiPath F} (h : LastDraw p) :
    p.closeFigure.1 = true ↔ (0 ≤ p.beginIndex ∧ p.beginIndex + 3 ≤ p.getCount) := by
  constructor
  · intro ht
    unfold closeFigure at ht
    split at ht
    · rename_i hg
      exact ⟨hg.1, hg.2.1⟩
    · simp at ht
  · rintro ⟨hm, hc⟩
    have hc2 : p.beginIndex + 3 ≤ (p.points.length : Int) := hc
    obtain ⟨t, hlast, ht⟩ := h.2 hm (by omega)
    have hpos : 0 < p.types.length := by
      have := h.1
      omega
    obtain ⟨init, x, hx⟩ := exists_concat_of_pos p.types hpos
    have hxt : x = t := by
      rw [hx] at hlast
      simpa using hlast
    have hidx : p.points.length - 1 = init.length := by
      have h1 := h.1
      rw [hx] at h1
      simp at h1
      omega
    unfold closeFigure
    rw [if_pos ⟨hm, hc, h.1⟩]
    simp only [hidx, hx, getD_length_append]
    rw [if_pos (hxt ▸ ht)]

/-- C2 (as the code has it): on every path built by the builder operations,
`closeFigure` returns false exactly when no figure is open or the open figure holds
fewer than 3 nodes (its MoveTo and at most one further node); whenever the open
figure holds its MoveTo and at least two further nodes, it returns true. -/
theorem closeFigure_false_iff_built [Zero F] [Add F] [Sub F] [Mul F] [OfNat F 2]
    (cm : Mgcurv F) (ops : List (Op F)) :
    ((run cm ops).closeFigure.1 = false ↔
      ((run cm ops).beginIndex < 0 ∨ (run cm ops).getCount < (run cm ops).beginIndex + 3))
    ∧ ((0 ≤ (run cm ops).beginIndex ∧ (run cm ops).beginIndex + 3 ≤ (run cm ops).getCount) →
        (run cm ops).closeFigure.1 = true) := by
  have h := closeFigure_fst_eq_true_iff (lastDraw_run cm ops)
  refine ⟨?_, h.mpr⟩
  rw [← Bool.not_eq_true, h]
  omega

/-- C2 fails as stated: after `moveTo (0,0); lineTo (10,0)` the open figure holds its
MoveTo and one further drawing node, and `closeFigure` returns false and changes
nothing; so it is not the case that every built path with an open figure of at least
two nodes is closed successfully. -/
theorem closeFigure_two_nodes_false :
    run (noArc Int) [Op.moveTo ⟨0, 0⟩ false, Op.lineTo ⟨10, 0⟩ false]
        = ⟨[⟨0, 0⟩, ⟨10, 0⟩], [kGiMoveTo, kGiLineTo], 0⟩
    ∧ (run (noArc Int) [Op.moveTo ⟨0, 0⟩ false, Op.lineTo ⟨10, 0⟩ false]).closeFigure
        = (false, ⟨[⟨0, 0⟩, ⟨10, 0⟩], [kGiMoveTo, kGiLineTo], 0⟩)
    ∧ ¬ (∀ ops : List (Op Int),
          (0 ≤ (run (noArc Int) ops).beginIndex
            ∧ (run (noArc Int) ops).beginIndex + 2 ≤ (run (noArc Int) ops).getCount) →
          (run (noArc Int) ops).closeFigure.1 = true) := by
  refine ⟨by decide, by decide, ?_⟩
  intro h
  exact absurd (h [Op.moveTo ⟨0, 0⟩ false, Op.lineTo ⟨10, 0⟩ false] (by decide)) (by decide)

/-- C3: if `closeFigure` returns true, a second `closeFigure` right after it returns
false and leaves the nodes and the marker as the first call left them; the last node
still carries the type the first call gave it. -/
theorem closeFigure_twice (p : GiPath F) (h : p.closeFigure.1 = true) :
    p.closeFigure.2.closeFigure.1 = false
    ∧ p.closeFigure.2.closeFigure.2 = p.closeFigure.2
    ∧ p.closeFigure.2.closeFigure.2.points = p.points
    ∧ p.closeFigure.2.beginIndex = -1 := by
  have hb : p.closeFigure.2.beginIndex = -1 := by
    unfold closeFigure at h ⊢
    split
    · dsimp only
      split
      · rfl
      · rename_i hg hn
        rw [if_pos hg] at h
        dsimp only at h
        rw [if_neg hn] at h
        simp at h
    · rename_i hg
      rw [if_neg hg] at h
      simp at h
  have hp : p.closeFigure.2.points = p.points := by
    unfold closeFigure
    split
    · dsimp only
      split <;> rfl
    · rfl
  have h2 : p.closeFigure.2.closeFigure = (false, p.closeFigure.2) := by
    generalize p.closeFigure.2 = q at hb
    unfold closeFigure
    rw [if_neg]
    rw [hb]
    simp
  rw [h2]
  exact ⟨rfl, rfl, hp, hb⟩

/-- Witness of C3 on the open triangle (0,0), (10,0), (10,10). -/
theorem closeFigure_twice_witness :
    (GiPath.mk [⟨0, 0⟩, ⟨10, 0⟩, ⟨10, 10⟩] [kGiMoveTo, kGiLineTo, kGiLineTo] 0 :
        GiPath Int).closeFigure.2.closeFigure.1 = false :=
  (closeFigure_twice
    (GiPath.mk [⟨0, 0⟩, ⟨10, 0⟩, ⟨10, 10⟩] [kGiMoveTo, kGiLineTo, kGiLineTo] 0 : GiPath Int)
    (by decide)).1

end CloseFigureBuilt

/-! ## moveTo and the line operations -/

section Lines
variable {F : Type} [Zero F] [Add F]

/-- C4: `lineTo`, `horzTo` and `vertTo` return true exactly when a figure is open
(marker ≥ 0); `linesTo` returns true exactly when a figure is open, `count > 0` and
the buffer is not null. Each of the four leaves the path as it was when it returns
false, and a `lineTo` that returns true appends exactly one LineTo node (the point,
shifted by the end point in relative mode) after the old nodes and keeps the
marker. -/
theorem lineOps_open_figure (p : GiPath F) (point : Point2d F) (x y : F) (count : Int)
    (points : Option (List (Point2d F))) (rel : Bool) :
    ((p.lineTo point rel).1 = true ↔ 0 ≤ p.beginIndex)
    ∧ ((p.horzTo x rel).1 = true ↔ 0 ≤ p.beginIndex)
    ∧ ((p.vertTo y rel).1 = true ↔ 0 ≤ p.beginIndex)
    ∧ ((p.linesTo count points rel).1 = true ↔
        (0 ≤ p.beginIndex ∧ 0 < count ∧ points ≠ none))
    ∧ ((p.lineTo point rel).1 = false → (p.lineTo point rel).2 = p)
    ∧ ((p.horzTo x rel).1 = false → (p.horzTo x rel).2 = p)
    ∧ ((p.vertTo y rel).1 = false → (p.vertTo y rel).2 = p)
    ∧ ((p.linesTo count points rel).1 = false → (p.linesTo count points rel).2 = p)
    ∧ ((p.lineTo point rel).1 = true →
        (p.lineTo point rel).2
          = ⟨p.points ++ [if rel then point + p.getEndPoint else point],
              p.types ++ [kGiLineTo], p.beginIndex⟩) := by
  refine ⟨?_, ?_, ?_, ?_, ?_, ?_, ?_, ?_, ?_⟩
  · by_cases h : 0 ≤ p.beginIndex <;> simp [lineTo, h]
  · by_cases h : 0 ≤ p.beginIndex <;> simp [horzTo, h]
  · by_cases h : 0 ≤ p.beginIndex <;> simp [vertTo, h]
  · by_cases h1 : 0 ≤ p.beginIndex <;> by_cases h2 : 0 < count <;> cases points <;>
      simp [linesTo, h1, h2]
  · by_cases h : 0 ≤ p.beginIndex <;> simp [lineTo, h]
  · by_cases h : 0 ≤ p.beginIndex <;> simp [horzTo, h]
  · by_cases h : 0 ≤ p.beginIndex <;> simp [vertTo, h]
  · by_cases h1 : 0 ≤ p.beginIndex <;> by_cases h2 : 0 < count <;> cases points <;>
      simp [linesTo, h1, h2]
  · by_cases h : 0 ≤ p.beginIndex
    · simp [lineTo, h, pushBack]
    · simp [lineTo, h]

/-- C5: `moveTo` returns true on every path, appends exactly one MoveTo node after
the old nodes and sets the marker to the index of that node; the node's point is
`point`, or `point` plus the end point before the call in relative mode, and the end
point of a path without points is the origin. -/
theorem moveTo_spec (p : GiPath F) (point : Point2d F) (rel : Bool) :
    (p.moveTo point rel).1 = true
    ∧ (p.moveTo point rel).2.points
        = p.points ++ [if rel then point + p.getEndPoint else point]
    ∧ (p.moveTo point rel).2.types = p.types ++ [kGiMoveTo]
    ∧ (p.moveTo point rel).2.beginIndex = p.getCount
    ∧ (p.moveTo point rel).2.getPoint p.getCount
        = (if rel then point + p.getEndPoint else point)
    ∧ (p.points = [] → p.getEndPoint = ⟨0, 0⟩)
    ∧ (∀ (init : List (Point2d F)) (e : Point2d F),
        p.points = init ++ [e] → p.getEndPoint = e) := by
  refine ⟨rfl, rfl, rfl, ?_, ?_, ?_, ?_⟩
  · simp [moveTo, getCount, getSize]
  · have h := getD_length_append p.points
      (if rel then point + p.getEndPoint else point) default
    simp only [getPoint, moveTo, getCount, getSize, List.length_append, List.length_singleton,
      Int.toNat_ofNat]
    rw [if_pos (by constructor <;> omega)]
    exact h
  · intro h
    simp [getEndPoint, h]
    rfl
  · intro init e h
    simp [getEndPoint, h]

end Lines

/-! ## The curve operations -/

section Curves
variable {F : Type}

/-- The guard of `beziersTo` (`k = 3`) and `quadsTo` (`k = 2`). -/
theorem curveGuard_iff (b count : Int) (points : Option (List (Point2d F))) (k : Int)
    (hk : 0 ≤ k) :
    (decide (b ≥ 0) && decide (count > 0) && points.isSome
        && decide (Int.tmod count k = 0)) = true
      ↔ (0 ≤ b ∧ points ≠ none ∧ 0 < count ∧ count % k = 0) := by
  have hsome : points.isSome = true ↔ points ≠ none := by
    cases points <;> simp
  simp only [Bool.and_eq_true, decide_eq_true_eq, hsome]
  constructor
  · rintro ⟨⟨⟨h1, h2⟩, h3⟩, h4⟩
    rw [Int.tmod_eq_emod (by omega) hk] at h4
    exact ⟨h1, h3, h2, h4⟩
  · rintro ⟨h1, h3, h2, h4⟩
    rw [← Int.tmod_eq_emod (by omega) hk] at h4
    exact ⟨⟨⟨h1, h2⟩, h3⟩, h4⟩

variable [Zero F] [Add F]

theorem beziersTo_of_guard (p : GiPath F) (count : Int)
    (points : Option (List (Point2d F))) (reverse rel : Bool)
    (h : 0 ≤ p.beginIndex ∧ points ≠ none ∧ 0 < count ∧ count % 3 = 0) :
    p.beziersTo count points reverse rel
      = (true, ⟨p.points ++
            (if reverse then
              ((List.range count.toNat).map (fun i =>
                if rel then ptrAt points i + p.getEndPoint else ptrAt points i)).reverse
            else
              (List.range count.toNat).map (fun i =>
                if rel then ptrAt points i + p.getEndPoint else ptrAt points i)),
          p.types ++ List.replicate count.toNat kGiBezierTo, p.beginIndex⟩) := by
  have hg := curveGuard_iff p.beginIndex count points 3 (by decide)
  unfold beziersTo
  dsimp only
  rw [hg.mpr h]
  cases reverse
  · simp [pushLoop_eq]
  · simp [pushLoopRev_eq]

theorem beziersTo_of_not_guard (p : GiPath F) (count : Int)
    (points : Option (List (Point2d F))) (reverse rel : Bool)
    (h : ¬ (0 ≤ p.beginIndex ∧ points ≠ none ∧ 0 < count ∧ count % 3 = 0)) :
    p.beziersTo count points reverse rel = (false, p) := by
  have hg := curveGuard_iff p.beginIndex count points 3 (by decide)
  unfold beziersTo
  dsimp only
  rw [(Bool.not_eq_true _).mp (mt hg.mp h)]
  simp

theorem quadsTo_of_guard (p : GiPath F) (count : Int)
    (points : Option (List (Point2d F))) (rel : Bool)
    (h : 0 ≤ p.beginIndex ∧ points ≠ none ∧ 0 < count ∧ count % 2 = 0) :
    p.quadsTo count points rel
      = (true, ⟨p.points ++ (List.range count.toNat).map (fun i =>
              if rel then ptrAt points i + p.getEndPoint else ptrAt points i),
          p.types ++ List.replicate count.toNat kGiQuadTo, p.beginIndex⟩) := by
  have hg := curveGuard_iff p.beginIndex count points 2 (by decide)
  unfold quadsTo
  dsimp only
  rw [hg.mpr h]
  simp [pushLoop_eq]

theorem quadsTo_of_not_guard (p : GiPath F) (count : Int)
    (points : Option (List (Point2d F))) (rel : Bool)
    (h : ¬ (0 ≤ p.beginIndex ∧ points ≠ none ∧ 0 < count ∧ count % 2 = 0)) :
    p.quadsTo count points rel = (false, p) := by
  have hg := curveGuard_iff p.beginIndex count points 2 (by decide)
  unfold quadsTo
  dsimp only
  rw [(Bool.not_eq_true _).mp (mt hg.mp h)]
  simp

/-- C6: `beziersTo` returns true exactly when a figure is open, the buffer is not
null, `count > 0` and `count % 3 = 0`. When it returns true it appends exactly `count`
nodes, all BezierTo, after the old nodes and keeps the marker; when it returns false
the path is unchanged. -/
theorem beziersTo_spec (p : GiPath F) (count : Int) (points : Option (List (Point2d F)))
    (reverse rel : Bool) :
    ((p.beziersTo count points reverse rel).1 = true ↔
        (0 ≤ p.beginIndex ∧ points ≠ none ∧ 0 < count ∧ count % 3 = 0))
    ∧ ((p.beziersTo count points reverse rel).1 = true →
        ∃ new : List (Point2d F), (new.length : Int) = count
          ∧ (p.beziersTo count points reverse rel).2.points = p.points ++ new
          ∧ (p.beziersTo count points reverse rel).2.types
              = p.types ++ List.replicate new.length kGiBezierTo
          ∧ (p.beziersTo count points reverse rel).2.beginIndex = p.beginIndex)
    ∧ ((p.beziersTo count points reverse rel).1 = false →
        (p.beziersTo count points reverse rel).2 = p) := by
  by_cases h : 0 ≤ p.beginIndex ∧ points ≠ none ∧ 0 < count ∧ count % 3 = 0
  · rw [beziersTo_of_guard p count points reverse rel h]
    refine ⟨by simp [h], fun _ => ?_, by simp⟩
    refine ⟨_, ?_, rfl, ?_, rfl⟩
    · cases reverse <;> simp <;> omega
    · cases reverse <;> simp
  · rw [beziersTo_of_not_guard p count points reverse rel h]
    exact ⟨⟨fun h1 => Bool.noConfusion h1, fun h1 => absurd h1 h⟩,
      fun h1 => Bool.noConfusion h1, fun _ => rfl⟩

/-- C7: on a path with an open figure, for a point list whose length is a positive
multiple of 3, `beziersTo` with `reverse = true` gives the same result as
`beziersTo` with `reverse = false` on the reversed list: it succeeds and the points
appended are the supplied points in reverse order, last supplied point first
(each shifted by the old end point in relative mode). -/
theorem beziersTo_reverse (p : GiPath F) (pts : List (Point2d F)) (rel : Bool)
    (hopen : 0 ≤ p.beginIndex) (hpos : 0 < pts.length) (h3 : pts.length % 3 = 0) :
    p.beziersTo pts.length (some pts) true rel
        = p.beziersTo pts.length (some pts.reverse) false rel
    ∧ (p.beziersTo pts.length (some pts) true rel).1 = true
    ∧ (p.beziersTo pts.length (some pts) true rel).2.points
        = p.points ++ (pts.map (fun q => if rel then q + p.getEndPoint else q)).reverse
    ∧ (p.beziersTo pts.length (some pts) true rel).2.types
        = p.types ++ List.replicate pts.length kGiBezierTo
    ∧ (p.beziersTo pts.length (some pts) true rel).2.beginIndex = p.beginIndex := by
  have hg : ∀ l : List (Point2d F), l.length = pts.length →
      (0 ≤ p.beginIndex ∧ some l ≠ none ∧ 0 < (pts.length : Int)
        ∧ (pts.length : Int) % 3 = 0) := by
    intro l _
    exact ⟨hopen, by simp, by omega, by omega⟩
  have hmap : ∀ l : List (Point2d F), l.length = pts.length →
      (List.range pts.length).map (fun i =>
          if rel then ptrAt (some l) i + p.getEndPoint else ptrAt (some l) i)
        = l.map (fun q => if rel then q + p.getEndPoint else q) := by
    intro l hl
    rw [← hl]
    exact map_range_getD l default (fun q => if rel then q + p.getEndPoint else q)
  rw [beziersTo_of_guard p _ _ _ _ (hg pts rfl),
    beziersTo_of_guard p _ _ _ _ (hg pts.reverse (by simp))]
  simp only [Int.toNat_ofNat, if_true, hmap pts rfl, hmap pts.reverse (by simp)]
  simp [List.map_reverse]

/-- Witness of C7: three control points appended in reverse after a MoveTo. -/
theorem beziersTo_reverse_witness :
    (GiPath.mk [⟨5, 5⟩] [kGiMoveTo] 0 : GiPath Int).beziersTo 3
        (some [⟨1, 1⟩, ⟨2, 2⟩, ⟨3, 3⟩]) true false
      = (GiPath.mk [⟨5, 5⟩] [kGiMoveTo] 0 : GiPath Int).beziersTo 3
        (some [⟨3, 3⟩, ⟨2, 2⟩, ⟨1, 1⟩]) false false :=
  (beziersTo_reverse (GiPath.mk [⟨5, 5⟩] [kGiMoveTo] 0 : GiPath Int)
    [⟨1, 1⟩, ⟨2, 2⟩, ⟨3, 3⟩] false (by decide) (by decide) (by decide)).1

/-- C8: `quadsTo` returns true exactly when a figure is open, the buffer is not null,
`count > 0` and `count % 2 = 0`. When it returns true it appends exactly `count`
QuadTo nodes after the old nodes, the i-th of them at the i-th supplied point
(shifted by the old end point in relative mode), the whole buffer in its order when
`count` is its length, and keeps the marker; when it returns false the path is
unchanged. -/
theorem quadsTo_spec (p : GiPath F) (count : Int) (points : Option (List (Point2d F)))
    (rel : Bool) :
    ((p.quadsTo count points rel).1 = true ↔
        (0 ≤ p.beginIndex ∧ points ≠ none ∧ 0 < count ∧ count % 2 = 0))
    ∧ ((p.quadsTo count points rel).1 = true →
        (p.quadsTo count points rel).2.points
            = p.points ++ (List.range count.toNat).map (fun i =>
                if rel then ptrAt points i + p.getEndPoint else ptrAt points i)
          ∧ (((List.range count.toNat).map (fun i =>
                if rel then ptrAt points i + p.getEndPoint else ptrAt points i)).length : Int)
              = count
          ∧ (p.quadsTo count points rel).2.types
              = p.types ++ List.replicate count.toNat kGiQuadTo
          ∧ (p.quadsTo count points rel).2.beginIndex = p.beginIndex
          ∧ (∀ buf : List (Point2d F), points = some buf → count = buf.length →
              (p.quadsTo count points rel).2.points
                = p.points ++ buf.map (fun q => if rel then q + p.getEndPoint else q)))
    ∧ ((p.quadsTo count points rel).1 = false → (p.quadsTo count points rel).2 = p) := by
  by_cases h : 0 ≤ p.beginIndex ∧ points ≠ none ∧ 0 < count ∧ count % 2 = 0
  · rw [quadsTo_of_guard p count points rel h]
    refine ⟨by simp [h], fun _ => ⟨rfl, ?_, rfl, rfl, ?_⟩, by simp⟩
    · simp; omega
    · intro buf hb hc
      subst hb hc
      simp only [Int.toNat_ofNat]
      rw [show (List.range buf.length).map (fun i =>
            if rel then ptrAt (some buf) i + p.getEndPoint else ptrAt (some buf) i)
          = buf.map (fun q => if rel then q + p.getEndPoint else q) from
        map_range_getD buf default (fun q => if rel then q + p.getEndPoint else q)]
  · rw [quadsTo_of_not_guard p count points rel h]
    exact ⟨⟨fun h1 => Bool.noConfusion h1, fun h1 => absurd h1 h⟩,
      fun h1 => Bool.noConfusion h1, fun _ => rfl⟩

/-- C9: `bezierTo` with `rel = false` returns true on every path and appends exactly
three BezierTo nodes, at `cp1`, `cp2`, `endp` in this order, after the old nodes; the
marker is unchanged. -/
theorem bezierTo_spec (p : GiPath F) (cp1 cp2 endp : Point2d F) :
    (p.bezierTo cp1 cp2 endp false).1 = true
    ∧ (p.bezierTo cp1 cp2 endp false).2.points = p.points ++ [cp1, cp2, endp]
    ∧ (p.bezierTo cp1 cp2 endp false).2.types
        = p.types ++ [kGiBezierTo, kGiBezierTo, kGiBezierTo]
    ∧ (p.bezierTo cp1 cp2 endp false).2.beginIndex = p.beginIndex := by
  rw [bezierTo_eq]
  exact ⟨rfl, by simp, rfl, rfl⟩

end Curves

/-- C10 fails on the code: on the empty path, where no figure is open (marker -1),
`bezierTo`, `smoothBezierTo`, `quadTo` and `smoothQuadTo` return true and append
nodes, while the guarded siblings `beziersTo` and `quadsTo` return false. -/
theorem unguarded_curveTo_on_empty :
    (empty : GiPath Int).beginIndex = -1
    ∧ (empty : GiPath Int).bezierTo ⟨1, 1⟩ ⟨2, 2⟩ ⟨3, 3⟩ false
        = (true, ⟨[⟨1, 1⟩, ⟨2, 2⟩, ⟨3, 3⟩], [kGiBezierTo, kGiBezierTo, kGiBezierTo], -1⟩)
    ∧ (empty : GiPath Int).smoothBezierTo ⟨2, 2⟩ ⟨3, 3⟩ false
        = (true, ⟨[⟨0, 0⟩, ⟨2, 2⟩, ⟨3, 3⟩], [kGiBezierTo, kGiBezierTo, kGiBezierTo], -1⟩)
    ∧ (empty : GiPath Int).quadTo ⟨2, 2⟩ ⟨3, 3⟩ false
        = (true, ⟨[⟨2, 2⟩, ⟨3, 3⟩], [kGiQuadTo, kGiQuadTo], -1⟩)
    ∧ (empty : GiPath Int).smoothQuadTo ⟨3, 3⟩ false
        = (true, ⟨[⟨0, 0⟩, ⟨3, 3⟩], [kGiQuadTo, kGiQuadTo], -1⟩)
    ∧ (empty : GiPath Int).beziersTo 3 (some [⟨1, 1⟩, ⟨2, 2⟩, ⟨3, 3⟩]) false false
        = (false, empty)
    ∧ (empty : GiPath Int).quadsTo 2 (some [⟨2, 2⟩, ⟨3, 3⟩]) false
        = (false, empty) := by
  decide

/-! ## The smooth curve operations -/

section Smooth
variable {F : Type}

theorem exists_two_last {α : Type} (l : List α) (h : 2 ≤ l.length) :
    ∃ init a b, l = init ++ [a, b] := by
  obtain ⟨l1, b, rfl⟩ := exists_concat_of_pos l (by omega)
  have h1 : 0 < l1.length := by
    simp at h
    omega
  obtain ⟨init, a, rfl⟩ := exists_concat_of_pos l1 h1
  exact ⟨init, a, b, by simp⟩

theorem getD_append_two_last {α : Type} (init : List α) (a b d : α) :
    (init ++ [a, b]).getD (init.length + 1) d = b
    ∧ (init ++ [a, b]).getD init.length d = a := by
  induction init with
  | nil => exact ⟨rfl, rfl⟩
  | cons c init ih => simpa using ih

/-- With at least two stored points, `getPoint` at the last two indices, the end
point and the synthesized control point are read off the last two points. -/
theorem smoothCp_two_last [Zero F] [Sub F] [Mul F] [OfNat F 2] (p : GiPath F)
    (h : 2 ≤ p.getCount) :
    p.getEndPoint = p.getPoint (p.getCount - 1)
    ∧ p.smoothCp
        = ⟨2 * (p.getPoint (p.getCount - 1)).x - (p.getPoint (p.getCount - 2)).x,
            2 * (p.getPoint (p.getCount - 1)).y - (p.getPoint (p.getCount - 2)).y⟩ := by
  obtain ⟨points, types, b⟩ := p
  simp only [getCount, getSize] at h
  obtain ⟨init, P, E, rfl⟩ := exists_two_last points (by omega)
  have hlen : (init ++ [P, E]).length = init.length + 2 := by simp
  have hE : getPoint ⟨init ++ [P, E], types, b⟩ ((init.length + 2 : Nat) - 1) = E := by
    unfold getPoint
    simp only [getCount, getSize, hlen]
    rw [if_pos (by constructor <;> omega)]
    have : ((init.length + 2 : Nat) - 1 : Int).toNat = init.length + 1 := by omega
    rw [this]
    exact (getD_append_two_last init P E default).1
  have hP : getPoint ⟨init ++ [P, E], types, b⟩ ((init.length + 2 : Nat) - 2) = P := by
    unfold getPoint
    simp only [getCount, getSize, hlen]
    rw [if_pos (by constructor <;> omega)]
    have : ((init.length + 2 : Nat) - 2 : Int).toNat = init.length := by omega
    rw [this]
    exact (getD_append_two_last init P E default).2
  have hend : getEndPoint ⟨init ++ [P, E], types, b⟩ = E := by
    simp [getEndPoint]
  simp only [getCount, getSize, hlen, hE, hP, hend, smoothCp]
  refine ⟨trivial, ?_⟩
  rw [if_pos (by omega)]
  have : init.length + 2 - 2 = init.length := by omega
  rw [this, (getD_append_two_last init P E default).2]
  rfl

/-- C11 (as the code has it): on a path holding at least 2 stored points, with E the
last and P the second-to-last point, `smoothBezierTo cp2 endp` with `rel = false`
returns true and appends exactly three BezierTo nodes at `2 * E - P`, `cp2`, `endp`,
in this order, where `2 * E - P` is computed coordinate by coordinate in the scalar
arithmetic of the path, as the source writes it; when that arithmetic is exact (the
coordinates are in a commutative ring) the first of them is the reflection of P
through E, `cp1 - E = E - P`. -/
theorem smoothBezierTo_reflect [Zero F] [Add F] [Sub F] [Mul F] [OfNat F 2] (p : GiPath F)
    (cp2 endp : Point2d F) (h : 2 ≤ p.getCount) :
    p.smoothBezierTo cp2 endp false
      = (true, ⟨p.points ++
            [⟨2 * (p.getPoint (p.getCount - 1)).x - (p.getPoint (p.getCount - 2)).x,
                2 * (p.getPoint (p.getCount - 1)).y - (p.getPoint (p.getCount - 2)).y⟩,
              cp2, endp],
          p.types ++ [kGiBezierTo, kGiBezierTo, kGiBezierTo], p.beginIndex⟩)
    ∧ (∀ (R : Type) [CommRing R] (q : GiPath R) (c e : Point2d R), 2 ≤ q.getCount →
        (q.smoothBezierTo c e false).2.points = q.points ++ [q.smoothCp, c, e]
        ∧ (q.smoothCp - q.getPoint (q.getCount - 1) : Vector2d R)
            = q.getPoint (q.getCount - 1) - q.getPoint (q.getCount - 2)) := by
  constructor
  · rw [smoothBezierTo_eq, (smoothCp_two_last p h).2]
    rfl
  · intro R _ q c e hq
    constructor
    · rw [smoothBezierTo_eq]
      rfl
    · rw [(smoothCp_two_last q hq).2]
      show (Vector2d.mk _ _ : Vector2d R) = Vector2d.mk _ _
      congr 1 <;> ring

/-- Witness of C11: after the points (0,0), (1,3) the control point is (2,6). -/
theorem smoothBezierTo_reflect_witness :
    (GiPath.mk [⟨0, 0⟩, ⟨1, 3⟩] [kGiMoveTo, kGiLineTo] 0 : GiPath Int).smoothBezierTo
        ⟨5, 5⟩ ⟨7, 7⟩ false
      = (true, ⟨[⟨0, 0⟩, ⟨1, 3⟩, ⟨2, 6⟩, ⟨5, 5⟩, ⟨7, 7⟩],
          [kGiMoveTo, kGiLineTo, kGiBezierTo, kGiBezierTo, kGiBezierTo], 0⟩) :=
  (smoothBezierTo_reflect
    (GiPath.mk [⟨0, 0⟩, ⟨1, 3⟩] [kGiMoveTo, kGiLineTo] 0 : GiPath Int) ⟨5, 5⟩ ⟨7, 7⟩
    (by decide)).1

/-- C11 fails as stated: with `float` coordinates the synthesized control point is
not exactly the reflection. After the points P = (3,0) and E = (16777216,0), that is
`2 ^ 24`, the product `2 * E.x` is 33554432 and `2 * E.x - P.x` is 33554429, which has
25 significant bits and is stored as 33554428; `smoothBezierTo` returns true and
appends this point, and `cp1 - E` is (16777212,0) while `E - P` is (16777213,0). -/
theorem smoothBezierTo_float_rounds :
    (2 : Int) ≤ (GiPath.mk [⟨3, 0⟩, ⟨16777216, 0⟩] [kGiMoveTo, kGiLineTo] 0 :
        GiPath Float32).getCount
    ∧ (GiPath.mk [⟨3, 0⟩, ⟨16777216, 0⟩] [kGiMoveTo, kGiLineTo] 0 :
        GiPath Float32).smoothBezierTo ⟨5, 5⟩ ⟨7, 7⟩ false
      = (true, ⟨[⟨3, 0⟩, ⟨16777216, 0⟩, ⟨⟨33554428⟩, 0⟩, ⟨5, 5⟩, ⟨7, 7⟩],
          [kGiMoveTo, kGiLineTo, kGiBezierTo, kGiBezierTo, kGiBezierTo], 0⟩)
    ∧ ((⟨⟨33554428⟩, 0⟩ : Point2d Float32) - (⟨16777216, 0⟩ : Point2d Float32) :
        Vector2d Float32) = ⟨⟨16777212⟩, 0⟩
    ∧ ((⟨16777216, 0⟩ : Point2d Float32) - (⟨3, 0⟩ : Point2d Float32) :
        Vector2d Float32) = ⟨⟨16777213⟩, 0⟩
    ∧ ((⟨⟨33554428⟩, 0⟩ : Point2d Float32) - (⟨16777216, 0⟩ : Point2d Float32) :
        Vector2d Float32)
      ≠ (⟨16777216, 0⟩ : Point2d Float32) - (⟨3, 0⟩ : Point2d Float32) := by
  refine ⟨by decide, by decide, by decide, by decide, by decide⟩

/-- C12: on a path holding at least 2 stored points, with E the last and P the
second-to-last point, `smoothQuadTo endp` with `rel = false` returns true and appends
exactly two QuadTo nodes at `2 * E - P` and `endp`, in this order. -/
theorem smoothQuadTo_two_points [Zero F] [Add F] [Sub F] [Mul F] [OfNat F 2] (p : GiPath F)
    (endp : Point2d F) (h : 2 ≤ p.getCount) :
    p.smoothQuadTo endp false
      = (true, ⟨p.points ++
            [⟨2 * (p.getPoint (p.getCount - 1)).x - (p.getPoint (p.getCount - 2)).x,
                2 * (p.getPoint (p.getCount - 1)).y - (p.getPoint (p.getCount - 2)).y⟩,
              endp],
          p.types ++ [kGiQuadTo, kGiQuadTo], p.beginIndex⟩) := by
  rw [smoothQuadTo_eq, (smoothCp_two_last p h).2]
  rfl

/-- Witness of C12: after the points (0,0), (1,3) the control point is (2,6). -/
theorem smoothQuadTo_two_points_witness :
    (GiPath.mk [⟨0, 0⟩, ⟨1, 3⟩] [kGiMoveTo, kGiLineTo] 0 : GiPath Int).smoothQuadTo
        ⟨7, 7⟩ false
      = (true, ⟨[⟨0, 0⟩, ⟨1, 3⟩, ⟨2, 6⟩, ⟨7, 7⟩],
          [kGiMoveTo, kGiLineTo, kGiQuadTo, kGiQuadTo], 0⟩) :=
  smoothQuadTo_two_points
    (GiPath.mk [⟨0, 0⟩, ⟨1, 3⟩] [kGiMoveTo, kGiLineTo] 0 : GiPath Int) ⟨7, 7⟩ (by decide)

/-- C13: on a path holding fewer than 2 stored points, the first point appended by
`smoothBezierTo` and by `smoothQuadTo` is the current end point: the stored point
when there is exactly one, the origin when there is none. -/
theorem smooth_few_points [Zero F] [Add F] [Sub F] [Mul F] [OfNat F 2] (p : GiPath F)
    (cp2 endp : Point2d F) (rel : Bool) (h : p.getCount < 2) :
    (p.smoothBezierTo cp2 endp rel).2.points
        = p.points ++ [p.getEndPoint, if rel then cp2 + p.getEndPoint else cp2,
            if rel then endp + p.getEndPoint else endp]
    ∧ (p.smoothQuadTo endp rel).2.points
        = p.points ++ [p.getEndPoint, if rel then endp + p.getEndPoint else endp]
    ∧ (p.points = [] → p.getEndPoint = ⟨0, 0⟩)
    ∧ (∀ e : Point2d F, p.points = [e] → p.getEndPoint = e) := by
  have hcp : p.smoothCp = p.getEndPoint := by
    unfold smoothCp
    simp only [getCount, getSize] at h
    rw [if_neg (by omega)]
  rw [smoothBezierTo_eq, smoothQuadTo_eq, hcp]
  refine ⟨rfl, rfl, ?_, ?_⟩
  · intro h0
    simp [getEndPoint, h0]
    rfl
  · intro e h1
    simp [getEndPoint, h1]

/-- Witness of C13 on the path holding the single point (4,9). -/
theorem smooth_few_points_witness :
    ((GiPath.mk [⟨4, 9⟩] [kGiMoveTo] 0 : GiPath Int).smoothQuadTo ⟨7, 7⟩ false).2.points
      = [⟨4, 9⟩, ⟨4, 9⟩, ⟨7, 7⟩] :=
  (smooth_few_points (GiPath.mk [⟨4, 9⟩] [kGiMoveTo] 0 : GiPath Int) ⟨0, 0⟩ ⟨7, 7⟩ false
    (by decide)).2.1

end Smooth

/-! ## arcTo -/

section Arcs
variable {F : Type}

theorem getPoint_sub_eq [Zero F] (p : GiPath F) (k : Nat) (hk : 1 ≤ k)
    (h : k ≤ p.points.length) :
    p.getPoint (p.getCount - k) = p.points.getD (p.points.length - k) default := by
  unfold getPoint
  simp only [getCount, getSize]
  rw [if_pos (by constructor <;> omega)]
  have : ((p.points.length : Int) - (k : Int)).toNat = p.points.length - k := by omega
  rw [this]

theorem getEndPoint_eq_getD [Zero F] (p : GiPath F) :
    p.getEndPoint = p.points.getD (p.points.length - 1) default := by
  unfold getEndPoint
  rcases List.eq_nil_or_concat p.points with h | ⟨init, e, h⟩
  · simp [h]
  · rw [h]
    simp [getD_length_append]

theorem arcAppend_true (cm : Mgcurv F) (p : GiPath F) (fit : Option (ArcFit F))
    (h : (arcAppend cm p fit).1 = true) :
    ∃ a, fit = some a
      ∧ 4 ≤ (cm.arcToBezier a.center a.radius a.radius a.startAngle a.sweepAngle).length := by
  unfold arcAppend at h
  cases fit with
  | none => exact Bool.noConfusion h
  | some a =>
    refine ⟨a, rfl, ?_⟩
    dsimp only at h
    split at h
    · assumption
    · exact Bool.noConfusion h

theorem arcAppend_some (cm : Mgcurv F) (p : GiPath F) (a : ArcFit F)
    (h : 4 ≤ (cm.arcToBezier a.center a.radius a.radius a.startAngle a.sweepAngle).length) :
    arcAppend cm p (some a)
      = (true, ⟨p.points
            ++ cm.arcToBezier a.center a.radius a.radius a.startAngle a.sweepAngle,
          p.types ++ List.replicate
            (cm.arcToBezier a.center a.radius a.radius a.startAngle a.sweepAngle).length
            kGiBezierTo,
          p.beginIndex⟩) := by
  unfold arcAppend
  dsimp only
  rw [if_pos h, foldl_pushBack, map_range_getD _ _ (fun x => x)]
  simp

theorem arcAppend_false (cm : Mgcurv F) (p : GiPath F) (fit : Option (ArcFit F))
    (h : (arcAppend cm p fit).1 = false) : (arcAppend cm p fit).2 = p := by
  rcases arcAppend_eq cm p fit with h0 | ⟨pts, _, h1⟩
  · rw [h0]
  · rw [h1] at h
    exact Bool.noConfusion h

theorem arcTo_of_guard [Zero F] [Add F] [Sub F] (cm : Mgcurv F) (p : GiPath F)
    (point : Point2d F) (rel : Bool)
    (h : 0 ≤ p.beginIndex ∧ p.beginIndex + 2 ≤ p.getCount
      ∧ p.points.length = p.types.length) :
    p.arcTo cm point rel
      = arcAppend cm p (cm.arcTan (p.getPoint (p.getCount - 1))
          (if rel then point + p.getEndPoint else point)
          (p.getPoint (p.getCount - 1) - p.getPoint (p.getCount - 2))) := by
  have hlen : 2 ≤ p.points.length := by
    have h2 := h.2.1
    simp only [getCount, getSize] at h2
    omega
  have h' : p.beginIndex ≥ 0 ∧ p.getSize ≥ p.beginIndex + 2
      ∧ p.points.length = p.types.length := h
  unfold arcTo
  rw [if_pos h']
  dsimp only
  have e1 := getPoint_sub_eq p 1 (by decide) (by omega)
  have e2 := getPoint_sub_eq p 2 (by decide) hlen
  simp only [Nat.cast_ofNat, Nat.cast_one] at e1 e2
  rw [e1, e2]

theorem arcTo_of_not_guard [Zero F] [Add F] [Sub F] (cm : Mgcurv F) (p : GiPath F)
    (point : Point2d F) (rel : Bool)
    (h : ¬ (0 ≤ p.beginIndex ∧ p.beginIndex + 2 ≤ p.getCount
      ∧ p.points.length = p.types.length)) :
    p.arcTo cm point rel = (false, p) := by
  have h' : ¬ (p.beginIndex ≥ 0 ∧ p.getSize ≥ p.beginIndex + 2
      ∧ p.points.length = p.types.length) := h
  unfold arcTo
  rw [if_neg h']

theorem arcTo3_of_guard [Zero F] [Add F] (cm : Mgcurv F) (p : GiPath F)
    (point endp : Point2d F) (rel : Bool)
    (h : 0 ≤ p.beginIndex ∧ p.beginIndex + 1 ≤ p.getCount
      ∧ p.points.length = p.types.length) :
    p.arcTo3 cm point endp rel
      = arcAppend cm p (cm.arc3P (p.getPoint (p.getCount - 1))
          (if rel then point + p.getEndPoint else point)
          (if rel then endp + p.getEndPoint else endp)) := by
  have hlen : 1 ≤ p.points.length := by
    have h2 := h.2.1
    simp only [getCount, getSize] at h2
    omega
  have h' : p.beginIndex ≥ 0 ∧ p.getSize ≥ p.beginIndex + 1
      ∧ p.points.length = p.types.length := h
  unfold arcTo3
  dsimp only
  rw [if_pos h']
  have e1 := getPoint_sub_eq p 1 (by decide) hlen
  simp only [Nat.cast_one] at e1
  rw [e1]

theorem arcTo3_of_not_guard [Zero F] [Add F] (cm : Mgcurv F) (p : GiPath F)
    (point endp : Point2d F) (rel : Bool)
    (h : ¬ (0 ≤ p.beginIndex ∧ p.beginIndex + 1 ≤ p.getCount
      ∧ p.points.length = p.types.length)) :
    p.arcTo3 cm point endp rel = (false, p) := by
  have h' : ¬ (p.beginIndex ≥ 0 ∧ p.getSize ≥ p.beginIndex + 1
      ∧ p.points.length = p.types.length) := h
  unfold arcTo3
  dsimp only
  rw [if_neg h']

end Arcs

section ArcClaims
variable {F : Type} [Zero F] [Add F] [Sub F] [Mul F]

/-- C14: the one-point `arcTo` returns false and leaves the path as it was whenever
no figure is open, or the current figure holds fewer than 2 nodes, or `mgcurv::arcTan`
(called on the last point, the target and the direction of the last two stored
points) fails, hence whenever the target lies along that direction and `arcTan`
rejects such targets as the spec requires. It returns true only if a figure with at
least 2 nodes is open, the fit succeeds and the conversion yields at least 4 points;
whenever it returns false the path is unchanged. -/
theorem arcTo_failure (cm : Mgcurv F) (p : GiPath F) (point : Point2d F) (rel : Bool) :
    (p.beginIndex < 0 → p.arcTo cm point rel = (false, p))
    ∧ (p.getCount < p.beginIndex + 2 → p.arcTo cm point rel = (false, p))
    ∧ (cm.arcTan (p.getPoint (p.getCount - 1))
          (if rel then point + p.getEndPoint else point)
          (p.getPoint (p.getCount - 1) - p.getPoint (p.getCount - 2)) = none →
        p.arcTo cm point rel = (false, p))
    ∧ ((∀ s e t, alongTangent s e t → cm.arcTan s e t = none) →
        alongTangent (p.getPoint (p.getCount - 1))
          (if rel then point + p.getEndPoint else point)
          (p.getPoint (p.getCount - 1) - p.getPoint (p.getCount - 2)) →
        p.arcTo cm point rel = (false, p))
    ∧ ((p.arcTo cm point rel).1 = true →
        0 ≤ p.beginIndex ∧ p.beginIndex + 2 ≤ p.getCount
        ∧ ∃ a, cm.arcTan (p.getPoint (p.getCount - 1))
              (if rel then point + p.getEndPoint else point)
              (p.getPoint (p.getCount - 1) - p.getPoint (p.getCount - 2)) = some a
            ∧ 4 ≤ (cm.arcToBezier a.center a.radius a.radius a.startAngle
                a.sweepAngle).length)
    ∧ ((p.arcTo cm point rel).1 = false → (p.arcTo cm point rel).2 = p) := by
  by_cases hg : 0 ≤ p.beginIndex ∧ p.beginIndex + 2 ≤ p.getCount
      ∧ p.points.length = p.types.length
  · rw [arcTo_of_guard cm p point rel hg]
    have hnone : ∀ fit : Option (ArcFit F), fit = none → arcAppend cm p fit = (false, p) := by
      intro fit h
      rw [h]
      rfl
    refine ⟨fun h => ?_, fun h => ?_, hnone _, fun hs ha => hnone _ (hs _ _ _ ha),
      fun h => ⟨hg.1, hg.2.1, arcAppend_true cm p _ h⟩, arcAppend_false cm p _⟩
    · exact absurd hg.1 (by omega)
    · exact absurd hg.2.1 (by omega)
  · rw [arcTo_of_not_guard cm p point rel hg]
    exact ⟨fun _ => rfl, fun _ => rfl, fun _ => rfl, fun _ _ => rfl,
      fun h => Bool.noConfusion h, fun _ => rfl⟩

/-- C15 (as the code has it): the three-point `arcTo` returns false and leaves the
path as it was if no figure is open, if the current figure holds no node, or if
`mgcurv::arc3P` (called on the last point and the two targets) fails, hence whenever
the three points are collinear and `arc3P` rejects such points as the spec requires.
One node in the current figure is enough: with an open figure of at least one node, a
successful fit and a conversion of at least 4 points it returns true and appends
these points as BezierTo nodes. Whenever it returns false the path is unchanged. -/
theorem arcTo3_failure (cm : Mgcurv F) (p : GiPath F) (point endp : Point2d F)
    (rel : Bool) :
    (p.beginIndex < 0 → p.arcTo3 cm point endp rel = (false, p))
    ∧ (p.getCount < p.beginIndex + 1 → p.arcTo3 cm point endp rel = (false, p))
    ∧ (cm.arc3P (p.getPoint (p.getCount - 1))
          (if rel then point + p.getEndPoint else point)
          (if rel then endp + p.getEndPoint else endp) = none →
        p.arcTo3 cm point endp rel = (false, p))
    ∧ ((∀ s v e, collinear s v e → cm.arc3P s v e = none) →
        collinear (p.getPoint (p.getCount - 1))
          (if rel then point + p.getEndPoint else point)
          (if rel then endp + p.getEndPoint else endp) →
        p.arcTo3 cm point endp rel = (false, p))
    ∧ (∀ a : ArcFit F,
        (0 ≤ p.beginIndex ∧ p.beginIndex + 1 ≤ p.getCount
          ∧ p.points.length = p.types.length) →
        cm.arc3P (p.getPoint (p.getCount - 1))
          (if rel then point + p.getEndPoint else point)
          (if rel then endp + p.getEndPoint else endp) = some a →
        4 ≤ (cm.arcToBezier a.center a.radius a.radius a.startAngle a.sweepAngle).length →
        p.arcTo3 cm point endp rel
          = (true, ⟨p.points
                ++ cm.arcToBezier a.center a.radius a.radius a.startAngle a.sweepAngle,
              p.types ++ List.replicate
                (cm.arcToBezier a.center a.radius a.radius a.startAngle a.sweepAngle).length
                kGiBezierTo,
              p.beginIndex⟩))
    ∧ ((p.arcTo3 cm point endp rel).1 = false → (p.arcTo3 cm point endp rel).2 = p) := by
  by_cases hg : 0 ≤ p.beginIndex ∧ p.beginIndex + 1 ≤ p.getCount
      ∧ p.points.length = p.types.length
  · rw [arcTo3_of_guard cm p point endp rel hg]
    have hnone : ∀ fit : Option (ArcFit F), fit = none → arcAppend cm p fit = (false, p) := by
      intro fit h
      rw [h]
      rfl
    refine ⟨fun h => ?_, fun h => ?_, hnone _, fun hs ha => hnone _ (hs _ _ _ ha),
      fun a _ hfit h4 => ?_, arcAppend_false cm p _⟩
    · exact absurd hg.1 (by omega)
    · exact absurd hg.2.1 (by omega)
    · rw [hfit]
      exact arcAppend_some cm p a h4
  · rw [arcTo3_of_not_guard cm p point endp rel hg]
    exact ⟨fun _ => rfl, fun _ => rfl, fun _ => rfl, fun _ _ => rfl,
      fun a h => absurd h hg, fun _ => rfl⟩

end ArcClaims

/-- C15 fails as stated: directly after `moveTo (0,0)` the current figure holds a
single node, and the three-point `arcTo` through (1,1) to (2,0), three points that
are not collinear, returns true and appends the converted arc; so it is not the case
that the call fails whenever the current figure holds fewer than 2 nodes. -/
theorem arcTo3_after_moveTo :
    ((empty : GiPath Int).moveTo ⟨0, 0⟩ false).2 = ⟨[⟨0, 0⟩], [kGiMoveTo], 0⟩
    ∧ (((empty : GiPath Int).moveTo ⟨0, 0⟩ false).2.arcTo3 segArc ⟨1, 1⟩ ⟨2, 0⟩ false).1 = true
    ∧ (((empty : GiPath Int).moveTo ⟨0, 0⟩ false).2.arcTo3 segArc ⟨1, 1⟩ ⟨2, 0⟩ false).2.types
        = [kGiMoveTo, kGiBezierTo, kGiBezierTo, kGiBezierTo, kGiBezierTo]
    ∧ ¬ (∀ (cm : Mgcurv Int) (p : GiPath Int) (point endp : Point2d Int) (rel : Bool),
          p.getCount < p.beginIndex + 2 → (p.arcTo3 cm point endp rel).1 = false) := by
  refine ⟨by decide, by decide, by decide, ?_⟩
  intro h
  exact absurd (h segArc ((empty : GiPath Int).moveTo ⟨0, 0⟩ false).2 ⟨1, 1⟩ ⟨2, 0⟩ false
    (by decide)) (by decide)

/-! ## Figures of built paths -/

/-- C16 fails on the code: `bezierTo` (like `smoothBezierTo`, `quadTo`,
`smoothQuadTo`) appends without an open figure, so a path built from the empty path by
the single call `bezierTo (1,1) (2,2) (3,3)`, or `quadTo (2,2) (3,3)`, is not empty
and its node 0 is not MoveTo. -/
theorem first_node_not_moveTo :
    run (noArc Int) [Op.bezierTo ⟨1, 1⟩ ⟨2, 2⟩ ⟨3, 3⟩ false]
        = ⟨[⟨1, 1⟩, ⟨2, 2⟩, ⟨3, 3⟩], [kGiBezierTo, kGiBezierTo, kGiBezierTo], -1⟩
    ∧ (run (noArc Int) [Op.bezierTo ⟨1, 1⟩ ⟨2, 2⟩ ⟨3, 3⟩ false]).getNodeType 0 = kGiBezierTo
    ∧ (run (noArc Int) [Op.bezierTo ⟨1, 1⟩ ⟨2, 2⟩ ⟨3, 3⟩ false]).getNodeType 0 ≠ kGiMoveTo
    ∧ (run (noArc Int) [Op.quadTo ⟨2, 2⟩ ⟨3, 3⟩ false]).getNodeType 0 = kGiQuadTo
    ∧ (run (noArc Int) [Op.quadTo ⟨2, 2⟩ ⟨3, 3⟩ false]).getNodeType 0 ≠ kGiMoveTo := by
  decide

/-- C17 fails on the code: after `moveTo; lineTo; lineTo; closeFigure` the unguarded
`bezierTo` still appends, so the only figure of the path (its only MoveTo is node 0)
carries its CloseFigure flag on node 2 while nodes 3 to 5 follow in the same figure:
the flag is not on the final node. -/
theorem closeFigure_flag_not_last :
    run (noArc Int) [Op.moveTo ⟨0, 0⟩ false, Op.lineTo ⟨10, 0⟩ false,
        Op.lineTo ⟨10, 10⟩ false, Op.closeFigure, Op.bezierTo ⟨1, 1⟩ ⟨2, 2⟩ ⟨3, 3⟩ false]
      = ⟨[⟨0, 0⟩, ⟨10, 0⟩, ⟨10, 10⟩, ⟨1, 1⟩, ⟨2, 2⟩, ⟨3, 3⟩],
          [kGiMoveTo, kGiLineTo, Int.lor kGiLineTo kGiCloseFigure,
            kGiBezierTo, kGiBezierTo, kGiBezierTo], -1⟩
    ∧ (run (noArc Int) [Op.moveTo ⟨0, 0⟩ false, Op.lineTo ⟨10, 0⟩ false,
        Op.lineTo ⟨10, 10⟩ false, Op.closeFigure,
        Op.bezierTo ⟨1, 1⟩ ⟨2, 2⟩ ⟨3, 3⟩ false]).getCount = 6
    ∧ (run (noArc Int) [Op.moveTo ⟨0, 0⟩ false, Op.lineTo ⟨10, 0⟩ false,
        Op.lineTo ⟨10, 10⟩ false, Op.closeFigure,
        Op.bezierTo ⟨1, 1⟩ ⟨2, 2⟩ ⟨3, 3⟩ false]).getNodeType 2
          = Int.lor kGiLineTo kGiCloseFigure
    ∧ (∀ i : Fin 6, 3 ≤ i.val →
        (run (noArc Int) [Op.moveTo ⟨0, 0⟩ false, Op.lineTo ⟨10, 0⟩ false,
          Op.lineTo ⟨10, 10⟩ false, Op.closeFigure,
          Op.bezierTo ⟨1, 1⟩ ⟨2, 2⟩ ⟨3, 3⟩ false]).getNodeType i.val = kGiBezierTo) := by
  decide

/-- C18 fails on the code: a successful one-point `arcTo` appends every one of the
`n ≥ 4` points of the conversion as a BezierTo node, the arc's start point included.
On the path MoveTo (0,0), LineTo (1,0) with target (2,1), whatever fit and conversion
`mgcurv` supplies, the nodes appended are exactly the `n` converted points; with a
single-segment conversion (`n = 4`) the path ends in a run of 4 BezierTo nodes, which
is not a multiple of 3; the three-point `arcTo` after `moveTo` does the same. -/
theorem arcTo_appends_all_points :
    (∀ (cm : Mgcurv Int) (a : ArcFit Int),
        cm.arcTan ⟨1, 0⟩ ⟨2, 1⟩ ⟨1, 0⟩ = some a →
        4 ≤ (cm.arcToBezier a.center a.radius a.radius a.startAngle a.sweepAngle).length →
        (GiPath.mk [⟨0, 0⟩, ⟨1, 0⟩] [kGiMoveTo, kGiLineTo] 0 : GiPath Int).arcTo cm
            ⟨2, 1⟩ false
          = (true, ⟨[⟨0, 0⟩, ⟨1, 0⟩]
                ++ cm.arcToBezier a.center a.radius a.radius a.startAngle a.sweepAngle,
              [kGiMoveTo, kGiLineTo] ++ List.replicate
                (cm.arcToBezier a.center a.radius a.radius a.startAngle a.sweepAngle).length
                kGiBezierTo, 0⟩))
    ∧ (run segArc [Op.moveTo ⟨0, 0⟩ false, Op.lineTo ⟨1, 0⟩ false,
        Op.arcTo ⟨2, 1⟩ false]).types
        = [kGiMoveTo, kGiLineTo, kGiBezierTo, kGiBezierTo, kGiBezierTo, kGiBezierTo]
    ∧ (run segArc [Op.moveTo ⟨0, 0⟩ false, Op.arcTo3 ⟨1, 1⟩ ⟨2, 0⟩ false]).types
        = [kGiMoveTo, kGiBezierTo, kGiBezierTo, kGiBezierTo, kGiBezierTo]
    ∧ ¬ ((4 : Nat) % 3 = 0) := by
  refine ⟨?_, by decide, by decide, by decide⟩
  intro cm a hfit h4
  have hg := arcTo_of_guard cm
    (GiPath.mk [⟨0, 0⟩, ⟨1, 0⟩] [kGiMoveTo, kGiLineTo] 0 : GiPath Int) ⟨2, 1⟩ false
    (by decide)
  have e1 : (GiPath.mk [⟨0, 0⟩, ⟨1, 0⟩] [kGiMoveTo, kGiLineTo] 0 : GiPath Int).getPoint
      ((GiPath.mk [⟨0, 0⟩, ⟨1, 0⟩] [kGiMoveTo, kGiLineTo] 0 : GiPath Int).getCount - 1)
      = ⟨1, 0⟩ := by decide
  have e2 : (GiPath.mk [⟨0, 0⟩, ⟨1, 0⟩] [kGiMoveTo, kGiLineTo] 0 : GiPath Int).getPoint
      ((GiPath.mk [⟨0, 0⟩, ⟨1, 0⟩] [kGiMoveTo, kGiLineTo] 0 : GiPath Int).getCount - 2)
      = ⟨0, 0⟩ := by decide
  have e3 : ((⟨1, 0⟩ : Point2d Int) - (⟨0, 0⟩ : Point2d Int) : Vector2d Int) = ⟨1, 0⟩ := by
    decide
  rw [e1, e2, e3] at hg
  simp only [Bool.false_eq_true, if_false] at hg
  rw [hg, hfit]
  exact arcAppend_some cm _ a h4

/-! ## genericRoundLines -/

section RoundClaims
variable {F : Type} [Zero F] [Add F] [Sub F] [Mul F] [Div F] [LT F]
  [∀ a b : F, Decidable (a < b)]

theorem genericRoundLines_of_invalid (m : Mgmath F) (cm : Mgcurv F) (p : GiPath F)
    (count : Int) (points : Option (List (Point2d F))) (radius : F) (closed : Bool)
    (h : count < 3 ∨ points = none ∨ radius < m._MGZERO) :
    p.genericRoundLines m cm count points radius closed = (false, empty) := by
  have h' : count < 3 ∨ points.isNone = true ∨ radius < m._MGZERO := by
    rcases h with h | h | h
    · exact Or.inl h
    · exact Or.inr (Or.inl (by simp [h]))
    · exact Or.inr (Or.inr h)
  unfold genericRoundLines
  dsimp only
  rw [if_pos h']
  rfl

theorem genericRoundLines_of_valid (m : Mgmath F) (cm : Mgcurv F) (p : GiPath F)
    (count : Int) (points : Option (List (Point2d F))) (radius : F) (closed : Bool)
    (h : ¬ (count < 3 ∨ points = none ∨ radius < m._MGZERO)) :
    (p.genericRoundLines m cm count points radius closed).1 = true := by
  have h' : ¬ (count < 3 ∨ points.isNone = true ∨ radius < m._MGZERO) := by
    intro h1
    apply h
    rcases h1 with h1 | h1 | h1
    · exact Or.inl h1
    · exact Or.inr (Or.inl (by simpa using h1))
    · exact Or.inr (Or.inr h1)
  unfold genericRoundLines
  dsimp only
  rw [if_neg h']
  cases closed <;> rfl

/-- C19 (as the code has it): `genericRoundLines` returns false exactly when
`count < 3`, or the vertex buffer is null, or the radius is below the zero tolerance
`_MGZERO`; for every vertex buffer with `count ≥ 3` and every radius not below
`_MGZERO` it returns true, whatever the corners are. -/
theorem genericRoundLines_false_iff (m : Mgmath F) (cm : Mgcurv F) (p : GiPath F)
    (count : Int) (points : Option (List (Point2d F))) (radius : F) (closed : Bool) :
    ((p.genericRoundLines m cm count points radius closed).1 = false ↔
      (count < 3 ∨ points = none ∨ radius < m._MGZERO))
    ∧ ((3 ≤ count ∧ points ≠ none ∧ ¬ radius < m._MGZERO) →
        (p.genericRoundLines m cm count points radius closed).1 = true) := by
  constructor
  · constructor
    · intro hf
      by_contra hn
      rw [genericRoundLines_of_valid m cm p count points radius closed hn] at hf
      exact Bool.noConfusion hf
    · intro h
      rw [genericRoundLines_of_invalid m cm p count points radius closed h]
  · rintro ⟨h1, h2, h3⟩
    apply genericRoundLines_of_valid
    rintro (h | h | h)
    · omega
    · exact h2 h
    · exact h3 h

/-- C20 (as the code has it): `genericRoundLines` clears the path before it checks its
input, so on every invalid input (`count < 3`, null buffer, or radius below
`_MGZERO`) it returns false and leaves the path empty with no open figure, whatever
the path held before. -/
theorem genericRoundLines_invalid_clears (m : Mgmath F) (cm : Mgcurv F) (p : GiPath F)
    (count : Int) (points : Option (List (Point2d F))) (radius : F) (closed : Bool)
    (h : count < 3 ∨ points = none ∨ radius < m._MGZERO) :
    (p.genericRoundLines m cm count points radius closed).1 = false
    ∧ (p.genericRoundLines m cm count points radius closed).2.points = []
    ∧ (p.genericRoundLines m cm count points radius closed).2.types = []
    ∧ (p.genericRoundLines m cm count points radius closed).2.beginIndex = -1 := by
  rw [genericRoundLines_of_invalid m cm p count points radius closed h]
  exact ⟨rfl, rfl, rfl, rfl⟩

end RoundClaims

/-- Witness of C20: two vertices are too few, and the path MoveTo (0,0) is emptied. -/
theorem genericRoundLines_invalid_clears_witness :
    ((GiPath.mk [⟨0, 0⟩] [kGiMoveTo] 0 : GiPath ℚ).genericRoundLines sharpMath (noArc ℚ) 2
        (some [⟨0, 0⟩, ⟨1, 0⟩]) 1 false).2.points = [] :=
  (genericRoundLines_invalid_clears sharpMath (noArc ℚ)
    (GiPath.mk [⟨0, 0⟩] [kGiMoveTo] 0 : GiPath ℚ) 2 (some [⟨0, 0⟩, ⟨1, 0⟩]) 1 false
    (Or.inl (by decide))).2.1

/-- C19 fails as stated: whatever the zero tolerance `_MGZERO` and the other float
helpers are, with rational coordinates there is a radius at which `genericRoundLines`
on 3 vertices does not return false exactly when the radius is not positive: half the
tolerance (positive, yet rejected) when the tolerance is positive, and 0 (accepted)
otherwise. With the tolerance `2e-6`, the radius `1e-6` is positive and rejected. -/
theorem genericRoundLines_radius_tolerance :
    (∀ (m : Mgmath ℚ), ∃ radius : ℚ,
      ∀ (cm : Mgcurv ℚ) (p : GiPath ℚ) (a b c : Point2d ℚ) (closed : Bool),
        ¬ ((p.genericRoundLines m cm 3 (some [a, b, c]) radius closed).1 = false ↔
            ((3 : Int) < 3 ∨ (some [a, b, c] : Option (List (Point2d ℚ))) = none
              ∨ radius ≤ 0)))
    ∧ (0 : ℚ) < 1 / 1000000
    ∧ ((GiPath.mk [⟨0, 0⟩] [kGiMoveTo] 0 : GiPath ℚ).genericRoundLines sharpMath (noArc ℚ) 3
        (some [⟨0, 0⟩, ⟨1, 0⟩, ⟨1, 1⟩]) (1 / 1000000) false).1 = false := by
  refine ⟨?_, by norm_num, ?_⟩
  · intro m
    by_cases hz : 0 < m._MGZERO
    · refine ⟨m._MGZERO / 2, ?_⟩
      intro cm p a b c closed hiff
      have hinv : (3 : Int) < 3 ∨ (some [a, b, c] : Option (List (Point2d ℚ))) = none
          ∨ m._MGZERO / 2 < m._MGZERO := Or.inr (Or.inr (by linarith))
      have hf := congrArg Prod.fst
        (genericRoundLines_of_invalid m cm p 3 (some [a, b, c]) (m._MGZERO / 2) closed hinv)
      rcases hiff.mp hf with h | h | h
      · omega
      · exact Option.noConfusion h
      · linarith
    · refine ⟨0, ?_⟩
      intro cm p a b c closed hiff
      have hv := genericRoundLines_of_valid m cm p 3 (some [a, b, c]) 0 closed
        (by
          rintro (h | h | h)
          · omega
          · exact Option.noConfusion h
          · exact hz h)
      have hf := hiff.mpr (Or.inr (Or.inr (le_refl 0)))
      rw [hv] at hf
      exact Bool.noConfusion hf
  · have hinv : (3 : Int) < 3
        ∨ (some [⟨0, 0⟩, ⟨1, 0⟩, ⟨1, 1⟩] : Option (List (Point2d ℚ))) = none
        ∨ (1 / 1000000 : ℚ) < sharpMath._MGZERO := by
      refine Or.inr (Or.inr ?_)
      show (1 / 1000000 : ℚ) < 2 / 1000000
      norm_num
    rw [genericRoundLines_of_invalid sharpMath (noArc ℚ) _ 3 _ _ false hinv]

/-- C20 fails as stated: with 2 vertices `genericRoundLines` returns false, and the
path MoveTo (0,0), LineTo (1,0) it was called on is left empty, not as it was. -/
theorem genericRoundLines_invalid_not_kept :
    (GiPath.mk [⟨0, 0⟩, ⟨1, 0⟩] [kGiMoveTo, kGiLineTo] 0 : GiPath ℚ).genericRoundLines
        sharpMath (noArc ℚ) 2 (some [⟨0, 0⟩, ⟨1, 0⟩]) 1 false
      = (false, ⟨[], [], -1⟩)
    ∧ ((GiPath.mk [⟨0, 0⟩, ⟨1, 0⟩] [kGiMoveTo, kGiLineTo] 0 : GiPath ℚ).genericRoundLines
        sharpMath (noArc ℚ) 2 (some [⟨0, 0⟩, ⟨1, 0⟩]) 1 false).2
        ≠ (GiPath.mk [⟨0, 0⟩, ⟨1, 0⟩] [kGiMoveTo, kGiLineTo] 0 : GiPath ℚ) := by
  have h := genericRoundLines_of_invalid sharpMath (noArc ℚ)
    (GiPath.mk [⟨0, 0⟩, ⟨1, 0⟩] [kGiMoveTo, kGiLineTo] 0 : GiPath ℚ) 2
    (some [⟨0, 0⟩, ⟨1, 0⟩]) 1 false (Or.inl (by decide))
  rw [h]
  refine ⟨rfl, ?_⟩
  intro h2
  have h3 := congrArg GiPath.beginIndex h2
  exact absurd h3 (by decide)

/-! ## startFigure and clear -/

section Reset
variable {F : Type} [Zero F] [Add F] [Sub F]

/-- Without an open figure every guarded operation returns false and keeps the
path. -/
theorem guarded_ops_fail (cm : Mgcurv F) (q : GiPath F) (h : q.beginIndex < 0)
    (point endp : Point2d F) (x y : F) (count : Int) (points : Option (List (Point2d F)))
    (reverse rel : Bool) :
    q.lineTo point rel = (false, q)
    ∧ q.horzTo x rel = (false, q)
    ∧ q.vertTo y rel = (false, q)
    ∧ q.linesTo count points rel = (false, q)
    ∧ q.beziersTo count points reverse rel = (false, q)
    ∧ q.quadsTo count points rel = (false, q)
    ∧ q.arcTo cm point rel = (false, q)
    ∧ q.arcTo3 cm point endp rel = (false, q)
    ∧ q.closeFigure = (false, q) := by
  have hn : ¬ 0 ≤ q.beginIndex := by omega
  refine ⟨?_, ?_, ?_, ?_, ?_, ?_, ?_, ?_, ?_⟩
  · simp [lineTo, hn]
  · simp [horzTo, hn]
  · simp [vertTo, hn]
  · simp [linesTo, hn]
  · exact beziersTo_of_not_guard q count points reverse rel (fun hg => hn hg.1)
  · exact quadsTo_of_not_guard q count points rel (fun hg => hn hg.1)
  · exact arcTo_of_not_guard cm q point rel (fun hg => hn hg.1)
  · exact arcTo3_of_not_guard cm q point endp rel (fun hg => hn hg.1)
  · unfold closeFigure
    rw [if_neg (fun hg => hn hg.1)]

/-- C26: `startFigure` keeps the node sequence and resets the marker to -1, and
`clear` empties the path and resets the marker; after either, `lineTo`, `horzTo`,
`vertTo`, `linesTo`, `beziersTo`, `quadsTo`, both `arcTo` overloads and `closeFigure`
return false and leave the path as it is (so any run of such calls does), and after
a `moveTo` on that path `lineTo` returns true and appends its LineTo node. -/
theorem startFigure_resets (cm : Mgcurv F) (p : GiPath F) (point endp target : Point2d F)
    (x y : F) (count : Int) (points : Option (List (Point2d F))) (reverse rel rel' : Bool) :
    p.startFigure.points = p.points
    ∧ p.startFigure.types = p.types
    ∧ p.startFigure.beginIndex = -1
    ∧ p.clear = ⟨[], [], -1⟩
    ∧ (∀ q : GiPath F, q = p.startFigure ∨ q = p.clear →
        q.lineTo point rel = (false, q)
        ∧ q.horzTo x rel = (false, q)
        ∧ q.vertTo y rel = (false, q)
        ∧ q.linesTo count points rel = (false, q)
        ∧ q.beziersTo count points reverse rel = (false, q)
        ∧ q.quadsTo count points rel = (false, q)
        ∧ q.arcTo cm point rel = (false, q)
        ∧ q.arcTo3 cm point endp rel = (false, q)
        ∧ q.closeFigure = (false, q)
        ∧ ((q.moveTo target rel').2.lineTo point rel).1 = true
        ∧ ((q.moveTo target rel').2.lineTo point rel).2.types
            = q.types ++ [kGiMoveTo, kGiLineTo]) := by
  refine ⟨rfl, rfl, rfl, rfl, ?_⟩
  intro q hq
  have hb : q.beginIndex < 0 := by
    rcases hq with h | h <;> rw [h] <;> simp [startFigure, clear]
  obtain ⟨h1, h2, h3, h4, h5, h6, h7, h8, h9⟩ :=
    guarded_ops_fail cm q hb point endp x y count points reverse rel
  refine ⟨h1, h2, h3, h4, h5, h6, h7, h8, h9, ?_, ?_⟩
  · have : (0 : Int) ≤ (q.points.length : Int) + 1 - 1 := by omega
    simp [lineTo, moveTo, this]
  · have : (0 : Int) ≤ (q.points.length : Int) + 1 - 1 := by omega
    simp [lineTo, moveTo, this, pushBack]

end Reset

end GiPath

/-! ## The shape factory and the type tags -/

namespace GiCoreViewImpl

section FactoryClaims
variable {S B : Type}

/-- C27: the factory dispatches on the low 16 bits of the tag. After
`registerShape t c` with a creator `c`, `createShape u` returns `c ()` for every `u`
with `u & 0xFFFF = t & 0xFFFF`, also when another creator was registered for the tag
before, and the other tags keep their creators; after `registerShape t null` the tag
`t & 0xFFFF` has no creator; and for a tag without creator `createShape` returns the
command subject's shape wrapped in an `MgShapeExt`, or null when the subject yields
none. -/
theorem createShape_dispatch (creators : Int → Option (Unit → Option S))
    (subject : Int → Option B) (MgShapeExt : B → S) (t u : Int)
    (c c' : Unit → Option S) :
    (Int.land u 0xFFFF = Int.land t 0xFFFF →
        createShape (registerShape creators t (some c)) subject MgShapeExt u = c ())
    ∧ (Int.land u 0xFFFF = Int.land t 0xFFFF →
        createShape (registerShape (registerShape creators t (some c')) t (some c))
          subject MgShapeExt u = c ())
    ∧ (∀ creator : Option (Unit → Option S), Int.land u 0xFFFF ≠ Int.land t 0xFFFF →
        registerShape creators t creator (Int.land u 0xFFFF) = creators (Int.land u 0xFFFF))
    ∧ registerShape creators t none (Int.land t 0xFFFF) = none
    ∧ (Int.land u 0xFFFF = Int.land t 0xFFFF →
        createShape (registerShape creators t none) subject MgShapeExt u
          = (subject u).map MgShapeExt)
    ∧ (creators (Int.land u 0xFFFF) = none →
        (∀ sp, subject u = some sp →
          createShape creators subject MgShapeExt u = some (MgShapeExt sp))
        ∧ (subject u = none → createShape creators subject MgShapeExt u = none)) := by
  refine ⟨?_, ?_, ?_, ?_, ?_, ?_⟩
  · intro h
    simp [createShape, registerShape, h]
  · intro h
    simp [createShape, registerShape, h]
  · intro creator h
    cases creator <;> simp [registerShape, h]
  · simp [registerShape]
  · intro h
    cases hs : subject u <;> simp [createShape, registerShape, h, hs]
  · intro h
    refine ⟨fun sp hs => ?_, fun hs => ?_⟩
    · simp [createShape, h, hs]
    · simp [createShape, h, hs]

end FactoryClaims

end GiCoreViewImpl

/-- C28: the built-in shape classes declare the tags Line = 10, rectangle base = 4,
Rect = 11, Ellipse = 12, RoundRect = 13, Diamond = 14, polyline base = 5, Lines = 15,
Splines = 16, Parallelogram = 17, Image = 18, Arc = 19, Dot = 31; the 13 tags are
pairwise distinct, each is at most 31, and each is unchanged by the factory's mask
`& 0xFFFF`, so no two of them share a slot of the registry. -/
theorem builtin_type_tags :
    MgLine_Type = 10 ∧ MgBaseRect_Type = 4 ∧ MgRect_Type = 11 ∧ MgEllipse_Type = 12
    ∧ MgRoundRect_Type = 13 ∧ MgDiamond_Type = 14 ∧ MgBaseLines_Type = 5
    ∧ MgLines_Type = 15 ∧ MgSplines_Type = 16 ∧ MgParallel_Type = 17
    ∧ MgImageShape_Type = 18 ∧ MgArc_Type = 19 ∧ MgDot_Type = 31
    ∧ builtinTypes.length = 13
    ∧ builtinTypes.Nodup
    ∧ (∀ t ∈ builtinTypes, 0 ≤ t ∧ t ≤ 31 ∧ Int.land t 0xFFFF = t)
    ∧ (∀ t ∈ builtinTypes, ∀ u ∈ builtinTypes,
        Int.land t 0xFFFF = Int.land u 0xFFFF → t = u) := by
  decide

namespace GiPath

/-! ## The representation invariant -/

section RepInvariant
variable {F : Type}

/-- The representation invariant of the builder: both vectors have the same length,
and the marker is -1 or the index of a node whose type is exactly MoveTo. -/
def RepInv (p : GiPath F) : Prop :=
  p.points.length = p.types.length ∧
  (p.beginIndex = -1 ∨
    (0 ≤ p.beginIndex ∧ p.beginIndex < p.getCount ∧ p.getNodeType p.beginIndex = kGiMoveTo))

theorem repInv_of_marker {points : List (Point2d F)} {types : List Int}
    (hlen : points.length = types.length) : RepInv ⟨points, types, -1⟩ :=
  ⟨hlen, Or.inl rfl⟩

theorem getD_append_left {α : Type} (l l' : List α) (d : α) (i : Nat) (h : i < l.length) :
    (l ++ l').getD i d = l.getD i d := by
  simp [List.getD_eq_getElem?_getD, List.getElem?_append_left h]

theorem repInv_append {p : GiPath F} (h : RepInv p) (pts : List (Point2d F))
    (tys : List Int) (hlen : pts.length = tys.length) :
    RepInv ⟨p.points ++ pts, p.types ++ tys, p.beginIndex⟩ := by
  refine ⟨by simp [h.1, hlen], ?_⟩
  rcases h.2 with h2 | ⟨h0, hlt, hty⟩
  · exact Or.inl h2
  · refine Or.inr ⟨h0, ?_, ?_⟩
    · simp only [getCount, getSize, List.length_append] at hlt ⊢
      omega
    · simp only [getCount, getSize] at hlt
      have hi : p.beginIndex.toNat < p.types.length := by
        have := h.1
        omega
      unfold getNodeType at hty ⊢
      simp only [getCount, getSize, List.length_append] at hty ⊢
      rw [if_pos (by constructor <;> omega)] at hty
      rw [if_pos (by constructor <;> omega), getD_append_left _ _ _ _ hi]
      exact hty

theorem repInv_replicate {p : GiPath F} (h : RepInv p) (pts : List (Point2d F))
    (n : Nat) (t : Int) (hlen : pts.length = n) :
    RepInv ⟨p.points ++ pts, p.types ++ List.replicate n t, p.beginIndex⟩ :=
  repInv_append h pts _ (by simp [hlen])

theorem repInv_moveTo [Zero F] [Add F] {p : GiPath F} (h : RepInv p) (point : Point2d F)
    (rel : Bool) : RepInv (p.moveTo point rel).2 := by
  refine ⟨by simp [moveTo, h.1], Or.inr ⟨?_, ?_, ?_⟩⟩
  · simp only [moveTo, List.length_append, List.length_singleton]
    omega
  · simp only [moveTo, getCount, getSize, List.length_append, List.length_singleton]
    omega
  · unfold getNodeType
    simp only [moveTo, getCount, getSize, List.length_append, List.length_singleton]
    rw [if_pos (by constructor <;> omega)]
    have hidx : ((((p.points.length + 1 : Nat) : Int)) - 1).toNat = p.types.length := by
      have := h.1
      omega
    rw [hidx]
    exact getD_length_append p.types kGiMoveTo 0

theorem repInv_closeFigure {p : GiPath F} (h : RepInv p) : RepInv p.closeFigure.2 := by
  unfold closeFigure
  split
  · dsimp only
    split
    · exact repInv_of_marker (by simp [h.1])
    · exact h
  · exact h

theorem repInv_arcAppend (cm : Mgcurv F) {p : GiPath F} (h : RepInv p)
    (fit : Option (ArcFit F)) : RepInv (arcAppend cm p fit).2 := by
  rcases arcAppend_eq cm p fit with h0 | ⟨pts, _, h1⟩
  · rw [h0]; exact h
  · rw [h1]
    exact repInv_replicate h _ _ _ rfl

theorem repInv_apply [Zero F] [Add F] [Sub F] [Mul F] [OfNat F 2] (cm : Mgcurv F)
    (o : Op F) {p : GiPath F} (h : RepInv p) : RepInv (o.apply cm p) := by
  cases o with
  | startFigure => exact repInv_of_marker h.1
  | clear => exact repInv_of_marker rfl
  | moveTo point rel => exact repInv_moveTo h point rel
  | lineTo point rel =>
    simp only [Op.apply, lineTo]
    split
    · exact repInv_replicate h [_] 1 _ rfl
    · exact h
  | horzTo x rel =>
    simp only [Op.apply, horzTo]
    split
    · exact repInv_replicate h [_] 1 _ rfl
    · exact h
  | vertTo y rel =>
    simp only [Op.apply, vertTo]
    split
    · exact repInv_replicate h [_] 1 _ rfl
    · exact h
  | linesTo count points rel =>
    simp only [Op.apply, linesTo]
    split
    · rw [pushLoop_eq]
      exact repInv_replicate h _ _ _ (by simp)
    · exact h
  | beziersTo count points reverse rel =>
    simp only [Op.apply, beziersTo]
    split
    · rw [pushLoopRev_eq]
      exact repInv_replicate h _ _ _ (by simp)
    · split
      · rw [pushLoop_eq]
        exact repInv_replicate h _ _ _ (by simp)
      · exact h
  | bezierTo cp1 cp2 endp rel =>
    simp only [Op.apply, bezierTo_eq]
    exact repInv_replicate h [_, _, _] 3 _ rfl
  | smoothBezierTo cp2 endp rel =>
    simp only [Op.apply, smoothBezierTo_eq]
    exact repInv_replicate h [_, _, _] 3 _ rfl
  | quadsTo count points rel =>
    simp only [Op.apply, quadsTo]
    split
    · rw [pushLoop_eq]
      exact repInv_replicate h _ _ _ (by simp)
    · exact h
  | quadTo cp endp rel =>
    simp only [Op.apply, quadTo_eq]
    exact repInv_replicate h [_, _] 2 _ rfl
  | smoothQuadTo endp rel =>
    simp only [Op.apply, smoothQuadTo_eq]
    exact repInv_replicate h [_, _] 2 _ rfl
  | arcTo point rel =>
    simp only [Op.apply, arcTo]
    split
    · exact repInv_arcAppend cm h _
    · exact h
  | arcTo3 point endp rel =>
    simp only [Op.apply, arcTo3]
    split
    · exact repInv_arcAppend cm h _
    · exact h
  | closeFigure => exact repInv_closeFigure h

theorem repInv_lineTo [Zero F] [Add F] {p : GiPath F} (h : RepInv p) (point : Point2d F) (rel : Bool) :
    RepInv (p.lineTo point rel).2 := by
  simp only [lineTo]
  split
  · exact repInv_replicate h [_] 1 _ rfl
  · exact h

theorem repInv_beziersTo [Zero F] [Add F] {p : GiPath F} (h : RepInv p) (count : Int)
    (points : Option (List (Point2d F))) (reverse rel : Bool) :
    RepInv (p.beziersTo count points reverse rel).2 := by
  simp only [beziersTo]
  split
  · rw [pushLoopRev_eq]
    exact repInv_replicate h _ _ _ (by simp)
  · split
    · rw [pushLoop_eq]
      exact repInv_replicate h _ _ _ (by simp)
    · exact h

section RoundInv
variable [Zero F] [Add F] [Sub F] [Mul F] [Div F] [LT F] [∀ a b : F, Decidable (a < b)]

theorem repInv_roundStart (m : Mgmath F) (cm : Mgcurv F) {p : GiPath F} (h : RepInv p)
    (count : Int) (points : Option (List (Point2d F))) (radius : F) (closed : Bool)
    (ptsBzr : List (Point2d F)) :
    RepInv (roundStart m cm p count points radius closed ptsBzr).1 := by
  unfold roundStart
  split
  · dsimp only
    split
    · exact repInv_moveTo h _ _
    · exact repInv_beziersTo (repInv_moveTo h _ _) _ _ _ _
  · exact repInv_moveTo h _ _

theorem repInv_roundStep (m : Mgmath F) (cm : Mgcurv F) (count : Int)
    (points : Option (List (Point2d F))) (radius : F)
    {st : GiPath F × List (Point2d F)} (h : RepInv st.1) (i : Nat) :
    RepInv (roundStep m cm count points radius st i).1 := by
  unfold roundStep
  dsimp only
  split
  · exact repInv_lineTo h _ _
  · exact repInv_beziersTo (repInv_lineTo h _ _) _ _ _ _

theorem repInv_roundLoop (m : Mgmath F) (cm : Mgcurv F) (count : Int)
    (points : Option (List (Point2d F))) (radius : F) (l : List Nat)
    {st : GiPath F × List (Point2d F)} (h : RepInv st.1) :
    RepInv (l.foldl (roundStep m cm count points radius) st).1 := by
  induction l generalizing st with
  | nil => exact h
  | cons i l ih => exact ih (repInv_roundStep m cm count points radius h i)

theorem repInv_genericRoundLines (m : Mgmath F) (cm : Mgcurv F) (p : GiPath F)
    (count : Int) (points : Option (List (Point2d F))) (radius : F) (closed : Bool) :
    RepInv (p.genericRoundLines m cm count points radius closed).2 := by
  have h0 : RepInv p.clear := repInv_of_marker rfl
  unfold genericRoundLines
  dsimp only
  split
  · exact h0
  · have hl := fun n : Nat => repInv_roundLoop m cm count points radius (List.range' 1 n)
      (repInv_roundStart m cm h0 count points radius closed (List.replicate 16 default))
    split
    · exact repInv_closeFigure (hl _)
    · exact repInv_lineTo (hl _) _ _

end RoundInv

/-- C30: every path reachable from the empty path by the builder operations, `clear`
and `genericRoundLines` has point and type vectors of the same length, and its
open-figure marker is -1 or a valid index (`0 ≤ marker < count`) of a node whose type
is exactly MoveTo. -/
theorem built_repInv [Zero F] [Add F] [Sub F] [Mul F] [OfNat F 2] [Div F] [LT F]
    [∀ a b : F, Decidable (a < b)] (m : Mgmath F) (cm : Mgcurv F) (p : GiPath F)
    (h : Built m cm p) :
    p.points.length = p.types.length
    ∧ (p.beginIndex = -1 ∨
        (0 ≤ p.beginIndex ∧ p.beginIndex < p.getCount
          ∧ p.getNodeType p.beginIndex = kGiMoveTo)) := by
  show RepInv p
  induction h with
  | empty => exact repInv_of_marker rfl
  | op o _ ih => exact repInv_apply cm o ih
  | round count points radius closed _ _ =>
    exact repInv_genericRoundLines m cm _ count points radius closed

end RepInvariant

/-- Witness of C30: the path built by `moveTo (0,0); lineTo (1,0)`. -/
theorem built_repInv_witness :
    (GiPath.mk [⟨0, 0⟩, ⟨1, 0⟩] [kGiMoveTo, kGiLineTo] 0 : GiPath ℚ).points.length
      = (GiPath.mk [⟨0, 0⟩, ⟨1, 0⟩] [kGiMoveTo, kGiLineTo] 0 : GiPath ℚ).types.length :=
  (built_repInv sharpMath (noArc ℚ)
    (GiPath.mk [⟨0, 0⟩, ⟨1, 0⟩] [kGiMoveTo, kGiLineTo] 0 : GiPath ℚ)
    (Built.op (Op.lineTo ⟨1, 0⟩ false) (Built.op (Op.moveTo ⟨0, 0⟩ false) Built.empty))).1

/-! ## append -/

section Append
variable {F : Type}

/-- The loop of `append` never sees its condition fail: started at an index within
the source and below the size of the target, it copies the rest of the source and
then reads the source out of range, unless the iteration budget ends first. -/
theorem appendLoop_eq (src : GiPath F) (hsrc : src.points.length = src.types.length)
    (fuel i : Nat) (p : GiPath F) (hi : i ≤ src.points.length) (hp : i < p.types.length) :
    appendLoop src fuel i p
      = if fuel ≤ src.points.length - i then AppendRun.running
        else AppendRun.outOfRange src.points.length := by
  induction fuel generalizing i p with
  | zero => simp [appendLoop]
  | succ fuel ih =>
    unfold appendLoop
    rw [if_pos hp]
    by_cases hlt : i < src.points.length
    · have ht : i < src.types.length := by omega
      rw [List.getElem?_eq_getElem hlt, List.getElem?_eq_getElem ht]
      dsimp only
      rw [ih (i + 1) _ (by omega) (by simp [pushBack]; omega)]
      by_cases hf : fuel ≤ src.points.length - (i + 1)
      · rw [if_pos hf, if_pos (by omega)]
      · rw [if_neg hf, if_neg (by omega)]
    · have hn : i = src.points.length := by omega
      have h1 : src.points[i]? = none := List.getElem?_eq_none (by omega)
      rw [h1, if_neg (by omega), hn]

theorem append_eq [Zero F] (pointEq : Point2d F → Point2d F → Bool) (fuel : Nat)
    (p src : GiPath F) (hsrc : src.points.length = src.types.length)
    (hp : p.points.length = p.types.length) (h1 : 1 < src.getCount) (h2 : 1 < p.getCount) :
    ∃ i : Nat, i ≤ 1 ∧
      p.append pointEq fuel false src
        = if fuel ≤ src.points.length - i then AppendRun.running
          else AppendRun.outOfRange src.points.length := by
  have hg : (false = false) ∧ src.getCount > 1 ∧ p.getCount > 1 := ⟨rfl, h1, h2⟩
  simp only [getCount, getSize] at h1 h2
  unfold append
  rw [if_pos hg]
  dsimp only
  split
  · exact ⟨1, le_refl 1, appendLoop_eq src hsrc fuel 1 p (by omega) (by omega)⟩
  · exact ⟨0, by decide, appendLoop_eq src hsrc fuel 0 p (by omega) (by omega)⟩

/-- C25 fails on the code: for distinct paths of at least 2 nodes each, the loop of
`append` is bounded by the size of the target's own type vector, which grows with
every node pushed, so the loop condition never fails: no iteration budget lets
`append` finish, and once the `src.getCount()` nodes of the source are copied the next
iteration reads `src.m_data->points[src.getCount()]`, out of range. -/
theorem append_never_done [Zero F] (pointEq : Point2d F → Point2d F → Bool)
    (p src : GiPath F) (hsrc : src.points.length = src.types.length)
    (hp : p.points.length = p.types.length) (h1 : 1 < src.getCount) (h2 : 1 < p.getCount) :
    (∀ (fuel : Nat) (q : GiPath F), p.append pointEq fuel false src ≠ AppendRun.done q)
    ∧ (∀ fuel : Nat, src.points.length < fuel →
        p.append pointEq fuel false src = AppendRun.outOfRange src.points.length) := by
  constructor
  · intro fuel q
    obtain ⟨i, _, h⟩ := append_eq pointEq fuel p src hsrc hp h1 h2
    rw [h]
    split <;> exact fun h0 => AppendRun.noConfusion h0
  · intro fuel hf
    obtain ⟨i, _, h⟩ := append_eq pointEq fuel p src hsrc hp h1 h2
    rw [h, if_neg (by omega)]

end Append

/-- Witness of C25's evaluation: appending MoveTo (5,5), LineTo (6,5) to
MoveTo (0,0), LineTo (1,0) reads the source at index 2. -/
theorem append_never_done_witness :
    (GiPath.mk [⟨0, 0⟩, ⟨1, 0⟩] [kGiMoveTo, kGiLineTo] 0 : GiPath Int).append
        (fun a b => decide (a = b)) 3 false
        (GiPath.mk [⟨5, 5⟩, ⟨6, 5⟩] [kGiMoveTo, kGiLineTo] 0 : GiPath Int)
      = AppendRun.outOfRange 2 :=
  (append_never_done (fun a b => decide (a = b))
    (GiPath.mk [⟨0, 0⟩, ⟨1, 0⟩] [kGiMoveTo, kGiLineTo] 0 : GiPath Int)
    (GiPath.mk [⟨5, 5⟩, ⟨6, 5⟩] [kGiMoveTo, kGiLineTo] 0 : GiPath Int)
    (by decide) (by decide) (by decide) (by decide)).2 3 (by decide)

/-- C24 fails on the code: appending the path MoveTo (5,5), LineTo (6,5) to the path
MoveTo (0,0), LineTo (1,0) does not end with the 4 nodes of both: after 2 iterations
the target holds them, but the loop goes on and its third iteration reads the source
at index 2, out of range; when the source starts with a MoveTo at the target's end
point, (1,0), that node is skipped and the second iteration already reads index 2. -/
theorem append_runs_past_source :
    (GiPath.mk [⟨0, 0⟩, ⟨1, 0⟩] [kGiMoveTo, kGiLineTo] 0 : GiPath Int).append
        (fun a b => decide (a = b)) 2 false
        (GiPath.mk [⟨5, 5⟩, ⟨6, 5⟩] [kGiMoveTo, kGiLineTo] 0 : GiPath Int)
      = AppendRun.running
    ∧ appendLoop (GiPath.mk [⟨5, 5⟩, ⟨6, 5⟩] [kGiMoveTo, kGiLineTo] 0 : GiPath Int) 1 2
        (GiPath.mk [⟨0, 0⟩, ⟨1, 0⟩, ⟨5, 5⟩, ⟨6, 5⟩]
          [kGiMoveTo, kGiLineTo, kGiMoveTo, kGiLineTo] 0)
      = AppendRun.outOfRange 2
    ∧ (GiPath.mk [⟨0, 0⟩, ⟨1, 0⟩] [kGiMoveTo, kGiLineTo] 0 : GiPath Int).append
        (fun a b => decide (a = b)) 3 false
        (GiPath.mk [⟨5, 5⟩, ⟨6, 5⟩] [kGiMoveTo, kGiLineTo] 0 : GiPath Int)
      = AppendRun.outOfRange 2
    ∧ (GiPath.mk [⟨0, 0⟩, ⟨1, 0⟩] [kGiMoveTo, kGiLineTo] 0 : GiPath Int).append
        (fun a b => decide (a = b)) 1000 false
        (GiPath.mk [⟨5, 5⟩, ⟨6, 5⟩] [kGiMoveTo, kGiLineTo] 0 : GiPath Int)
      = AppendRun.outOfRange 2
    ∧ (GiPath.mk [⟨0, 0⟩, ⟨1, 0⟩] [kGiMoveTo, kGiLineTo] 0 : GiPath Int).append
        (fun a b => decide (a = b)) 2 false
        (GiPath.mk [⟨1, 0⟩, ⟨6, 5⟩] [kGiMoveTo, kGiLineTo] 0 : GiPath Int)
      = AppendRun.outOfRange 2 := by
  decide

/-! ## Corners of genericRoundLines -/

section Corners
variable {F : Type}

theorem setCorner_getD (arr : List (Point2d F)) (a b c d : Point2d F) (h : 3 ≤ arr.length) :
    (setCorner arr a b c).getD 0 d = a ∧ (setCorner arr a b c).getD 1 d = b
    ∧ (setCorner arr a b c).getD 2 d = c := by
  match arr, h with
  | _ :: _ :: _ :: _, _ => exact ⟨rfl, rfl, rfl⟩

theorem setCorner_length (arr : List (Point2d F)) (a b c : Point2d F) :
    (setCorner arr a b c).length = arr.length := by
  simp [setCorner]

variable [Zero F] [Sub F]

theorem angleArc_fst (m : Mgmath F) (cm : Mgcurv F) (pts : List (Point2d F)) (d : F) :
    (angleArc m cm pts d).1
      = (angleArc m cm [pts.getD 0 default, pts.getD 1 default, pts.getD 2 default] d).1 := by
  unfold angleArc
  simp only [List.getD_cons_zero, List.getD_cons_succ]
  split <;> rfl

theorem angleArc_length (m : Mgmath F) (cm : Mgcurv F) (pts : List (Point2d F)) (d : F) :
    pts.length ≤ (angleArc m cm pts d).2.length := by
  unfold angleArc
  dsimp only
  split
  · simp only [List.length_append, List.length_drop]
    omega
  · exact le_refl _

variable [Mul F] [Div F] [LT F] [∀ a b : F, Decidable (a < b)]

/-- With the corner test passed `AngleToBezier` returns 0 and leaves the array. -/
theorem AngleToBezier_of_test (m : Mgmath F) (cm : Mgcurv F) (pts : List (Point2d F))
    (radius : F)
    (h : cornerTest m (pts.getD 0 default) (pts.getD 1 default) (pts.getD 2 default)) :
    AngleToBezier m cm pts radius = (0, pts) := by
  unfold cornerTest dHalfAngle at h
  unfold AngleToBezier
  dsimp only
  rw [if_pos h]

/-- In the clamped branch, with the clamped offset below half the offset asked for,
`AngleToBezier` returns 3 and leaves the array: no arc is fitted. -/
theorem AngleToBezier_of_clamp (m : Mgmath F) (cm : Mgcurv F) (pts : List (Point2d F))
    (radius : F)
    (htest : ¬ cornerTest m (pts.getD 0 default) (pts.getD 1 default) (pts.getD 2 default))
    (hex : dArc m (pts.getD 0 default) (pts.getD 1 default) (pts.getD 2 default) radius
          > dDist1 m (pts.getD 0 default) (pts.getD 1 default)
        ∨ dArc m (pts.getD 0 default) (pts.getD 1 default) (pts.getD 2 default) radius
          > dDist2 m (pts.getD 1 default) (pts.getD 2 default))
    (hhalf : m.mgMin (dDist1 m (pts.getD 0 default) (pts.getD 1 default))
          (dDist2 m (pts.getD 1 default) (pts.getD 2 default))
        < dArc m (pts.getD 0 default) (pts.getD 1 default) (pts.getD 2 default) radius
          * m.half) :
    AngleToBezier m cm pts radius = (3, pts) := by
  unfold cornerTest dHalfAngle at htest
  unfold dArc dDist1 dDist2 dHalfAngle at hex hhalf
  unfold AngleToBezier
  dsimp only
  rw [if_neg htest, if_pos hex, if_pos hhalf]

/-- The count returned by `AngleToBezier` depends on the first three entries of the
array only. -/
theorem AngleToBezier_fst (m : Mgmath F) (cm : Mgcurv F) (pts : List (Point2d F))
    (radius : F) :
    (AngleToBezier m cm pts radius).1
      = cornerCount m cm (pts.getD 0 default) (pts.getD 1 default) (pts.getD 2 default)
          radius := by
  unfold cornerCount AngleToBezier
  simp only [List.getD_cons_zero, List.getD_cons_succ]
  split
  · rfl
  · split
    · split
      · rfl
      · exact angleArc_fst m cm pts _
    · exact angleArc_fst m cm pts _

/-- The array does not shrink in `AngleToBezier`. -/
theorem AngleToBezier_length (m : Mgmath F) (cm : Mgcurv F) (pts : List (Point2d F))
    (radius : F) : pts.length ≤ (AngleToBezier m cm pts radius).2.length := by
  unfold AngleToBezier
  dsimp only
  split
  · exact le_refl _
  · split
    · split
      · exact le_refl _
      · exact angleArc_length m cm pts _
    · exact angleArc_length m cm pts _

variable [Add F]

/-- At a vertex where `AngleToBezier` returns fewer than 4, one loop iteration with an
open figure appends exactly the node LineTo at that vertex. -/
theorem roundStep_of_lt_four (m : Mgmath F) (cm : Mgcurv F) (count : Int)
    (points : Option (List (Point2d F))) (radius : F) (st : GiPath F × List (Point2d F))
    (i : Nat) (hopen : 0 ≤ st.1.beginIndex) (hlen : 3 ≤ st.2.length)
    (h : cornerCount m cm (ptrAt points (i - 1)) (ptrAt points i)
        (ptrAt points (((i : Int) + 1) % count).toNat) radius < 4) :
    (roundStep m cm count points radius st i).1
      = ⟨st.1.points ++ [ptrAt points i], st.1.types ++ [kGiLineTo], st.1.beginIndex⟩ := by
  obtain ⟨e0, e1, e2⟩ := setCorner_getD st.2 (ptrAt points (i - 1)) (ptrAt points i)
    (ptrAt points (((i : Int) + 1) % count).toNat) default hlen
  have hfst := AngleToBezier_fst m cm (setCorner st.2 (ptrAt points (i - 1)) (ptrAt points i)
    (ptrAt points (((i : Int) + 1) % count).toNat)) radius
  rw [e0, e1, e2] at hfst
  unfold roundStep
  dsimp only
  rw [if_pos (by rw [hfst]; exact h)]
  simp [lineTo, hopen, pushBack]

theorem roundStep_length (m : Mgmath F) (cm : Mgcurv F) (count : Int)
    (points : Option (List (Point2d F))) (radius : F) (st : GiPath F × List (Point2d F))
    (i : Nat) : st.2.length ≤ (roundStep m cm count points radius st i).2.length := by
  have h := AngleToBezier_length m cm (setCorner st.2 (ptrAt points (i - 1)) (ptrAt points i)
    (ptrAt points (((i : Int) + 1) % count).toNat)) radius
  rw [setCorner_length] at h
  unfold roundStep
  dsimp only
  split <;> exact h

/-- C22 (as the code has it): at a loop vertex of `genericRoundLines` that does not
pass the corner test, whose offset `radius / tan(half-angle)` exceeds half the length
of an adjacent edge and whose clamped offset (`mgMin` of the two half lengths) is
below half the unclamped offset, `AngleToBezier` returns 3 without fitting an arc and
without touching the array, whatever `mgcurv` is, and the iteration appends exactly
the node LineTo at the vertex: the corner is left sharp, with no BezierTo node. -/
theorem roundStep_clamped_sharp (m : Mgmath F) (cm : Mgcurv F) (count : Int)
    (points : Option (List (Point2d F))) (radius : F) (st : GiPath F × List (Point2d F))
    (i : Nat) (hopen : 0 ≤ st.1.beginIndex) (hlen : 3 ≤ st.2.length)
    (htest : ¬ cornerTest m (ptrAt points (i - 1)) (ptrAt points i)
      (ptrAt points (((i : Int) + 1) % count).toNat))
    (hex : dArc m (ptrAt points (i - 1)) (ptrAt points i)
            (ptrAt points (((i : Int) + 1) % count).toNat) radius
          > dDist1 m (ptrAt points (i - 1)) (ptrAt points i)
        ∨ dArc m (ptrAt points (i - 1)) (ptrAt points i)
            (ptrAt points (((i : Int) + 1) % count).toNat) radius
          > dDist2 m (ptrAt points i) (ptrAt points (((i : Int) + 1) % count).toNat))
    (hhalf : m.mgMin (dDist1 m (ptrAt points (i - 1)) (ptrAt points i))
          (dDist2 m (ptrAt points i) (ptrAt points (((i : Int) + 1) % count).toNat))
        < dArc m (ptrAt points (i - 1)) (ptrAt points i)
            (ptrAt points (((i : Int) + 1) % count).toNat) radius * m.half) :
    AngleToBezier m cm (setCorner st.2 (ptrAt points (i - 1)) (ptrAt points i)
        (ptrAt points (((i : Int) + 1) % count).toNat)) radius
      = (3, setCorner st.2 (ptrAt points (i - 1)) (ptrAt points i)
          (ptrAt points (((i : Int) + 1) % count).toNat))
    ∧ roundStep m cm count points radius st i
      = (⟨st.1.points ++ [ptrAt points i], st.1.types ++ [kGiLineTo], st.1.beginIndex⟩,
          setCorner st.2 (ptrAt points (i - 1)) (ptrAt points i)
            (ptrAt points (((i : Int) + 1) % count).toNat)) := by
  obtain ⟨e0, e1, e2⟩ := setCorner_getD st.2 (ptrAt points (i - 1)) (ptrAt points i)
    (ptrAt points (((i : Int) + 1) % count).toNat) default hlen
  have hA := AngleToBezier_of_clamp m cm (setCorner st.2 (ptrAt points (i - 1))
    (ptrAt points i) (ptrAt points (((i : Int) + 1) % count).toNat)) radius
    (by rw [e0, e1, e2]; exact htest) (by rw [e0, e1, e2]; exact hex)
    (by rw [e0, e1, e2]; exact hhalf)
  refine ⟨hA, ?_⟩
  unfold roundStep
  dsimp only
  rw [hA]
  simp [lineTo, hopen, pushBack]

/-- C23 (as the code has it): at a loop vertex of `genericRoundLines` that passes the
corner test (half the absolute angle between the edge vectors is below `1e-4` or
within `1e-4` of `_M_PI_2`, the edges being parallel) `AngleToBezier` returns 0 and
the iteration appends exactly the node LineTo at the vertex, with no BezierTo node;
at vertex 0 of a closed polyline that passes the test the node is the MoveTo at
`points[0]`. -/
theorem roundStep_parallel_sharp (m : Mgmath F) (cm : Mgcurv F) (count : Int)
    (points : Option (List (Point2d F))) (radius : F) (st : GiPath F × List (Point2d F))
    (i : Nat) (hopen : 0 ≤ st.1.beginIndex) (hlen : 3 ≤ st.2.length)
    (htest : cornerTest m (ptrAt points (i - 1)) (ptrAt points i)
      (ptrAt points (((i : Int) + 1) % count).toNat)) :
    roundStep m cm count points radius st i
      = (⟨st.1.points ++ [ptrAt points i], st.1.types ++ [kGiLineTo], st.1.beginIndex⟩,
          setCorner st.2 (ptrAt points (i - 1)) (ptrAt points i)
            (ptrAt points (((i : Int) + 1) % count).toNat))
    ∧ (∀ (p : GiPath F) (arr : List (Point2d F)), 3 ≤ arr.length →
        cornerTest m (ptrAt points (count - 1).toNat) (ptrAt points 0) (ptrAt points 1) →
        (roundStart m cm p count points radius true arr).1
          = (p.moveTo (ptrAt points 0) false).2) := by
  constructor
  · obtain ⟨e0, e1, e2⟩ := setCorner_getD st.2 (ptrAt points (i - 1)) (ptrAt points i)
      (ptrAt points (((i : Int) + 1) % count).toNat) default hlen
    have hA := AngleToBezier_of_test m cm (setCorner st.2 (ptrAt points (i - 1))
      (ptrAt points i) (ptrAt points (((i : Int) + 1) % count).toNat)) radius
      (by rw [e0, e1, e2]; exact htest)
    unfold roundStep
    dsimp only
    rw [hA]
    simp [lineTo, hopen, pushBack]
  · intro p arr harr h0
    obtain ⟨e0, e1, e2⟩ := setCorner_getD arr (ptrAt points (count - 1).toNat)
      (ptrAt points 0) (ptrAt points 1) default harr
    have hA := AngleToBezier_of_test m cm (setCorner arr (ptrAt points (count - 1).toNat)
      (ptrAt points 0) (ptrAt points 1)) radius (by rw [e0, e1, e2]; exact h0)
    unfold roundStart
    rw [if_pos rfl]
    dsimp only
    rw [hA]
    simp

end Corners

/-! ## Corners evaluated on an axis-aligned polyline -/

theorem point_sub_point {F : Type} [Sub F] (a b : Point2d F) :
    (a - b : Vector2d F) = ⟨a.x - b.x, a.y - b.y⟩ := rfl

/-- Witness of C22 at the corner (10,0) of (0,0), (10,0), (10,10) with radius 100:
the offset 100 exceeds the half edge 5, the clamped offset 5 is below 50, and the
iteration appends LineTo (10,0). -/
theorem roundStep_clamped_sharp_witness :
    (roundStep quarterTurnMath segArcQ 3 (some [⟨0, 0⟩, ⟨10, 0⟩, ⟨10, 10⟩]) 100
        (⟨[⟨0, 0⟩], [kGiMoveTo], 0⟩, List.replicate 16 default) 1).1
      = ⟨[⟨0, 0⟩, ⟨10, 0⟩], [kGiMoveTo, kGiLineTo], 0⟩ :=
  congrArg Prod.fst
    (roundStep_clamped_sharp quarterTurnMath segArcQ 3 (some [⟨0, 0⟩, ⟨10, 0⟩, ⟨10, 10⟩]) 100
      (⟨[⟨0, 0⟩], [kGiMoveTo], 0⟩, List.replicate 16 default) 1 (by decide) (by decide)
      (by
        have h2 : Int.toNat 2 = 2 := rfl
        norm_num [cornerTest, dHalfAngle, quarterTurnMath, absQ, ptrAt, point_sub_point, h2])
      (by
        have h2 : Int.toNat 2 = 2 := rfl
        norm_num [dArc, dDist1, dDist2, dHalfAngle, quarterTurnMath, absQ, ptrAt,
          point_sub_point, h2])
      (by
        have h2 : Int.toNat 2 = 2 := rfl
        norm_num [dArc, dDist1, dDist2, dHalfAngle, quarterTurnMath, absQ, ptrAt,
          point_sub_point, h2])).2

/-- C22 fails as stated: on the polyline (0,0), (10,0), (10,10) with radius 100 the
corner (10,0) does not pass the corner test, its offset 100 exceeds the half edges 5
and the clamped offset 5 is below half of 100, yet no arc is emitted there: the output
is MoveTo (0,0), LineTo (10,0), LineTo (10,10), the corner is left sharp. -/
theorem genericRoundLines_clamped_corner :
    ¬ cornerTest quarterTurnMath ⟨0, 0⟩ ⟨10, 0⟩ ⟨10, 10⟩
    ∧ dArc quarterTurnMath ⟨0, 0⟩ ⟨10, 0⟩ ⟨10, 10⟩ 100 = 100
    ∧ dDist1 quarterTurnMath ⟨0, 0⟩ ⟨10, 0⟩ = 5
    ∧ dDist2 quarterTurnMath ⟨10, 0⟩ ⟨10, 10⟩ = 5
    ∧ quarterTurnMath.mgMin 5 5 = 5
    ∧ (5 : ℚ) < 100 * quarterTurnMath.half
    ∧ genericRoundLines quarterTurnMath segArcQ (empty : GiPath ℚ) 3
        (some [⟨0, 0⟩, ⟨10, 0⟩, ⟨10, 10⟩]) 100 false
      = (true, ⟨[⟨0, 0⟩, ⟨10, 0⟩, ⟨10, 10⟩], [kGiMoveTo, kGiLineTo, kGiLineTo], 0⟩) := by
  have h2 : Int.toNat 2 = 2 := rfl
  refine ⟨?_, ?_, ?_, ?_, ?_, ?_, ?_⟩
  · norm_num [cornerTest, dHalfAngle, quarterTurnMath, absQ, point_sub_point]
  · norm_num [dArc, dHalfAngle, quarterTurnMath, absQ, point_sub_point]
  · norm_num [dDist1, quarterTurnMath, absQ, point_sub_point]
  · norm_num [dDist2, quarterTurnMath, absQ, point_sub_point]
  · norm_num [quarterTurnMath]
  · norm_num [quarterTurnMath]
  · norm_num [genericRoundLines, roundStart, roundStep, setCorner, ptrAt, clear, moveTo,
      lineTo, beziersTo, pushBack, AngleToBezier, angleArc, quarterTurnMath, segArcQ,
      point_sub_point, List.range', absQ, h2]

/-- Witness of C23 with the stand-in `sharpMath`, whose angle is 0 at every corner:
the iteration at the corner (10,0) appends LineTo (10,0). -/
theorem roundStep_parallel_sharp_witness :
    (roundStep sharpMath (noArc ℚ) 3 (some [⟨0, 0⟩, ⟨10, 0⟩, ⟨20, 0⟩]) 1
        (⟨[⟨0, 0⟩], [kGiMoveTo], 0⟩, List.replicate 16 default) 1).1
      = ⟨[⟨0, 0⟩, ⟨10, 0⟩], [kGiMoveTo, kGiLineTo], 0⟩ :=
  congrArg Prod.fst
    (roundStep_parallel_sharp sharpMath (noArc ℚ) 3 (some [⟨0, 0⟩, ⟨10, 0⟩, ⟨20, 0⟩]) 1
      (⟨[⟨0, 0⟩], [kGiMoveTo], 0⟩, List.replicate 16 default) 1 (by decide) (by decide)
      (by norm_num [cornerTest, dHalfAngle, sharpMath])).1

/-- C23 fails as stated: on the polyline (0,0), (10,0), (10,10) with radius 1 the
edges at the corner (10,0) are perpendicular (their dot product is 0), half the angle
between them is an eighth of a turn, which is neither below `1e-4` nor within `1e-4`
of the quarter turn, so the corner test does not hold, and the corner is rounded: the
output has LineTo (9,0) and three BezierTo nodes there and no node at (10,0). On the
axis-aligned square (0,0), (10,0), (10,10), (0,10) with radius 1 the same happens at
all four vertices. -/
theorem genericRoundLines_perpendicular_corner :
    ((10 : ℚ) - 0) * (10 - 10) + ((0 : ℚ) - 0) * (10 - 0) = 0
    ∧ dHalfAngle quarterTurnMath ⟨0, 0⟩ ⟨10, 0⟩ ⟨10, 10⟩ = 355 / 452
    ∧ ¬ cornerTest quarterTurnMath ⟨0, 0⟩ ⟨10, 0⟩ ⟨10, 10⟩
    ∧ genericRoundLines quarterTurnMath segArcQ (empty : GiPath ℚ) 3
        (some [⟨0, 0⟩, ⟨10, 0⟩, ⟨10, 10⟩]) 1 false
      = (true, ⟨[⟨0, 0⟩, ⟨9, 0⟩, ⟨9, 0⟩, ⟨9, 0⟩, ⟨9, 0⟩, ⟨10, 10⟩],
          [kGiMoveTo, kGiLineTo, kGiBezierTo, kGiBezierTo, kGiBezierTo, kGiLineTo], 0⟩)
    ∧ (genericRoundLines quarterTurnMath segArcQ (empty : GiPath ℚ) 4
        (some [⟨0, 0⟩, ⟨10, 0⟩, ⟨10, 10⟩, ⟨0, 10⟩]) 1 true).2.types
      = [kGiMoveTo, kGiBezierTo, kGiBezierTo, kGiBezierTo,
          kGiLineTo, kGiBezierTo, kGiBezierTo, kGiBezierTo,
          kGiLineTo, kGiBezierTo, kGiBezierTo, kGiBezierTo,
          kGiLineTo, kGiBezierTo, kGiBezierTo, Int.lor kGiBezierTo kGiCloseFigure] := by
  have h2 : Int.toNat 2 = 2 := rfl
  have h3 : Int.toNat 3 = 3 := rfl
  have h4 : Int.toNat 4 = 4 := rfl
  have hr : List.range 3 = [0, 1, 2] := rfl
  refine ⟨by norm_num, ?_, ?_, ?_, ?_⟩
  · norm_num [dHalfAngle, quarterTurnMath, absQ, point_sub_point]
  · norm_num [cornerTest, dHalfAngle, quarterTurnMath, absQ, point_sub_point]
  · norm_num [genericRoundLines, roundStart, roundStep, setCorner, ptrAt, clear, moveTo,
      lineTo, beziersTo, pushBack, AngleToBezier, angleArc, quarterTurnMath, segArcQ,
      point_sub_point, List.range', absQ, pushLoop, h2, h3, hr]
  · norm_num [genericRoundLines, roundStart, roundStep, setCorner, ptrAt, clear, moveTo,
      lineTo, beziersTo, closeFigure, getSize, pushBack, AngleToBezier, angleArc,
      quarterTurnMath, segArcQ, point_sub_point, List.range', absQ, pushLoop, h2, h3, h4, hr,
      kGiMoveTo, kGiLineTo, kGiBezierTo, kGiQuadTo, kGiCloseFigure]

/-! ## The output of genericRoundLines -/

section RoundOutput
variable {F : Type}

theorem closeFigure_concat (points : List (Point2d F)) (init : List Int) (x b : Int)
    (hb : 0 ≤ b) (hc : b + 3 ≤ (points.length : Int))
    (hlen : points.length = init.length + 1) (hx : isDraw x) :
    closeFigure ⟨points, init ++ [x], b⟩
      = (true, ⟨points, init ++ [Int.lor x kGiCloseFigure], -1⟩) := by
  have hg : (b ≥ 0 ∧ getSize (⟨points, init ++ [x], b⟩ : GiPath F) ≥ b + 3
      ∧ points.length = (init ++ [x]).length) := ⟨hb, hc, by simp [hlen]⟩
  have h1 : points.length - 1 = init.length := by omega
  unfold closeFigure
  rw [if_pos hg]
  simp only [h1, getD_length_append, set_length_append]
  rw [if_pos (show x = kGiLineTo ∨ x = kGiBezierTo ∨ x = kGiQuadTo from hx)]

variable [Zero F] [Add F]

theorem moveTo_clear (p : GiPath F) (pt : Point2d F) :
    (p.clear.moveTo pt false).2 = ⟨[pt], [kGiMoveTo], 0⟩ := by
  simp [moveTo, clear]

variable [Sub F] [Mul F] [Div F] [LT F] [∀ a b : F, Decidable (a < b)]

/-- The loop of `genericRoundLines` over the vertices 1 to `k`, all of them sharp:
one LineTo per vertex. -/
theorem roundLoop_all_sharp (m : Mgmath F) (cm : Mgcurv F) (count : Int)
    (points : Option (List (Point2d F))) (radius : F) (arr : List (Point2d F))
    (harr : 3 ≤ arr.length) (k : Nat)
    (hi : ∀ i : Nat, 1 ≤ i → i ≤ k →
      cornerCount m cm (ptrAt points (i - 1)) (ptrAt points i)
        (ptrAt points (((i : Int) + 1) % count).toNat) radius < 4) :
    ((List.range' 1 k).foldl (roundStep m cm count points radius)
        (⟨[ptrAt points 0], [kGiMoveTo], 0⟩, arr)).1
      = ⟨(List.range (k + 1)).map (ptrAt points), kGiMoveTo :: List.replicate k kGiLineTo, 0⟩
    ∧ 3 ≤ ((List.range' 1 k).foldl (roundStep m cm count points radius)
        (⟨[ptrAt points 0], [kGiMoveTo], 0⟩, arr)).2.length := by
  induction k with
  | zero => exact ⟨rfl, harr⟩
  | succ k ih =>
    obtain ⟨h1, h2⟩ := ih (fun i h1 hk => hi i h1 (by omega))
    rw [List.range'_concat, List.foldl_append]
    simp only [List.foldl_cons, List.foldl_nil, one_mul]
    constructor
    · rw [roundStep_of_lt_four m cm count points radius _ (1 + k) (by rw [h1]) h2
        (hi (1 + k) (by omega) (by omega)), h1]
      simp only [List.range_succ, List.map_append, List.map_cons, List.map_nil,
        List.append_assoc, List.replicate_succ', List.cons_append]
      rw [Nat.add_comm 1 k]
    · exact le_trans h2 (roundStep_length m cm count points radius _ _)

end RoundOutput
section RoundOutputClaims
variable {F : Type} [Zero F] [Add F] [Sub F] [Mul F] [Div F] [LT F]
  [∀ a b : F, Decidable (a < b)]

theorem roundStart_sharp (m : Mgmath F) (cm : Mgcurv F) (p : GiPath F) (count : Int)
    (points : Option (List (Point2d F))) (radius : F) (closed : Bool)
    (h0 : closed = true →
      cornerCount m cm (ptrAt points (count - 1).toNat) (ptrAt points 0) (ptrAt points 1)
        radius < 4) :
    (roundStart m cm p.clear count points radius closed (List.replicate 16 default)).1
      = ⟨[ptrAt points 0], [kGiMoveTo], 0⟩
    ∧ 3 ≤ (roundStart m cm p.clear count points radius closed
        (List.replicate 16 default)).2.length := by
  have h16 : 3 ≤ (List.replicate 16 (default : Point2d F)).length := by simp
  unfold roundStart
  cases closed with
  | false => exact ⟨moveTo_clear p _, h16⟩
  | true =>
    obtain ⟨e0, e1, e2⟩ := setCorner_getD (List.replicate 16 (default : Point2d F))
      (ptrAt points (count - 1).toNat) (ptrAt points 0) (ptrAt points 1) default h16
    have hfst := AngleToBezier_fst m cm (setCorner (List.replicate 16 default)
      (ptrAt points (count - 1).toNat) (ptrAt points 0) (ptrAt points 1)) radius
    rw [e0, e1, e2] at hfst
    have hlen := AngleToBezier_length m cm (setCorner (List.replicate 16 default)
      (ptrAt points (count - 1).toNat) (ptrAt points 0) (ptrAt points 1)) radius
    rw [setCorner_length] at hlen
    rw [if_pos rfl]
    dsimp only
    rw [if_pos (by rw [hfst]; exact h0 rfl)]
    exact ⟨moveTo_clear p _, le_trans h16 hlen⟩

/-- C29: at a loop vertex of `genericRoundLines` where `AngleToBezier` returns fewer
than 4 points, exactly one node is appended, LineTo at that vertex (vertex 0 of a
closed polyline gives the MoveTo node). Hence for input that is accepted
(`count ≥ 3`, buffer not null, radius not below `_MGZERO`) and whose processed
corners all return fewer than 4, the output is the unrounded polyline:
MoveTo `points[0]`, then LineTo `points[1]` .. `points[count-1]`, `count` nodes in
all, the last one with the CloseFigure flag exactly when `closed` is true, and then no
figure is left open. -/
theorem genericRoundLines_all_sharp (m : Mgmath F) (cm : Mgcurv F) (p : GiPath F)
    (count : Int) (points : Option (List (Point2d F))) (radius : F) (closed : Bool)
    (hc : 3 ≤ count) (hp : points ≠ none) (hr : ¬ radius < m._MGZERO)
    (h0 : closed = true →
      cornerCount m cm (ptrAt points (count - 1).toNat) (ptrAt points 0) (ptrAt points 1)
        radius < 4)
    (hi : ∀ i : Nat, 1 ≤ i → (i : Int) < (if closed then count else count - 1) →
      cornerCount m cm (ptrAt points (i - 1)) (ptrAt points i)
        (ptrAt points (((i : Int) + 1) % count).toNat) radius < 4) :
    p.genericRoundLines m cm count points radius closed
      = (true, ⟨(List.range count.toNat).map (ptrAt points),
          kGiMoveTo :: (List.replicate (count.toNat - 2) kGiLineTo
            ++ [if closed then Int.lor kGiLineTo kGiCloseFigure else kGiLineTo]),
          if closed then -1 else 0⟩)
    ∧ ((List.range count.toNat).map (ptrAt points)).length = count.toNat
    ∧ (∀ (st : GiPath F × List (Point2d F)) (i : Nat), 0 ≤ st.1.beginIndex →
        3 ≤ st.2.length →
        cornerCount m cm (ptrAt points (i - 1)) (ptrAt points i)
          (ptrAt points (((i : Int) + 1) % count).toNat) radius < 4 →
        (roundStep m cm count points radius st i).1
          = ⟨st.1.points ++ [ptrAt points i], st.1.types ++ [kGiLineTo],
              st.1.beginIndex⟩) := by
  refine ⟨?_, by simp, fun st i ho hl h => roundStep_of_lt_four m cm count points radius st i
    ho hl h⟩
  obtain ⟨n, rfl⟩ : ∃ n : Nat, count = (n : Int) + 3 := ⟨(count - 3).toNat, by omega⟩
  have hvalid : ¬ ((n : Int) + 3 < 3 ∨ points.isNone = true ∨ radius < m._MGZERO) := by
    rintro (h | h | h)
    · omega
    · cases points with
      | none => exact hp rfl
      | some _ => simp at h
    · exact hr h
  have et : ((n : Int) + 3).toNat = n + 3 := by omega
  obtain ⟨hs1, hs2⟩ := roundStart_sharp m cm p ((n : Int) + 3) points radius closed h0
  unfold genericRoundLines
  dsimp only
  rw [if_neg hvalid]
  cases closed with
  | true =>
    have ek : n + 3 - 1 = n + 2 := by omega
    simp only [if_true, et, ek]
    generalize roundStart m cm p.clear ((n : Int) + 3) points radius true
      (List.replicate 16 default) = st0 at hs1 hs2
    obtain ⟨q0, a0⟩ := st0
    simp only at hs1 hs2
    subst hs1
    have hloop := roundLoop_all_sharp m cm ((n : Int) + 3) points radius a0 hs2 (n + 2)
      (fun i h1 hk => hi i h1 (by simp only [if_true]; omega))
    rw [hloop.1]
    have hsplit : kGiMoveTo :: List.replicate (n + 2) kGiLineTo
        = (kGiMoveTo :: List.replicate (n + 1) kGiLineTo) ++ [kGiLineTo] := by
      rw [List.replicate_succ' (n + 1)]
      rfl
    rw [hsplit, closeFigure_concat _ _ kGiLineTo 0 (le_refl 0)
      (by simp; omega) (by simp) (Or.inl rfl)]
    have e2 : n + 3 - 2 = n + 1 := by omega
    rw [e2]
    rfl
  | false =>
    have el : ((n : Int) + 3 - 1).toNat = n + 2 := by omega
    have ek : n + 2 - 1 = n + 1 := by omega
    simp only [Bool.false_eq_true, if_false, et, el, ek]
    generalize roundStart m cm p.clear ((n : Int) + 3) points radius false
      (List.replicate 16 default) = st0 at hs1 hs2
    obtain ⟨q0, a0⟩ := st0
    simp only at hs1 hs2
    subst hs1
    have hloop := roundLoop_all_sharp m cm ((n : Int) + 3) points radius a0 hs2 (n + 1)
      (fun i h1 hk => hi i h1 (by simp only [Bool.false_eq_true, if_false]; omega))
    rw [hloop.1]
    have e2 : n + 3 - 2 = n + 1 := by omega
    rw [e2, List.range_succ (n + 2)]
    simp [lineTo, pushBack]

end RoundOutputClaims

/-- Witness of C29 with the stand-in `sharpMath`, whose angle is 0 at every corner:
the closed triangle (0,0), (10,0), (10,10). -/
theorem genericRoundLines_all_sharp_witness :
    (GiPath.mk [⟨7, 7⟩] [kGiMoveTo] 0 : GiPath ℚ).genericRoundLines sharpMath (noArc ℚ) 3
        (some [⟨0, 0⟩, ⟨10, 0⟩, ⟨10, 10⟩]) 1 true
      = (true, ⟨[⟨0, 0⟩, ⟨10, 0⟩, ⟨10, 10⟩],
          [kGiMoveTo, kGiLineTo, Int.lor kGiLineTo kGiCloseFigure], -1⟩) :=
  (genericRoundLines_all_sharp sharpMath (noArc ℚ) (GiPath.mk [⟨7, 7⟩] [kGiMoveTo] 0) 3
    (some [⟨0, 0⟩, ⟨10, 0⟩, ⟨10, 10⟩]) 1 true (by decide) (by simp)
    (by norm_num [sharpMath])
    (fun _ => by norm_num [cornerCount, AngleToBezier, sharpMath])
    (fun i _ _ => by norm_num [cornerCount, AngleToBezier, sharpMath])).1

/-! ## genericRoundLines builds a single figure -/

section SingleFigure
variable {F : Type}

/-- The state of the path inside `genericRoundLines`: the figure opened at node 0 by
the MoveTo at `first`, followed by at least `k` nodes, all LineTo or BezierTo. -/
def RoundInv (first : Point2d F) (k : Nat) (q : GiPath F) : Prop :=
  q.beginIndex = 0 ∧ ∃ (restP : List (Point2d F)) (restT : List Int),
    q.points = first :: restP ∧ q.types = kGiMoveTo :: restT
    ∧ restP.length = restT.length ∧ k ≤ restT.length
    ∧ ∀ t ∈ restT, t = kGiLineTo ∨ t = kGiBezierTo

theorem roundInv_append {first : Point2d F} {k : Nat} {q : GiPath F}
    (h : RoundInv first k q) (pts : List (Point2d F)) (tys : List Int)
    (hlen : pts.length = tys.length) (hall : ∀ t ∈ tys, t = kGiLineTo ∨ t = kGiBezierTo) :
    RoundInv first (k + tys.length) ⟨q.points ++ pts, q.types ++ tys, q.beginIndex⟩ := by
  obtain ⟨hb, restP, restT, hp, ht, hl, hk, ha⟩ := h
  refine ⟨hb, restP ++ pts, restT ++ tys, by simp [hp], by simp [ht], by simp [hl, hlen],
    by simp; omega, ?_⟩
  intro t hmem
  rcases List.mem_append.mp hmem with h1 | h1
  · exact ha t h1
  · exact hall t h1

theorem roundInv_mono {first : Point2d F} {k k' : Nat} {q : GiPath F}
    (h : RoundInv first k q) (hk : k' ≤ k) : RoundInv first k' q := by
  obtain ⟨hb, restP, restT, hp, ht, hl, hk0, ha⟩ := h
  exact ⟨hb, restP, restT, hp, ht, hl, le_trans hk hk0, ha⟩

variable [Zero F] [Add F]

theorem roundInv_lineTo {first : Point2d F} {k : Nat} {q : GiPath F}
    (h : RoundInv first k q) (pt : Point2d F) :
    (q.lineTo pt false).2 = ⟨q.points ++ [pt], q.types ++ [kGiLineTo], q.beginIndex⟩
    ∧ RoundInv first (k + 1) (q.lineTo pt false).2 := by
  have hb : (0 : Int) ≤ q.beginIndex := by rw [h.1]
  have he : (q.lineTo pt false).2 = ⟨q.points ++ [pt], q.types ++ [kGiLineTo], q.beginIndex⟩ := by
    simp [lineTo, hb, pushBack]
  refine ⟨he, ?_⟩
  rw [he]
  exact roundInv_append h [pt] [kGiLineTo] rfl (by simp)

theorem roundInv_beziersTo {first : Point2d F} {k : Nat} {q : GiPath F}
    (h : RoundInv first k q) (count : Int) (points : Option (List (Point2d F))) :
    RoundInv first k (q.beziersTo count points false false).2 := by
  by_cases hg : 0 ≤ q.beginIndex ∧ points ≠ none ∧ 0 < count ∧ count % 3 = 0
  · rw [beziersTo_of_guard q count points false false hg]
    simp only [Bool.false_eq_true, if_false]
    exact roundInv_mono (roundInv_append h _ (List.replicate count.toNat kGiBezierTo)
      (by simp) (fun t ht => Or.inr (List.mem_replicate.mp ht).2)) (Nat.le_add_right _ _)
  · rw [beziersTo_of_not_guard q count points false false hg]
    exact h

theorem roundInv_moveTo_clear (p : GiPath F) (pt : Point2d F) :
    RoundInv pt 0 (p.clear.moveTo pt false).2 := by
  rw [moveTo_clear]
  exact ⟨rfl, [], [], rfl, rfl, rfl, le_refl 0, fun t ht => absurd ht (List.not_mem_nil t)⟩

variable [Sub F] [Mul F] [Div F] [LT F] [∀ a b : F, Decidable (a < b)]

theorem roundInv_roundStart (m : Mgmath F) (cm : Mgcurv F) (p : GiPath F) (count : Int)
    (points : Option (List (Point2d F))) (radius : F) (closed : Bool)
    (arr : List (Point2d F)) :
    ∃ first : Point2d F,
      RoundInv first 0 (roundStart m cm p.clear count points radius closed arr).1
      ∧ (closed = false → first = ptrAt points 0) := by
  unfold roundStart
  cases closed with
  | false => exact ⟨ptrAt points 0, roundInv_moveTo_clear p _, fun _ => rfl⟩
  | true =>
    rw [if_pos rfl]
    dsimp only
    split
    · exact ⟨_, roundInv_moveTo_clear p _, fun h => Bool.noConfusion h⟩
    · exact ⟨_, roundInv_beziersTo (roundInv_moveTo_clear p _) _ _,
        fun h => Bool.noConfusion h⟩

theorem roundInv_roundStep (m : Mgmath F) (cm : Mgcurv F) (count : Int)
    (points : Option (List (Point2d F))) (radius : F) {first : Point2d F} {k : Nat}
    {st : GiPath F × List (Point2d F)} (h : RoundInv first k st.1) (i : Nat) :
    RoundInv first (k + 1) (roundStep m cm count points radius st i).1 := by
  unfold roundStep
  dsimp only
  split
  · exact (roundInv_lineTo h _).2
  · exact roundInv_beziersTo (roundInv_lineTo h _).2 _ _

theorem roundInv_roundLoop (m : Mgmath F) (cm : Mgcurv F) (count : Int)
    (points : Option (List (Point2d F))) (radius : F) {first : Point2d F} (l : List Nat)
    {k : Nat} {st : GiPath F × List (Point2d F)} (h : RoundInv first k st.1) :
    RoundInv first (k + l.length) (l.foldl (roundStep m cm count points radius) st).1 := by
  induction l generalizing k st with
  | nil => exact h
  | cons i l ih =>
    have h2 := ih (roundInv_roundStep m cm count points radius h i)
    simp only [List.foldl_cons, List.length_cons]
    exact roundInv_mono h2 (by omega)

/-- C21 (as the code has it): for every input that `genericRoundLines` accepts
(`count ≥ 3`, buffer not null, radius not below `_MGZERO`) the result is a single
figure: node 0 is the only MoveTo, the nodes between it and the last are LineTo or
BezierTo without flag; when `closed` is false the first node is at `points[0]`, the
last node is LineTo at `points[count-1]` without the CloseFigure flag and the marker
stays 0; when `closed` is true the last node is LineTo or BezierTo with the
CloseFigure flag and the marker is -1. -/
theorem genericRoundLines_single_figure (m : Mgmath F) (cm : Mgcurv F) (p : GiPath F)
    (count : Int) (points : Option (List (Point2d F))) (radius : F) (closed : Bool)
    (hc : 3 ≤ count) (hp : points ≠ none) (hr : ¬ radius < m._MGZERO) :
    ∃ (first lastP : Point2d F) (midP : List (Point2d F)) (midT : List Int) (lastT : Int),
      p.genericRoundLines m cm count points radius closed
        = (true, ⟨first :: (midP ++ [lastP]), kGiMoveTo :: (midT ++ [lastT]),
            if closed then -1 else 0⟩)
      ∧ midP.length = midT.length
      ∧ (∀ t ∈ midT, t = kGiLineTo ∨ t = kGiBezierTo)
      ∧ (∀ t ∈ midT ++ [lastT], t ≠ kGiMoveTo)
      ∧ (closed = false →
          first = ptrAt points 0 ∧ lastP = ptrAt points (count - 1).toNat
          ∧ lastT = kGiLineTo)
      ∧ (closed = true →
          lastT = Int.lor kGiLineTo kGiCloseFigure
          ∨ lastT = Int.lor kGiBezierTo kGiCloseFigure) := by
  have hvalid : ¬ (count < 3 ∨ points.isNone = true ∨ radius < m._MGZERO) := by
    rintro (h | h | h)
    · omega
    · cases points with
      | none => exact hp rfl
      | some _ => simp at h
    · exact hr h
  have hne : ∀ t : Int, (t = kGiLineTo ∨ t = kGiBezierTo) → t ≠ kGiMoveTo := by
    rintro t (h | h) <;> rw [h] <;> decide
  obtain ⟨first, hstart, hfirst⟩ := roundInv_roundStart m cm p count points radius closed
    (List.replicate 16 default)
  unfold genericRoundLines
  dsimp only
  rw [if_neg hvalid]
  cases closed with
  | true =>
    simp only [if_true]
    have hloop := roundInv_roundLoop m cm count points radius
      (List.range' 1 (count.toNat - 1)) hstart
    generalize (List.range' 1 (count.toNat - 1)).foldl (roundStep m cm count points radius)
      (roundStart m cm p.clear count points radius true (List.replicate 16 default))
      = st at hloop
    obtain ⟨hb, restP, restT, hpts, hty, hl, hk, ha⟩ := hloop
    simp only [List.length_range', zero_add] at hk
    obtain ⟨midT, x, rfl⟩ := exists_concat_of_pos restT (by omega)
    obtain ⟨midP, lastP, rfl⟩ := exists_concat_of_pos restP (by omega)
    have hx : x = kGiLineTo ∨ x = kGiBezierTo := ha x (by simp)
    simp only [List.length_append, List.length_singleton] at hk hl
    obtain ⟨q, a⟩ := st
    obtain ⟨qp, qt, qb⟩ := q
    simp only at hb hpts hty
    subst hb hpts hty
    have hcf : closeFigure ⟨first :: (midP ++ [lastP]), kGiMoveTo :: (midT ++ [x]), 0⟩
        = (true, ⟨first :: (midP ++ [lastP]),
            kGiMoveTo :: (midT ++ [Int.lor x kGiCloseFigure]), -1⟩) :=
      closeFigure_concat (first :: (midP ++ [lastP])) (kGiMoveTo :: midT) x 0
        (le_refl 0) (by simp; omega) (by simp; omega)
        (hx.elim Or.inl (fun h => Or.inr (Or.inl h)))
    refine ⟨first, lastP, midP, midT, Int.lor x kGiCloseFigure, ?_, by omega,
      fun t ht => ha t (by simp [ht]), ?_, fun h => Bool.noConfusion h, fun _ => ?_⟩
    · simp only
      rw [hcf]
    · intro t ht
      rcases List.mem_append.mp ht with h1 | h1
      · exact hne t (ha t (by simp [h1]))
      · rw [List.mem_singleton.mp h1]
        rcases hx with h | h <;> rw [h] <;> decide
    · rcases hx with h | h
      · exact Or.inl (by rw [h])
      · exact Or.inr (by rw [h])
  | false =>
    simp only [Bool.false_eq_true, if_false]
    have hloop := roundInv_roundLoop m cm count points radius
      (List.range' 1 ((count - 1).toNat - 1)) hstart
    generalize (List.range' 1 ((count - 1).toNat - 1)).foldl
      (roundStep m cm count points radius)
      (roundStart m cm p.clear count points radius false (List.replicate 16 default))
      = st at hloop
    obtain ⟨he, -⟩ := roundInv_lineTo hloop (ptrAt points (count - 1).toNat)
    obtain ⟨hb, restP, restT, hpts, hty, hl, -, ha⟩ := hloop
    rw [he, hpts, hty, hb]
    exact ⟨first, ptrAt points (count - 1).toNat, restP, restT, kGiLineTo, rfl, hl, ha,
      fun t ht => (List.mem_append.mp ht).elim (fun h1 => hne t (ha t h1))
        (fun h1 => by rw [List.mem_singleton.mp h1]; decide),
      fun _ => ⟨hfirst rfl, rfl, rfl⟩, fun h => by simp at h⟩

end SingleFigure

/-- Witness of C21: the open polyline (0,0), (10,0), (10,10) rounded with radius 1 by
the stand-ins is accepted, and its first type is MoveTo. -/
theorem genericRoundLines_single_figure_witness :
    ∃ (first lastP : Point2d ℚ) (midP : List (Point2d ℚ)) (midT : List Int) (lastT : Int),
      (empty : GiPath ℚ).genericRoundLines quarterTurnMath segArcQ 3
          (some [⟨0, 0⟩, ⟨10, 0⟩, ⟨10, 10⟩]) 1 false
        = (true, ⟨first :: (midP ++ [lastP]), kGiMoveTo :: (midT ++ [lastT]), 0⟩) :=
  (genericRoundLines_single_figure quarterTurnMath segArcQ (empty : GiPath ℚ) 3
    (some [⟨0, 0⟩, ⟨10, 0⟩, ⟨10, 10⟩]) 1 false (by decide) (by simp)
    (by norm_num [quarterTurnMath])).imp
    (fun _ h => h.imp (fun _ h => h.imp (fun _ h => h.imp (fun _ h => h.imp
      (fun _ h => h.1)))))

/-- C21 fails as stated: whenever the zero tolerance `_MGZERO` is positive there is a
positive radius, half the tolerance, at which `genericRoundLines` on 3 vertices
returns false and leaves the path without any node, so the result has no MoveTo at
index 0; with the tolerance `2e-6` the radius `1e-6` is such a radius. -/
theorem genericRoundLines_positive_radius_rejected :
    (∀ m : Mgmath ℚ, 0 < m._MGZERO → ∃ radius : ℚ, 0 < radius ∧
      ∀ (cm : Mgcurv ℚ) (p : GiPath ℚ) (a b c : Point2d ℚ) (closed : Bool),
        p.genericRoundLines m cm 3 (some [a, b, c]) radius closed = (false, ⟨[], [], -1⟩))
    ∧ (0 : ℚ) < 1 / 1000000
    ∧ (empty : GiPath ℚ).genericRoundLines sharpMath (noArc ℚ) 3
        (some [⟨0, 0⟩, ⟨10, 0⟩, ⟨10, 10⟩]) (1 / 1000000) false = (false, ⟨[], [], -1⟩)
    ∧ ((empty : GiPath ℚ).genericRoundLines sharpMath (noArc ℚ) 3
        (some [⟨0, 0⟩, ⟨10, 0⟩, ⟨10, 10⟩]) (1 / 1000000) false).2.getNodeType 0
        ≠ kGiMoveTo := by
  have hsm : (empty : GiPath ℚ).genericRoundLines sharpMath (noArc ℚ) 3
      (some [⟨0, 0⟩, ⟨10, 0⟩, ⟨10, 10⟩]) (1 / 1000000) false = (false, ⟨[], [], -1⟩) :=
    genericRoundLines_of_invalid sharpMath (noArc ℚ) _ 3 _ _ false
      (Or.inr (Or.inr (by
        show (1 / 1000000 : ℚ) < 2 / 1000000
        norm_num)))
  refine ⟨?_, by norm_num, hsm, ?_⟩
  · intro m hz
    refine ⟨m._MGZERO / 2, by linarith, ?_⟩
    intro cm p a b c closed
    exact genericRoundLines_of_invalid m cm p 3 (some [a, b, c]) (m._MGZERO / 2) closed
      (Or.inr (Or.inr (by linarith)))
  · rw [hsm]
    decide

/-! ## Relative mode -/

section Relative
variable {F : Type} [Zero F]

theorem map_range_ptrAt {β : Type} (pts : List (Point2d F)) (g : Point2d F → β) :
    (List.range pts.length).map (fun i => g (ptrAt (some pts) i)) = pts.map g :=
  map_range_getD pts default g

variable [Add F]

theorem pushLoop_abs (p : GiPath F) (pts : List (Point2d F)) (lastpt : Point2d F)
    (type : Int) :
    p.pushLoop pts.length (some pts) false lastpt type
      = ⟨p.points ++ pts, p.types ++ List.replicate pts.length type, p.beginIndex⟩ := by
  rw [pushLoop_eq]
  simp only [Int.toNat_ofNat, Bool.false_eq_true, if_false]
  rw [map_range_ptrAt pts (fun q => q)]
  simp

theorem pushLoop_rel (p : GiPath F) (pts : List (Point2d F)) (lastpt : Point2d F)
    (type : Int) :
    p.pushLoop pts.length (some pts) true lastpt type
      = ⟨p.points ++ pts.map (fun q => q + lastpt),
          p.types ++ List.replicate pts.length type, p.beginIndex⟩ := by
  rw [pushLoop_eq]
  simp only [Int.toNat_ofNat, if_true]
  rw [map_range_ptrAt pts (fun q => q + lastpt)]

theorem pushLoop_rel_eq_abs (p : GiPath F) (pts : List (Point2d F)) (lastpt e : Point2d F)
    (type : Int) :
    p.pushLoop pts.length (some pts) true e type
      = p.pushLoop ((pts.map (fun q => q + e)).length : Nat)
          (some (pts.map (fun q => q + e))) false lastpt type := by
  rw [pushLoop_rel, pushLoop_abs]
  simp

theorem pushLoopRev_rel_eq_abs (p : GiPath F) (pts : List (Point2d F)) (lastpt e : Point2d F)
    (type : Int) :
    p.pushLoopRev pts.length (some pts) true e type
      = p.pushLoopRev ((pts.map (fun q => q + e)).length : Nat)
          (some (pts.map (fun q => q + e))) false lastpt type := by
  rw [pushLoopRev_eq, pushLoopRev_eq]
  simp only [Int.toNat_ofNat, if_true, Bool.false_eq_true, if_false, List.length_map]
  have h1 := map_range_ptrAt pts (fun q => q + e)
  have h2 := map_range_ptrAt (pts.map (fun q => q + e)) (fun q => q)
  simp only [List.length_map] at h2
  rw [h1, h2]
  simp

/-- C32: relative mode uses one fixed offset, the end point `E` before the call. On a
path with an open figure, `linesTo`, `beziersTo` and `quadsTo` with `rel = true` on a
point list give the same result as with `rel = false` on the list with `E` added to
every point, and when they succeed the points appended are `pts[i] + E`; `horzTo x`
and `vertTo y` append LineTo at `(x, E.y)` and `(E.x, y)` in absolute mode and at
`(E.x + x, E.y)` and `(E.x, E.y + y)` in relative mode. -/
theorem relative_fixed_offset (p : GiPath F) (pts : List (Point2d F)) (x y : F)
    (reverse : Bool) (hopen : 0 ≤ p.beginIndex) :
    p.linesTo pts.length (some pts) true
        = p.linesTo pts.length (some (pts.map (fun q => q + p.getEndPoint))) false
    ∧ p.beziersTo pts.length (some pts) reverse true
        = p.beziersTo pts.length (some (pts.map (fun q => q + p.getEndPoint))) reverse false
    ∧ p.quadsTo pts.length (some pts) true
        = p.quadsTo pts.length (some (pts.map (fun q => q + p.getEndPoint))) false
    ∧ (0 < pts.length →
        p.linesTo pts.length (some pts) true
          = (true, ⟨p.points ++ pts.map (fun q => q + p.getEndPoint),
              p.types ++ List.replicate pts.length kGiLineTo, p.beginIndex⟩))
    ∧ (0 < pts.length → pts.length % 3 = 0 →
        p.beziersTo pts.length (some pts) false true
          = (true, ⟨p.points ++ pts.map (fun q => q + p.getEndPoint),
              p.types ++ List.replicate pts.length kGiBezierTo, p.beginIndex⟩))
    ∧ (0 < pts.length → pts.length % 2 = 0 →
        p.quadsTo pts.length (some pts) true
          = (true, ⟨p.points ++ pts.map (fun q => q + p.getEndPoint),
              p.types ++ List.replicate pts.length kGiQuadTo, p.beginIndex⟩))
    ∧ p.horzTo x false
        = (true, ⟨p.points ++ [⟨x, p.getEndPoint.y⟩], p.types ++ [kGiLineTo], p.beginIndex⟩)
    ∧ p.horzTo x true
        = (true, ⟨p.points ++ [⟨p.getEndPoint.x + x, p.getEndPoint.y⟩],
            p.types ++ [kGiLineTo], p.beginIndex⟩)
    ∧ p.vertTo y false
        = (true, ⟨p.points ++ [⟨p.getEndPoint.x, y⟩], p.types ++ [kGiLineTo], p.beginIndex⟩)
    ∧ p.vertTo y true
        = (true, ⟨p.points ++ [⟨p.getEndPoint.x, p.getEndPoint.y + y⟩],
            p.types ++ [kGiLineTo], p.beginIndex⟩) := by
  have hl := pushLoop_rel_eq_abs p pts p.getEndPoint p.getEndPoint
  have hr := pushLoopRev_rel_eq_abs p pts p.getEndPoint p.getEndPoint
  simp only [List.length_map] at hl hr
  refine ⟨?_, ?_, ?_, ?_, ?_, ?_, ?_, ?_, ?_, ?_⟩
  · simp only [linesTo, Option.isSome_some, hl]
  · simp only [beziersTo, Option.isSome_some, hl, hr]
  · simp only [quadsTo, Option.isSome_some, hl]
  · intro hpos
    have hc : (0 : Int) < (pts.length : Int) := by omega
    simp [linesTo, hopen, hc, pushLoop_rel]
  · intro hpos h3
    rw [beziersTo_of_guard p _ _ _ _ ⟨hopen, by simp, by omega, by omega⟩]
    simp only [Bool.false_eq_true, if_false, if_true, Int.toNat_ofNat]
    rw [map_range_ptrAt pts (fun q => q + p.getEndPoint)]
  · intro hpos h2
    rw [quadsTo_of_guard p _ _ _ ⟨hopen, by simp, by omega, by omega⟩]
    simp only [if_true, Int.toNat_ofNat]
    rw [map_range_ptrAt pts (fun q => q + p.getEndPoint)]
  · simp [horzTo, hopen, pushBack]
  · simp [horzTo, hopen, pushBack]
  · simp [vertTo, hopen, pushBack]
  · simp [vertTo, hopen, pushBack]

end Relative

/-- Witness of C32: two points appended relative to the end point (5,5). -/
theorem relative_fixed_offset_witness :
    (GiPath.mk [⟨5, 5⟩] [kGiMoveTo] 0 : GiPath Int).linesTo 2 (some [⟨1, 0⟩, ⟨2, 0⟩]) true
      = (true, ⟨[⟨5, 5⟩, ⟨6, 5⟩, ⟨7, 5⟩], [kGiMoveTo, kGiLineTo, kGiLineTo], 0⟩) :=
  (relative_fixed_offset (GiPath.mk [⟨5, 5⟩] [kGiMoveTo] 0 : GiPath Int)
    [⟨1, 0⟩, ⟨2, 0⟩] 0 0 false (by decide)).2.2.2.1 (by decide)

/-! ## setPath -/

section SetPath
variable {F : Type}

theorem foldl_pushBack_both {ι : Type} (f : ι → Point2d F) (g : ι → Int) (l : List ι)
    (p : GiPath F) :
    l.foldl (fun q i => q.pushBack (f i) (g i)) p
      = ⟨p.points ++ l.map f, p.types ++ l.map g, p.beginIndex⟩ := by
  induction l generalizing p with
  | nil => simp
  | cons a l ih =>
    rw [List.foldl_cons, ih]
    simp [pushBack]

theorem foldl_set_both (f : Nat → Point2d F) (g : Nat → Int) (l : List Nat) (p : GiPath F) :
    l.foldl (fun q i => (⟨q.points.set i (f i), q.types.set i (g i), q.beginIndex⟩ : GiPath F)) p
      = ⟨l.foldl (fun a i => a.set i (f i)) p.points,
          l.foldl (fun a i => a.set i (g i)) p.types, p.beginIndex⟩ := by
  induction l generalizing p with
  | nil => rfl
  | cons a l ih => rw [List.foldl_cons, ih]; rfl

theorem set_append_length {α : Type} (a b : List α) (v : α) :
    (a ++ b).set a.length v = a ++ b.set 0 v := by
  induction a with
  | nil => rfl
  | cons x a ih => simp [ih]

/-- Overwriting the entries 0 to `k - 1` of a list one by one. -/
theorem foldl_set_range {α : Type} (f : Nat → α) (l : List α) (k : Nat) (hk : k ≤ l.length) :
    (List.range k).foldl (fun a i => a.set i (f i)) l = (List.range k).map f ++ l.drop k := by
  induction k with
  | zero => simp
  | succ k ih =>
    rw [List.range_succ, List.foldl_append, ih (by omega)]
    simp only [List.foldl_cons, List.foldl_nil, List.map_append, List.map_cons, List.map_nil]
    have hlen : ((List.range k).map f).length = k := by simp
    have h1 := set_append_length ((List.range k).map f) (l.drop k) (f k)
    rw [hlen] at h1
    have h2 : l.drop k = l[k] :: l.drop (k + 1) := List.drop_eq_getElem_cons (by omega)
    rw [h1, h2, List.set_cons_zero]
    simp only [List.append_assoc, List.cons_append, List.nil_append]

theorem map_range_typeAt (tys : List Int) :
    (List.range tys.length).map (typeAt (some tys)) = tys := by
  have h := map_range_getD tys 0 (fun t => t)
  rw [List.map_id'] at h
  exact h

variable [Zero F]

/-- With a new node count `setPath` clears the path and copies the arguments: the
marker is -1. -/
theorem setPath_of_ne (p : GiPath F) (pts : List (Point2d F)) (tys : List Int)
    (hne : p.getCount ≠ (pts.length : Int)) (hpos : 0 < pts.length)
    (hlen : pts.length = tys.length) :
    p.setPath pts.length (some pts) (some tys) = ⟨pts, tys, -1⟩ := by
  have hg : ((pts.length : Int) > 0 ∧ (some pts).isSome = true ∧ (some tys).isSome = true) :=
    ⟨by omega, rfl, rfl⟩
  unfold setPath
  rw [if_pos hne]
  dsimp only
  rw [if_pos hg, foldl_pushBack_both]
  have h1 := map_range_ptrAt pts (fun q => q)
  have h2 := map_range_typeAt tys
  simp only [Int.toNat_ofNat, clear, List.nil_append]
  rw [List.map_id'] at h1
  rw [h1, hlen, h2]

/-- With the node count the path already has, `setPath` overwrites the nodes in place
and keeps the marker. -/
theorem setPath_of_eq (p : GiPath F) (pts : List (Point2d F)) (tys : List Int)
    (heq : p.getCount = (pts.length : Int)) (hwf : p.points.length = p.types.length)
    (hlen : pts.length = tys.length) :
    p.setPath pts.length (some pts) (some tys) = ⟨pts, tys, p.beginIndex⟩ := by
  have hp : p.points.length = pts.length := by
    simp only [getCount, getSize] at heq
    omega
  unfold setPath
  rw [if_neg (not_not.mpr heq), foldl_set_both]
  simp only [Int.toNat_ofNat]
  have h1 := map_range_ptrAt pts (fun q => q)
  have h2 := map_range_typeAt tys
  rw [List.map_id'] at h1
  rw [foldl_set_range _ p.points pts.length (by omega), h1]
  rw [hlen, foldl_set_range _ p.types tys.length (by omega), h2]
  rw [List.drop_of_length_le (by omega), List.drop_of_length_le (by omega)]
  simp

/-- C31 fails on the code: `setPath` resets the marker only when the node count
changes. Called with the count the path already has, it overwrites the nodes and
keeps the old marker: after `moveTo (0,0); lineTo (1,0)`, `setPath` with the 2 nodes
MoveTo (5,5), LineTo (6,6) leaves the marker 0, so a figure is still open and a
following `lineTo` succeeds, whereas from any path of another size the same call ends
with the marker -1. -/
theorem setPath_keeps_marker (p : GiPath F) (pts : List (Point2d F)) (tys : List Int) :
    (p.getCount = (pts.length : Int) → p.points.length = p.types.length →
        pts.length = tys.length →
        p.setPath pts.length (some pts) (some tys) = ⟨pts, tys, p.beginIndex⟩)
    ∧ (p.getCount ≠ (pts.length : Int) → 0 < pts.length → pts.length = tys.length →
        p.setPath pts.length (some pts) (some tys) = ⟨pts, tys, -1⟩)
    ∧ (GiPath.mk [⟨0, 0⟩, ⟨1, 0⟩] [kGiMoveTo, kGiLineTo] 0 : GiPath Int).setPath 2
          (some [⟨5, 5⟩, ⟨6, 6⟩]) (some [kGiMoveTo, kGiLineTo])
        = ⟨[⟨5, 5⟩, ⟨6, 6⟩], [kGiMoveTo, kGiLineTo], 0⟩
    ∧ (((GiPath.mk [⟨0, 0⟩, ⟨1, 0⟩] [kGiMoveTo, kGiLineTo] 0 : GiPath Int).setPath 2
          (some [⟨5, 5⟩, ⟨6, 6⟩]) (some [kGiMoveTo, kGiLineTo])).lineTo ⟨7, 7⟩ false).1 = true
    ∧ (GiPath.mk [⟨0, 0⟩] [kGiMoveTo] 0 : GiPath Int).setPath 2
          (some [⟨5, 5⟩, ⟨6, 6⟩]) (some [kGiMoveTo, kGiLineTo])
        = ⟨[⟨5, 5⟩, ⟨6, 6⟩], [kGiMoveTo, kGiLineTo], -1⟩ := by
  exact ⟨fun h1 h2 h3 => setPath_of_eq p pts tys h1 h2 h3,
    fun h1 h2 h3 => setPath_of_ne p pts tys h1 h2 h3, by decide, by decide, by decide⟩

end SetPath

end GiPath

/-! ## Deferred redraw under a DrawLocker -/

namespace DrawLocker

open GiCoreViewImpl

/-- While the redraw counter is not negative, a run of `redraw` calls only adds to it:
100 for every call with `changed = true` and 1 for every other call. -/
theorem foldl_redraw_pending (l : List Bool) (s : GiCoreViewImpl) (h : 0 ≤ s.redrawPending) :
    l.foldl redraw s
      = { s with redrawPending :=
            s.redrawPending + (100 * (l.count true : Int) + (l.count false : Int)) } := by
  induction l generalizing s with
  | nil => simp
  | cons b l ih =>
    have hge : s.redrawPending ≥ 0 := h
    rw [List.foldl_cons]
    have hstep : redraw s b
        = { s with redrawPending := s.redrawPending + (if b = true then 100 else 1) } := by
      unfold redraw
      rw [if_pos hge]
    rw [hstep, ih _ (by cases b <;> simp <;> omega)]
    cases b <;> simp [List.count_cons] <;> omega

/-- The state in which a locker acquired on an idle view implementation is released
after a non-empty run of `redraw` calls. -/
theorem release_after_redraws (s : GiCoreViewImpl) (v : Nat) (l : List Bool)
    (h1 : s.regenPending < 0) (h2 : s.appendPending < 0) (h3 : s.redrawPending < 0)
    (hv : s.curview = some v) (hl : l ≠ []) :
    release true (l.foldl redraw (acquire s).1)
      = { s with regenPending := -1, appendPending := -1, redrawPending := -1,
                 calls := s.calls ++ [(v, DeviceCall.redraw
                   (decide (100 * (l.count true : Int) + (l.count false : Int) ≥ 100)))] } := by
  have hacq : acquire s
      = ({ s with regenPending := 0, appendPending := 0, redrawPending := 0 }, true) := by
    unfold acquire
    rw [if_pos ⟨h1, h2, h3⟩]
  have hpos : 0 < 100 * (l.count true : Int) + (l.count false : Int) := by
    cases l with
    | nil => exact absurd rfl hl
    | cons b l => cases b <;> simp [List.count_cons] <;> omega
  rw [hacq, foldl_redraw_pending _ _ (le_refl _)]
  unfold release
  simp only [Bool.true_eq_false, if_false, lt_irrefl, gt_iff_lt, zero_add]
  rw [if_pos hpos]
  unfold redraw callView
  simp [hv]

/-- The release after `n` calls `redraw(false)` on an idle view implementation with
one view. -/
theorem release_unchanged (n : Nat) (hn : 0 < n) :
    release true ((List.replicate n false).foldl redraw
        (acquire ⟨-1, -1, -1, some 0, false, [0], []⟩).1)
      = ⟨-1, -1, -1, some 0, false, [0], [(0, DeviceCall.redraw (decide ((n : Int) ≥ 100)))]⟩ := by
  have hl : List.replicate n false ≠ [] := by
    cases n with
    | zero => omega
    | succ n => simp [List.replicate_succ]
  have h := release_after_redraws ⟨-1, -1, -1, some 0, false, [0], []⟩ 0
    (List.replicate n false) (by decide) (by decide) (by decide) rfl hl
  rw [h]
  simp [List.count_replicate]

/-- C33 fails on the code: the deferred `redraw` calls are counted in one number, 100
for a call with `changed = true` and 1 for any other, and the release passes
`redrawPending >= 100` as the flag. On an idle view implementation with a current
view `v`, a locker is acquired, no deferred call reaches a device view, and the
release resets the three counters to -1 and sends exactly one `redraw(c)` to `v`,
where `c` says that 100 times the number of changed calls plus the number of unchanged
calls is at least 100 (counters taken as unbounded integers). So 100 calls
`redraw(false)` are released as `redraw(true)` although none of them had
`changed = true`; 99 such calls are released as `redraw(false)`. -/
theorem redraw_count_saturates :
    (∀ (s : GiCoreViewImpl) (v : Nat) (l : List Bool),
      s.regenPending < 0 → s.appendPending < 0 → s.redrawPending < 0 →
      s.curview = some v → l ≠ [] →
        (acquire s).2 = true
        ∧ (l.foldl redraw (acquire s).1).calls = s.calls
        ∧ release true (l.foldl redraw (acquire s).1)
            = { s with regenPending := -1, appendPending := -1, redrawPending := -1,
                       calls := s.calls ++ [(v, DeviceCall.redraw
                         (decide (100 * (l.count true : Int) + (l.count false : Int) ≥ 100)))] })
    ∧ release true ((List.replicate 100 false).foldl redraw
          (acquire ⟨-1, -1, -1, some 0, false, [0], []⟩).1)
        = ⟨-1, -1, -1, some 0, false, [0], [(0, DeviceCall.redraw true)]⟩
    ∧ release true ((List.replicate 99 false).foldl redraw
          (acquire ⟨-1, -1, -1, some 0, false, [0], []⟩).1)
        = ⟨-1, -1, -1, some 0, false, [0], [(0, DeviceCall.redraw false)]⟩ := by
  refine ⟨?_, ?_, ?_⟩
  · intro s v l h1 h2 h3 hv hl
    have hacq : acquire s
        = ({ s with regenPending := 0, appendPending := 0, redrawPending := 0 }, true) := by
      unfold acquire
      rw [if_pos ⟨h1, h2, h3⟩]
    refine ⟨by rw [hacq], ?_, release_after_redraws s v l h1 h2 h3 hv hl⟩
    rw [hacq, foldl_redraw_pending _ _ (le_refl _)]
  · rw [release_unchanged 100 (by decide)]
    simp
  · rw [release_unchanged 99 (by decide)]
    simp

end DrawLocker

end Vgcore
